import Mathlib

/-!
# Himorganic storefront: order, product and auth logic on the JSON backend

A shallow embedding of the server-side JavaScript of the repository
(`src/utils/database.js`, `src/utils/dbAdapter.js`, `src/controllers/*.js`,
`src/middleware/auth.js`) and of the amounts the client's checkout page
computes (`client/src/store/cartStore.ts`, `client/src/pages/Checkout.tsx`).

Modelling conventions
* A JSON collection file is the list of its records; `read` returns it and
  `write` replaces it (file-system failures are not modelled).
* JavaScript numbers that the controllers compute with (price, stock,
  quantity, totals) are integers (`Int`); a request may carry any integer
  quantity, negative ones included.  Decimal arithmetic is exact: the
  rounding of doubles is not modelled.
* A quantity, a stock, a line subtotal and an order total may also be `NaN`
  (`JNum`).  `JSON.stringify` writes `NaN` as `null`, and a `null` read back
  from a collection file converts to `0` in arithmetic and comparisons.
* Strings are compared as JavaScript compares them, by UTF-16 code units.
* `parseInt` and `parseFloat` follow ECMAScript on their text; `parseFloat`
  keeps the decimal it reads as mantissa and exponent.
* `String.prototype.toLowerCase` is the engine's function and enters as a
  parameter of `getProducts`.
* `uuidv4()`, `Date.now()` and `new Date()` are inputs of a request (`Env`);
  one request sees one timestamp.
* `jsonwebtoken` and `bcryptjs` are external libraries and enter as
  parameters (`Crypto`).
* The `try`/`catch` around every handler only turns thrown exceptions into
  a 500 response; the typed requests of this model never throw, except
  that `updateProfile` throws on a missing result of `updateById`.
* The price of a product write is an integer JSON number or absent.
* The rate limiter's module-level `Map` is a function from client key to
  record.
-/

namespace Himorganic

/-! ## JSON values and strict equality -/

/-- JSON / JavaScript values as they occur in stored records and queries. -/
inductive JVal where
  | undefined
  | null
  | bool (b : Bool)
  | num (n : Int)
  | str (s : String)
  | arr (items : List JVal)
  | obj (fields : List (String × JVal))

/-- JavaScript `a === b` between a value read from a collection file and a
value of a query.  Primitives compare by value; arrays and objects compare by
reference, and a record parsed from the file never shares a reference with a
query, so every comparison that involves an array or an object is false. -/
def JVal.strictEq : JVal → JVal → Bool
  | .undefined, .undefined => true
  | .null, .null => true
  | .bool a, .bool b => a == b
  | .num a, .num b => a == b
  | .str a, .str b => a == b
  | _, _ => false

/-- JavaScript truthiness of a string-or-missing request field. -/
def truthy : Option String → Bool
  | some s => s != ""
  | none => false

/-- Records of a collection: the `id` property, property access `item[key]`,
and the three assignments the storage layer performs on a record
(`data.id = ...`, `data.createdAt = ...`, `updatedAt: ...`). -/
class Record (α : Type) where
  id : α → String
  field : α → String → JVal
  withId : α → String → α
  withCreatedAt : α → String → α
  withUpdatedAt : α → String → α

/-- Optional string property as a JSON value. -/
def optStr : Option String → JVal
  | some s => .str s
  | none => .undefined

/-- Optional string property where a missing value is stored as `null`. -/
def nullStr : Option String → JVal
  | some s => .str s
  | none => .null

/-- A JavaScript number as the order and product code computes with it: an
integer, or `NaN`.  `JSON.stringify` writes `NaN` as `null`, so in a stored
record and in a response body `nan` is the value `null`. -/
inductive JNum where
  | num (n : Int)
  | nan
  deriving DecidableEq, Repr

instance (n : Nat) : OfNat JNum n := ⟨.num n⟩

instance : Neg JNum :=
  ⟨fun x => match x with
    | .num n => .num (-n)
    | .nan => .nan⟩

/-- Models `ToNumber` of a numeric property read from a collection file: a stored
`null` converts to `0`. -/
def JNum.read : JNum → Int
  | .num n => n
  | .nan => 0

/-- JavaScript `a < b` on numbers: false when an operand is `NaN`. -/
def JNum.lt : JNum → JNum → Bool
  | .num a, .num b => decide (a < b)
  | _, _ => false

/-- JavaScript `a + b` on numbers. -/
def JNum.add : JNum → JNum → JNum
  | .num a, .num b => .num (a + b)
  | _, _ => .nan

/-- JavaScript `a - b` on numbers. -/
def JNum.sub : JNum → JNum → JNum
  | .num a, .num b => .num (a - b)
  | _, _ => .nan

/-- JavaScript `a * b` on numbers. -/
def JNum.mul : JNum → JNum → JNum
  | .num a, .num b => .num (a * b)
  | _, _ => .nan

/-- The sum of a list of numbers. -/
def JNum.sum (xs : List JNum) : JNum :=
  List.foldr JNum.add (.num 0) xs

/-- A number as JSON: `NaN` is written as `null`. -/
def JNum.toJson : JNum → JVal
  | .num n => .num n
  | .nan => .null

/-! ## Stored records -/

/-- Product record of `products.json`. -/
structure Product where
  id : String
  name : String
  description : String
  price : Int
  image : String
  category : String
  stock : JNum
  rating : Int
  reviewCount : Int
  createdBy : String
  createdAt : String
  updatedAt : String
  deriving DecidableEq, Repr

instance : Record Product where
  id p := p.id
  withId p v := { p with id := v }
  withCreatedAt p v := { p with createdAt := v }
  withUpdatedAt p v := { p with updatedAt := v }
  field p key :=
    if key = "id" then .str p.id
    else if key = "name" then .str p.name
    else if key = "description" then .str p.description
    else if key = "price" then .num p.price
    else if key = "image" then .str p.image
    else if key = "category" then .str p.category
    else if key = "stock" then p.stock.toJson
    else if key = "rating" then .num p.rating
    else if key = "reviewCount" then .num p.reviewCount
    else if key = "createdBy" then .str p.createdBy
    else if key = "createdAt" then .str p.createdAt
    else if key = "updatedAt" then .str p.updatedAt
    else .undefined

/-- Line item of a stored order (`orderItems.push({...})`).  A quantity or
a subtotal that is not a number is `nan`: `JSON.stringify` leaves a missing
quantity out and writes a `NaN` subtotal as `null`. -/
structure OrderItem where
  product : String
  productId : String
  name : String
  price : Int
  quantity : JNum
  image : String
  subtotal : JNum
  deriving DecidableEq, Repr

/-- Customer snapshot of an order, as sent in the request body. -/
structure Customer where
  name : Option String
  email : Option String
  phone : Option String
  address : Option String
  city : Option String
  state : Option String
  pincode : Option String
  deriving DecidableEq, Repr

/-- Entry of `statusHistory`. -/
structure StatusEntry where
  status : String
  timestamp : String
  note : Option String
  updatedBy : Option String
  deriving DecidableEq, Repr

/-- Order record of `orders.json`. -/
structure Order where
  id : String
  orderNumber : String
  user : Option String
  items : List OrderItem
  customer : Customer
  paymentMethod : String
  subtotal : JNum
  shipping : Int
  total : JNum
  status : String
  paymentStatus : String
  statusHistory : List StatusEntry
  paidAt : Option String
  createdAt : String
  updatedAt : String
  deriving DecidableEq, Repr

/-- JSON form of a stored line item. -/
def OrderItem.toJson (i : OrderItem) : JVal :=
  .obj [("product", .str i.product), ("productId", .str i.productId), ("name", .str i.name),
    ("price", .num i.price), ("quantity", i.quantity.toJson), ("image", .str i.image),
    ("subtotal", i.subtotal.toJson)]

/-- JSON form of a customer snapshot. -/
def Customer.toJson (c : Customer) : JVal :=
  .obj [("name", optStr c.name), ("email", optStr c.email), ("phone", optStr c.phone),
    ("address", optStr c.address), ("city", optStr c.city), ("state", optStr c.state),
    ("pincode", optStr c.pincode)]

/-- JSON form of a status-history entry. -/
def StatusEntry.toJson (e : StatusEntry) : JVal :=
  .obj [("status", .str e.status), ("timestamp", .str e.timestamp), ("note", optStr e.note),
    ("updatedBy", optStr e.updatedBy)]

instance : Record Order where
  id o := o.id
  withId o v := { o with id := v }
  withCreatedAt o v := { o with createdAt := v }
  withUpdatedAt o v := { o with updatedAt := v }
  field o key :=
    if key = "id" then .str o.id
    else if key = "orderNumber" then .str o.orderNumber
    else if key = "user" then nullStr o.user
    else if key = "items" then .arr (o.items.map OrderItem.toJson)
    else if key = "customer" then o.customer.toJson
    else if key = "paymentMethod" then .str o.paymentMethod
    else if key = "subtotal" then o.subtotal.toJson
    else if key = "shipping" then .num o.shipping
    else if key = "total" then o.total.toJson
    else if key = "status" then .str o.status
    else if key = "paymentStatus" then .str o.paymentStatus
    else if key = "statusHistory" then .arr (o.statusHistory.map StatusEntry.toJson)
    else if key = "paymentDetails.paidAt" then optStr o.paidAt
    else if key = "createdAt" then .str o.createdAt
    else if key = "updatedAt" then .str o.updatedAt
    else .undefined

/-- User record of `users.json`. -/
structure User where
  id : String
  name : String
  email : String
  password : String
  orders : List String
  wishlist : List String
  lastLogin : Option String
  createdAt : String
  updatedAt : String
  deriving DecidableEq, Repr

instance : Record User where
  id u := u.id
  withId u v := { u with id := v }
  withCreatedAt u v := { u with createdAt := v }
  withUpdatedAt u v := { u with updatedAt := v }
  field u key :=
    if key = "id" then .str u.id
    else if key = "name" then .str u.name
    else if key = "email" then .str u.email
    else if key = "password" then .str u.password
    else if key = "orders" then .arr (u.orders.map JVal.str)
    else if key = "wishlist" then .arr (u.wishlist.map JVal.str)
    else if key = "lastLogin" then optStr u.lastLogin
    else if key = "createdAt" then .str u.createdAt
    else if key = "updatedAt" then .str u.updatedAt
    else .undefined

/-- Admin record of `admins.json`. -/
structure Admin where
  id : String
  name : String
  email : String
  password : String
  role : String
  permissions : List String
  lastLogin : Option String
  createdAt : String
  updatedAt : String
  deriving DecidableEq, Repr

instance : Record Admin where
  id a := a.id
  withId a v := { a with id := v }
  withCreatedAt a v := { a with createdAt := v }
  withUpdatedAt a v := { a with updatedAt := v }
  field a key :=
    if key = "id" then .str a.id
    else if key = "name" then .str a.name
    else if key = "email" then .str a.email
    else if key = "password" then .str a.password
    else if key = "role" then .str a.role
    else if key = "permissions" then .arr (a.permissions.map JVal.str)
    else if key = "lastLogin" then optStr a.lastLogin
    else if key = "createdAt" then .str a.createdAt
    else if key = "updatedAt" then .str a.updatedAt
    else .undefined

/-- Session record of `sessions.json` (a stored refresh token). -/
structure Session where
  id : String
  userId : String
  userType : String
  refreshToken : String
  isAdmin : Bool
  createdAt : String
  expiresAt : String
  updatedAt : String
  deriving DecidableEq, Repr

instance : Record Session where
  id s := s.id
  withId s v := { s with id := v }
  withCreatedAt s v := { s with createdAt := v }
  withUpdatedAt s v := { s with updatedAt := v }
  field s key :=
    if key = "id" then .str s.id
    else if key = "userId" then .str s.userId
    else if key = "userType" then .str s.userType
    else if key = "refreshToken" then .str s.refreshToken
    else if key = "isAdmin" then .bool s.isAdmin
    else if key = "createdAt" then .str s.createdAt
    else if key = "expiresAt" then .str s.expiresAt
    else if key = "updatedAt" then .str s.updatedAt
    else .undefined

/-- Analytics event of `analytics.json`; `data` is a freeform object. -/
structure AnalyticsEvent where
  id : String
  event : String
  data : List (String × JVal)
  timestamp : String
  createdAt : String
  updatedAt : String

instance : Record AnalyticsEvent where
  id e := e.id
  withId e v := { e with id := v }
  withCreatedAt e v := { e with createdAt := v }
  withUpdatedAt e v := { e with updatedAt := v }
  field e key :=
    if key = "id" then .str e.id
    else if key = "event" then .str e.event
    else if key = "data" then .obj e.data
    else if key = "timestamp" then .str e.timestamp
    else if key = "createdAt" then .str e.createdAt
    else if key = "updatedAt" then .str e.updatedAt
    else .undefined

/-- A raw JSON object is a record too: `id` is its `id` property when that is
a string, and `item[key]` is the first binding of `key`. -/
abbrev JObj := List (String × JVal)

/-- Property access `item[key]` on a raw JSON object. -/
def JObj.get (o : JObj) (key : String) : JVal :=
  match List.find? (fun kv => kv.1 == key) o with
  | some kv => kv.2
  | none => .undefined

/-- Property assignment `item[key] = v` on a raw JSON object: an existing
binding is replaced in place, a new one is added at the end. -/
def JObj.set (o : JObj) (key : String) (v : JVal) : JObj :=
  if List.any o (fun kv => kv.1 == key) then
    List.map (fun kv => if kv.1 == key then (kv.1, v) else kv) o
  else o ++ [(key, v)]

instance : Record JObj where
  id o := match JObj.get o "id" with
    | .str s => s
    | _ => ""
  field o key := JObj.get o key
  withId o v := JObj.set o "id" (.str v)
  withCreatedAt o v := JObj.set o "createdAt" (.str v)
  withUpdatedAt o v := JObj.set o "updatedAt" (.str v)

/-- The six JSON collections (`databases` of `database.js`). -/
structure Store where
  users : List User
  admins : List Admin
  products : List Product
  orders : List Order
  analytics : List AnalyticsEvent
  sessions : List Session

/-- Per-request inputs that the code draws from its environment:
`new Date().toISOString()`, `Date.now()`, the successive `uuidv4()` values and
`new Date(ms).toISOString()`. -/
structure Env where
  now : String
  nowMs : Nat
  uuid : Nat → String
  isoOf : Nat → String

/-! ## `database.js`: the JSON file database -/

namespace Database

/-- Models `data.findIndex(predicate)`; `none` stands for the result `-1`. -/
def findIndex {α : Type} (predicate : α → Bool) : List α → Option Nat
  | [] => none
  | item :: rest =>
    if predicate item then some 0
    else match findIndex predicate rest with
      | some index => some (index + 1)
      | none => none

/-- Models `findById(id)`: `data.find(item => item.id === id)`. -/
def findById {α : Type} [Record α] (data : List α) (id : String) : Option α :=
  List.find? (fun item => Record.id item == id) data

/-- Models `findOne(predicate)`: `data.find(predicate)`. -/
def findOne {α : Type} (data : List α) (predicate : α → Bool) : Option α :=
  List.find? predicate data

/-- Models `findMany(predicate)`: `predicate ? data.filter(predicate) : data`. -/
def findMany {α : Type} (data : List α) (predicate : Option (α → Bool)) : List α :=
  match predicate with
  | some p => List.filter p data
  | none => data

/-- Models `create(item)`: push and write; returns the item and the new file content. -/
def create {α : Type} (data : List α) (item : α) : α × List α :=
  (item, data ++ [item])

/-- Models `update(id, updates)`: the first record with that id becomes
`{ ...data[index], ...updates, updatedAt }`; `updates` is the spread of the
update object over a record.  Returns `null` and writes nothing when no
record has the id. -/
def update {α : Type} [Record α] (data : List α) (id : String) (updates : α → α)
    (now : String) : Option α × List α :=
  match findIndex (fun item => Record.id item == id) data with
  | none => (none, data)
  | some index =>
    match data[index]? with
    | none => (none, data)
    | some old =>
      let item := Record.withUpdatedAt (updates old) now
      (some item, List.set data index item)

/-- Models `delete(id)`: `data.splice(index, 1)` at the first record with that id;
returns `false` and writes nothing when no record has the id. -/
def delete {α : Type} [Record α] (data : List α) (id : String) : Bool × List α :=
  match findIndex (fun item => Record.id item == id) data with
  | none => (false, data)
  | some index => (true, List.eraseIdx data index)

end Database

/-! ## `dbAdapter.js`: the adapter, JSON branch (`isUsingMongoDB()` false) -/

/-- JavaScript `ToNumber` on the values that occur as sort keys; `none` is
`NaN`.  Numeric strings are integer literals; arrays and objects are not
converted. -/
def JVal.toNumber : JVal → Option Int
  | .undefined => none
  | .null => some 0
  | .bool b => some (if b then 1 else 0)
  | .num n => some n
  | .str s => if s.trim = "" then some 0 else s.trim.toInt?
  | .arr _ => none
  | .obj _ => none

/-- The UTF-16 code units of a text, the form in which JavaScript holds and
compares strings: a character beyond `U+FFFF` is a pair of surrogates. -/
def utf16Units (s : String) : List Nat :=
  List.flatMap s.data (fun c =>
    if c.toNat < 0x10000 then [c.toNat]
    else [0xD800 + (c.toNat - 0x10000) / 0x400, 0xDC00 + (c.toNat - 0x10000) % 0x400])

/-- Lexicographic `a < b` on sequences of code units. -/
def unitsLt : List Nat → List Nat → Bool
  | _, [] => false
  | [], _ :: _ => true
  | a :: as, b :: bs => if a < b then true else if b < a then false else unitsLt as bs

/-- JavaScript `a < b` on two strings: code unit by code unit. -/
def jsStringLt (a b : String) : Bool :=
  unitsLt (utf16Units a) (utf16Units b)

/-- JavaScript `a > b`: two strings compare as strings, everything else by
`ToNumber`, and a comparison with `NaN` is false. -/
def JVal.gt : JVal → JVal → Bool
  | .str a, .str b => jsStringLt b a
  | a, b =>
    match a.toNumber, b.toNumber with
    | some x, some y => decide (y < x)
    | _, _ => false

/-- Index clamping of `Array.prototype.slice`. -/
def jsSliceIndex (len : Nat) (i : Int) : Nat :=
  if i < 0 then Int.toNat (len + i) else min (Int.toNat i) len

/-- Models `xs.slice(start, stop)`; a missing `stop` is the length. -/
def jsSlice {α : Type} (xs : List α) (start : Int) (stop : Option Int) : List α :=
  let k := jsSliceIndex xs.length start
  let final := match stop with
    | some e => jsSliceIndex xs.length e
    | none => xs.length
  List.take (final - k) (List.drop k xs)

/-- The `options` argument of `findMany`: the first key of `options.sort`
with its direction, `limit` and `skip` (`none` is a missing or `NaN` value). -/
structure FindOptions where
  sort : Option (String × JVal) := none
  limit : Option Int := none
  skip : Option Int := none

namespace Adapter

/-- Models `Object.keys(query).every(key => item[key] === query[key])`. -/
def queryPredicate {α : Type} [Record α] (query : JObj) (item : α) : Bool :=
  List.all (List.map (fun kv => kv.1) query)
    (fun key => JVal.strictEq (Record.field item key) (JObj.get query key))

/-- Models `findById(id)` on the JSON collection. -/
def findById {α : Type} [Record α] (data : List α) (id : String) : Option α :=
  Database.findById data id

/-- Models `findOne(query)`: the first record whose properties are strictly equal to
the query's values. -/
def findOne {α : Type} [Record α] (data : List α) (query : JObj) : Option α :=
  Database.findOne data (fun item => queryPredicate query item)

/-- The comparator that `findMany` hands to `results.sort`. -/
def sortComparator {α : Type} [Record α] (sortKey : String) (sortDir : JVal) (a b : α) : Int :=
  if JVal.strictEq sortDir (.num (-1)) || JVal.strictEq sortDir (.str "desc") then
    if JVal.gt (Record.field b sortKey) (Record.field a sortKey) then 1 else -1
  else
    if JVal.gt (Record.field a sortKey) (Record.field b sortKey) then 1 else -1

/-- Models `findMany(query, options)`: filter by strict equality, then sort, then
`slice(skip)`, then `slice(0, limit)`; a `skip` or `limit` of `0` is falsy and
skips its step.  `arraySort` is the engine's `Array.prototype.sort`. -/
def findMany {α : Type} [Record α] (arraySort : (α → α → Int) → List α → List α)
    (data : List α) (query : JObj) (options : FindOptions) : List α :=
  let results := Database.findMany data
    (some (fun item => if query.length = 0 then true else queryPredicate query item))
  let results := match options.sort with
    | some (sortKey, sortDir) => arraySort (sortComparator sortKey sortDir) results
    | none => results
  let results := match options.skip with
    | some skip => if skip = 0 then results else jsSlice results skip none
    | none => results
  match options.limit with
  | some limit => if limit = 0 then results else jsSlice results 0 (some limit)
  | none => results

/-- Models `create(data)`: a record without id gets a fresh one, `createdAt` and
`updatedAt` are stamped, and the record is appended. -/
def create {α : Type} [Record α] (data : List α) (item : α) (freshId now : String) :
    α × List α :=
  let item := if Record.id item = "" then Record.withId item freshId else item
  let item := Record.withCreatedAt item now
  let item := Record.withUpdatedAt item now
  Database.create data item

/-- Models `updateById(id, updates)`. -/
def updateById {α : Type} [Record α] (data : List α) (id : String) (updates : α → α)
    (now : String) : Option α × List α :=
  Database.update data id updates now

/-- Models `deleteById(id)`. -/
def deleteById {α : Type} [Record α] (data : List α) (id : String) : Bool × List α :=
  Database.delete data id

/-- Models `count(query)`: the length of `findMany(query)`. -/
def count {α : Type} [Record α] (arraySort : (α → α → Int) → List α → List α)
    (data : List α) (query : JObj) : Nat :=
  (findMany arraySort data query {}).length

end Adapter

/-! ## Requests and responses -/

/-- Decoded token payload (`req.user`); a refresh token carries only `id`
and `isAdmin`. -/
structure Payload where
  id : String
  email : Option String
  name : Option String
  isAdmin : Bool
  deriving DecidableEq, Repr

/-- A response `res.status(status).json(body)`: the body is either
`{ error: message }` or a payload. -/
structure Response (β : Type) where
  status : Nat
  body : Except String β

/-- Line item of a `POST /api/orders` request.  `quantity` is the number the
`quantity` property converts to in arithmetic; a missing or non-numeric
quantity is `NaN`. -/
structure LineItem where
  productId : String
  quantity : JNum
  deriving DecidableEq, Repr

/-- Body of a `POST /api/orders` request. -/
structure CreateOrderBody where
  items : Option (List LineItem)
  customer : Option Customer
  paymentMethod : Option String

/-! ## `orderController.js` -/

/-- Outcome of the `for (const item of items)` loop of `createOrder`: an early
`return res.status(400)` with the products file as it is at that point, or the
accumulated total, the order items and the products file after the loop. -/
inductive LoopResult where
  | fail (error : String) (products : List Product)
  | done (total : JNum) (orderItems : List OrderItem) (products : List Product)

/-- The loop of `createOrder` over the remaining items: look the product up,
reject a missing product or `product.stock < item.quantity`, add
`product.price * item.quantity` to the total, push the order item and write
`stock: product.stock - item.quantity` back.  The product is read from the
file, where its stock is a number or `null`. -/
def orderLoop (now : String) :
    List LineItem → List Product → JNum → List OrderItem → LoopResult
  | [], products, total, orderItems => .done total orderItems products
  | item :: rest, products, total, orderItems =>
    match Adapter.findById products item.productId with
    | none => .fail ("Product not found: " ++ item.productId) products
    | some product =>
      if JNum.lt (.num product.stock.read) item.quantity then
        .fail ("Insufficient stock for " ++ product.name) products
      else
        let itemTotal := JNum.mul (.num product.price) item.quantity
        let orderItem : OrderItem :=
          { product := product.id, productId := product.id, name := product.name,
            price := product.price, quantity := item.quantity, image := product.image,
            subtotal := itemTotal }
        let written := Adapter.updateById products product.id
          (fun p => { p with stock := JNum.sub (.num product.stock.read) item.quantity }) now
        orderLoop now rest written.2 (JNum.add total itemTotal) (orderItems ++ [orderItem])

/-- Upper-case digit of radix 36. -/
def digit36 (d : Nat) : Char :=
  if d < 10 then Char.ofNat (48 + d) else Char.ofNat (55 + d)

/-- Digits of `n` in radix 36, most significant first, in front of `acc`. -/
def base36Core : Nat → Nat → List Char → List Char
  | 0, _, acc => acc
  | fuel + 1, n, acc =>
    if n / 36 = 0 then digit36 (n % 36) :: acc
    else base36Core fuel (n / 36) (digit36 (n % 36) :: acc)

/-- Models `Date.now().toString(36).toUpperCase()`. -/
def base36Upper (n : Nat) : String :=
  String.mk (base36Core (n + 1) n [])

/-- Models `trackAnalytics(event, data)`: append an analytics event. -/
def trackAnalytics (env : Env) (slot : Nat) (event : String) (data : List (String × JVal))
    (analytics : List AnalyticsEvent) : List AnalyticsEvent :=
  (Adapter.create analytics
    { id := env.uuid slot, event := event, data := data, timestamp := env.now,
      createdAt := "", updatedAt := "" }
    (env.uuid (slot + 1)) env.now).2

/-- Models `createOrder`: validate the body, run the item loop, compute shipping and
the grand total, store the order, track the event and append the order id to
the ordering user's `orders`. -/
def createOrder (env : Env) (user : Option Payload) (body : CreateOrderBody) (s : Store) :
    Response Order × Store :=
  match body.items with
  | none => (⟨400, .error "Order items are required"⟩, s)
  | some items =>
    if items.length = 0 then (⟨400, .error "Order items are required"⟩, s)
    else
      match body.customer with
      | none => (⟨400, .error "Customer details are required"⟩, s)
      | some customer =>
        if !truthy customer.name || !truthy customer.email || !truthy customer.address then
          (⟨400, .error "Customer details are required"⟩, s)
        else
          match orderLoop env.now items s.products 0 [] with
          | .fail error products => (⟨400, .error error⟩, { s with products := products })
          | .done total orderItems products =>
            let shipping : Int := if JNum.lt 500 total then 0 else 50
            let grandTotal := JNum.add total (.num shipping)
            let userId : Option String :=
              match user with
              | some u => if u.id = "" then none else some u.id
              | none => none
            let created := Adapter.create s.orders
              { id := env.uuid 0,
                orderNumber := "ORD-" ++ base36Upper env.nowMs,
                user := userId,
                items := orderItems,
                customer := customer,
                paymentMethod :=
                  if truthy body.paymentMethod then body.paymentMethod.getD "cod" else "cod",
                subtotal := total,
                shipping := shipping,
                total := grandTotal,
                status := "pending",
                paymentStatus := "pending",
                statusHistory :=
                  [{ status := "pending", timestamp := env.now, note := some "Order placed",
                     updatedBy := none }],
                paidAt := none,
                createdAt := "",
                updatedAt := "" }
              (env.uuid 1) env.now
            let newOrder := created.1
            let analytics := trackAnalytics env 2 "order_created"
              [("orderId", .str newOrder.id), ("total", grandTotal.toJson),
               ("itemCount", .num orderItems.length), ("userId", optStr (user.map (fun u => u.id)))]
              s.analytics
            let users :=
              match userId with
              | some uid =>
                match Adapter.findById s.users uid with
                | some u =>
                  (Adapter.updateById s.users uid
                    (fun r => { r with orders := u.orders ++ [newOrder.id] }) env.now).2
                | none => s.users
              | none => s.users
            (⟨201, .ok newOrder⟩,
              { s with products := products, orders := created.2, analytics := analytics,
                       users := users })

/-! ## `productController.js` -/

/-- Query string of `GET /api/products`. -/
structure ProductQuery where
  category : Option String
  minPrice : Option String
  maxPrice : Option String
  search : Option String
  sort : Option String

/-- Value of a run of decimal digits. -/
def digitsToNat (ds : List Char) : Nat :=
  List.foldl (fun n c => 10 * n + (c.toNat - 48)) 0 ds

/-- The white space `parseInt` and `parseFloat` skip at the start of a text
(`WhiteSpace` and `LineTerminator` of ECMAScript). -/
def jsWhiteSpace (c : Char) : Bool :=
  let n := c.toNat
  n == 0x09 || n == 0x0A || n == 0x0B || n == 0x0C || n == 0x0D || n == 0x20 || n == 0xA0 ||
  n == 0x1680 || (decide (0x2000 ≤ n) && decide (n ≤ 0x200A)) || n == 0x2028 || n == 0x2029 ||
  n == 0x202F || n == 0x205F || n == 0x3000 || n == 0xFEFF

/-- The number `parseFloat` reads: the decimal `mantissa * 10 ^ exponent`, an
infinity, or `NaN`.  The decimal is exact; rounding to a double is not
modelled. -/
inductive JFloat where
  | dec (mantissa : Int) (exponent : Int)
  | inf (negative : Bool)
  | nan
  deriving DecidableEq, Repr

/-- The value of an `ExponentPart` after its `e`: an optional sign and a run of
digits; `none` when no digit follows, in which case the `e` is not part of the
number. -/
def exponentValue (cs : List Char) : Option Int :=
  match cs with
  | '-' :: rest =>
    if (List.takeWhile Char.isDigit rest).length = 0 then none
    else some (-(digitsToNat (List.takeWhile Char.isDigit rest) : Int))
  | '+' :: rest =>
    if (List.takeWhile Char.isDigit rest).length = 0 then none
    else some (digitsToNat (List.takeWhile Char.isDigit rest) : Int)
  | _ =>
    if (List.takeWhile Char.isDigit cs).length = 0 then none
    else some (digitsToNat (List.takeWhile Char.isDigit cs) : Int)

/-- The digits of the fraction: those that follow a point after the whole
part. -/
def fractionDigits : List Char → List Char
  | '.' :: rest => List.takeWhile Char.isDigit rest
  | _ => []

/-- What follows the fraction. -/
def afterFraction : List Char → List Char
  | '.' :: rest => List.dropWhile Char.isDigit rest
  | cs => cs

/-- The exponent read after the fraction: the value of an `e` or `E` followed
by an optional sign and digits, and 0 without one. -/
def exponentPart : List Char → Int
  | 'e' :: rest => (exponentValue rest).getD 0
  | 'E' :: rest => (exponentValue rest).getD 0
  | _ => 0

/-- The unsigned part of `parseFloat`: `Infinity`, or the longest prefix of the
form digits, optional point and digits, optional exponent, with at least one
digit before the exponent. -/
def parseFloatUnsigned (cs : List Char) : JFloat :=
  if List.isPrefixOf "Infinity".data cs then .inf false
  else
    let whole := List.takeWhile Char.isDigit cs
    let afterWhole := List.dropWhile Char.isDigit cs
    let frac := fractionDigits afterWhole
    if whole.length = 0 ∧ frac.length = 0 then .nan
    else
      .dec (digitsToNat (whole ++ frac)) (exponentPart (afterFraction afterWhole) - frac.length)

/-- Models `parseFloat(text)`: leading white space is skipped, a sign is read, then
the longest decimal literal; the rest of the text is ignored. -/
def parseFloat (text : String) : JFloat :=
  match List.dropWhile jsWhiteSpace text.data with
  | '-' :: rest =>
    match parseFloatUnsigned rest with
    | .dec m e => .dec (-m) e
    | .inf _ => .inf true
    | .nan => .nan
  | '+' :: rest => parseFloatUnsigned rest
  | cs => parseFloatUnsigned cs

/-- JavaScript `price >= bound` for an integer price and a bound read by
`parseFloat`. -/
def JFloat.atMost (bound : JFloat) (price : Int) : Bool :=
  match bound with
  | .dec m e =>
    if 0 ≤ e then decide (m * 10 ^ e.toNat ≤ price)
    else decide (m ≤ price * 10 ^ (-e).toNat)
  | .inf negative => negative
  | .nan => false

/-- JavaScript `price <= bound` for an integer price and a bound read by
`parseFloat`. -/
def JFloat.atLeast (bound : JFloat) (price : Int) : Bool :=
  match bound with
  | .dec m e =>
    if 0 ≤ e then decide (price ≤ m * 10 ^ e.toNat)
    else decide (price * 10 ^ (-e).toNat ≤ m)
  | .inf negative => !negative
  | .nan => false

/-- Models `text.includes(part)`.  The texts are well-formed Unicode, for which a
match of code units is a match of characters. -/
def jsIncludes (text part : String) : Bool :=
  List.any (List.tails text.data) (fun t => List.isPrefixOf part.data t)

/-- The `switch (sort)` of `getProducts`. -/
def productSortOptions (sort : Option String) : FindOptions :=
  if truthy sort then
    if sort = some "price_asc" then { sort := some ("price", .num 1) }
    else if sort = some "price_desc" then { sort := some ("price", .num (-1)) }
    else if sort = some "name_asc" then { sort := some ("name", .num 1) }
    else if sort = some "newest" then { sort := some ("createdAt", .num (-1)) }
    else {}
  else {}

/-- Models `getProducts` on the JSON backend: `findMany({}, options)` followed by the
category, minimum price, maximum price and search filters.  `toLowerCase` is
the engine's `String.prototype.toLowerCase`. -/
def getProducts (toLowerCase : String → String)
    (arraySort : (Product → Product → Int) → List Product → List Product)
    (q : ProductQuery) (s : Store) : Response (List Product) :=
  let allProducts := Adapter.findMany arraySort s.products [] (productSortOptions q.sort)
  let allProducts :=
    if truthy q.category then
      List.filter (fun p => toLowerCase p.category = toLowerCase (q.category.getD ""))
        allProducts
    else allProducts
  let allProducts :=
    if truthy q.minPrice then
      List.filter (fun p => JFloat.atMost (parseFloat (q.minPrice.getD "")) p.price)
        allProducts
    else allProducts
  let allProducts :=
    if truthy q.maxPrice then
      List.filter (fun p => JFloat.atLeast (parseFloat (q.maxPrice.getD "")) p.price)
        allProducts
    else allProducts
  let allProducts :=
    if truthy q.search then
      List.filter (fun p =>
        jsIncludes (toLowerCase p.name) (toLowerCase (q.search.getD "")) ||
        jsIncludes (toLowerCase p.description) (toLowerCase (q.search.getD ""))) allProducts
    else allProducts
  ⟨200, .ok allProducts⟩

/-- Models `deleteProduct`: 404 when no product has the id, otherwise `deleteById`
and a confirmation message. -/
def deleteProduct (id : String) (s : Store) : Response String × Store :=
  match Adapter.findById s.products id with
  | none => (⟨404, .error "Product not found"⟩, s)
  | some _ =>
    (⟨200, .ok "Product deleted successfully"⟩,
      { s with products := (Adapter.deleteById s.products id).2 })

/-- The value of a character as a digit of a radix up to 16. -/
def radixDigit (radix : Nat) (c : Char) : Option Nat :=
  let v : Option Nat :=
    if c.isDigit then some (c.toNat - 48)
    else if decide ('a'.toNat ≤ c.toNat) && decide (c.toNat ≤ 'f'.toNat) then some (c.toNat - 87)
    else if decide ('A'.toNat ≤ c.toNat) && decide (c.toNat ≤ 'F'.toNat) then some (c.toNat - 55)
    else none
  match v with
  | some d => if d < radix then some d else none
  | none => none

/-- The digits of the longest prefix of `cs` made of digits of the radix. -/
def radixPrefix (radix : Nat) : List Char → List Nat
  | [] => []
  | c :: rest =>
    match radixDigit radix c with
    | some d => d :: radixPrefix radix rest
    | none => []

/-- The number a list of digits denotes in a radix, most significant first. -/
def radixValue (radix : Nat) (ds : List Nat) : Nat :=
  List.foldl (fun n d => radix * n + d) 0 ds

/-- The unsigned part of `parseInt`: after `0x` or `0X` the digits are
hexadecimal, otherwise decimal; a text without digits gives `NaN`. -/
def parseIntDigits (cs : List Char) : JNum :=
  let hex : Option (List Char) :=
    match cs with
    | '0' :: 'x' :: rest => some rest
    | '0' :: 'X' :: rest => some rest
    | _ => none
  match hex with
  | some rest =>
    if (radixPrefix 16 rest).length = 0 then .nan
    else .num (radixValue 16 (radixPrefix 16 rest))
  | none =>
    if (radixPrefix 10 cs).length = 0 then .nan
    else .num (radixValue 10 (radixPrefix 10 cs))

/-- Models `parseInt(text)` without a radix: leading white space is skipped, a sign is
read, then the longest run of digits (hexadecimal after `0x`); the rest of
the text is ignored. -/
def parseInt (text : String) : JNum :=
  match List.dropWhile jsWhiteSpace text.data with
  | '-' :: rest => -(parseIntDigits rest)
  | '+' :: rest => parseIntDigits rest
  | cs => parseIntDigits cs

/-- The `stock` field of a JSON request body: absent, an integer, or a text. -/
inductive NumField where
  | missing
  | num (n : Int)
  | text (s : String)
  deriving DecidableEq, Repr

/-- Models `parseInt(field)`: an integer is itself, a text is parsed, an absent field
gives `NaN`. -/
def NumField.parseInt : NumField → JNum
  | .missing => .nan
  | .num n => .num n
  | .text s => Himorganic.parseInt s

/-- Models `parseInt(stock) || 100`: `NaN` and `0` are falsy. -/
def stockOrDefault (stock : NumField) : Int :=
  match stock.parseInt with
  | .num n => if n = 0 then 100 else n
  | .nan => 100

/-- Body of the product write requests.  The price is an integer JSON
number or absent; a price sent as text or with a fractional part is outside
the integer model. -/
structure ProductBody where
  name : Option String := none
  description : Option String := none
  price : Option Int := none
  image : Option String := none
  category : Option String := none
  stock : NumField := .missing

/-- The image `createProduct` falls back to. -/
def defaultProductImage : String :=
  "https://images.unsplash.com/photo-1542838132-92c53300491e?w=400"

/-- Models `getProduct`: 404 when no product has the id, otherwise a `product_view`
event is tracked and the product returned. -/
def getProduct (env : Env) (id : String) (s : Store) : Response Product × Store :=
  match Adapter.findById s.products id with
  | none => (⟨404, .error "Product not found"⟩, s)
  | some product =>
    (⟨200, .ok product⟩,
      { s with analytics := trackAnalytics env 0 "product_view" [("productId", .str id)]
                 s.analytics })

/-- Models `createProduct`: name and price are required; the product is stored with
the defaults of the handler and the event `product_created` is tracked. -/
def createProduct (env : Env) (admin : Payload) (body : ProductBody) (s : Store) :
    Response Product × Store :=
  if !truthy body.name || !(decide (body.price ≠ none ∧ body.price ≠ some 0)) then
    (⟨400, .error "Name and price are required"⟩, s)
  else
    let created := Adapter.create s.products
      { id := env.uuid 0,
        name := body.name.getD "",
        description := if truthy body.description then body.description.getD "" else "",
        price := body.price.getD 0,
        image := if truthy body.image then body.image.getD "" else defaultProductImage,
        category := if truthy body.category then body.category.getD "" else "General",
        stock := .num (stockOrDefault body.stock),
        rating := 0,
        reviewCount := 0,
        createdBy := admin.id,
        createdAt := "",
        updatedAt := "" }
      (env.uuid 1) env.now
    let newProduct := created.1
    let analytics := trackAnalytics env 2 "product_created"
      [("productId", .str newProduct.id), ("adminId", .str admin.id)] s.analytics
    (⟨201, .ok newProduct⟩, { s with products := created.2, analytics := analytics })

/-- The `updates` object of `updateProduct`: every field that is not `undefined`
in the body is set, `price` through `parseFloat` and `stock` through `parseInt`. -/
def productUpdates (body : ProductBody) (p : Product) : Product :=
  { p with
    name := match body.name with
      | some v => v
      | none => p.name
    description := match body.description with
      | some v => v
      | none => p.description
    price := match body.price with
      | some v => v
      | none => p.price
    image := match body.image with
      | some v => v
      | none => p.image
    category := match body.category with
      | some v => v
      | none => p.category
    stock := match body.stock with
      | .missing => p.stock
      | field => field.parseInt }

/-- Models `updateProduct`: 404 when no product has the id, otherwise
`updateById(id, updates)`. -/
def updateProduct (env : Env) (id : String) (body : ProductBody) (s : Store) :
    Response (Option Product) × Store :=
  match Adapter.findById s.products id with
  | none => (⟨404, .error "Product not found"⟩, s)
  | some _ =>
    let written := Adapter.updateById s.products id (productUpdates body) env.now
    (⟨200, .ok written.1⟩, { s with products := written.2 })


/-! ## `middleware/auth.js` and `authController.js` -/

/-- The two ways `jwt.verify` throws that `verifyToken` tells apart. -/
inductive JwtError where
  | expired
  | invalid
  deriving DecidableEq, Repr

/-- The external libraries: `jwt.sign(payload, secret, { expiresIn })` and
`jwt.verify(token, secret)` at a clock value, `bcrypt.hash` and
`bcrypt.compare`.  A `none` token is `undefined`. -/
structure Crypto where
  jwtSign : Payload → String → String → Nat → String
  jwtVerify : Option String → String → Nat → Except JwtError Payload
  bcryptHash : String → Nat → String
  bcryptCompare : String → String → Bool

/-- The settings of `config/index.js` that the auth code reads. -/
structure Config where
  jwtSecret : String
  jwtExpiry : String
  refreshTokenExpiry : String
  bcryptRounds : Nat

/-- The default configuration. -/
def defaultConfig : Config :=
  { jwtSecret := "himorganic-secret-key-change-in-production", jwtExpiry := "7d",
    refreshTokenExpiry := "30d", bcryptRounds := 10 }

/-- What the middleware sees of a request: the `Authorization` header and
`req.user`. -/
structure Request where
  authorization : Option String
  user : Option Payload

/-- Outcome of a middleware: it answered, or it called `next()` with the
request as it left it. -/
inductive Handled where
  | respond (status : Nat) (error : String)
  | next (req : Request)

/-- Pieces of a character list between occurrences of `sep`. -/
def splitChars (sep : Char) : List Char → List (List Char)
  | [] => [[]]
  | c :: cs =>
    if c = sep then [] :: splitChars sep cs
    else
      match splitChars sep cs with
      | [] => [[c]]
      | w :: ws => (c :: w) :: ws

/-- Models `text.split(sep)` for a one-character separator. -/
def jsSplit (text : String) (sep : Char) : List String :=
  List.map String.mk (splitChars sep text.data)

/-- Models `text.startsWith(start)`. -/
def jsStartsWith (text start : String) : Bool :=
  List.isPrefixOf start.data text.data

/-- Models `verifyToken`: 401 without a header that starts with `Bearer `, otherwise
verify `authHeader.split(' ')[1]`; on success set `req.user` and call
`next()`, on failure answer 401. -/
def verifyToken (crypto : Crypto) (config : Config) (nowMs : Nat) (req : Request) : Handled :=
  match req.authorization with
  | none => .respond 401 "Access denied. No token provided."
  | some authHeader =>
    if authHeader = "" || !jsStartsWith authHeader "Bearer " then
      .respond 401 "Access denied. No token provided."
    else
      let token := (jsSplit authHeader ' ')[1]?
      match crypto.jwtVerify token config.jwtSecret nowMs with
      | .ok decoded => .next { req with user := some decoded }
      | .error .expired => .respond 401 "Token expired. Please login again."
      | .error .invalid => .respond 401 "Invalid token."

/-- Models `delete object[key]`. -/
def JObj.delete (o : JObj) (key : String) : JObj :=
  List.filter (fun kv => kv.1 != key) o

/-- The properties of a stored user, in file order. -/
def User.toJson (u : User) : JObj :=
  [("id", .str u.id), ("name", .str u.name), ("email", .str u.email),
   ("password", .str u.password), ("orders", .arr (u.orders.map JVal.str)),
   ("wishlist", .arr (u.wishlist.map JVal.str))] ++
  (match u.lastLogin with
   | some t => [("lastLogin", JVal.str t)]
   | none => []) ++
  [("createdAt", .str u.createdAt), ("updatedAt", .str u.updatedAt)]

/-- The properties of a stored admin, in file order. -/
def Admin.toJson (a : Admin) : JObj :=
  [("id", .str a.id), ("name", .str a.name), ("email", .str a.email),
   ("password", .str a.password), ("role", .str a.role),
   ("permissions", .arr (a.permissions.map JVal.str))] ++
  (match a.lastLogin with
   | some t => [("lastLogin", JVal.str t)]
   | none => []) ++
  [("createdAt", .str a.createdAt), ("updatedAt", .str a.updatedAt)]

/-- Models `generateTokens(user, isAdmin)`: sign the access and the refresh token and
store the refresh token as a session. -/
def generateTokens (crypto : Crypto) (config : Config) (env : Env) (slot : Nat)
    (id email name : String) (isAdmin : Bool) (sessions : List Session) :
    (String × String) × List Session :=
  let payload : Payload := { id := id, email := some email, name := some name, isAdmin := isAdmin }
  let accessToken := crypto.jwtSign payload config.jwtSecret config.jwtExpiry env.nowMs
  let refreshToken := crypto.jwtSign { id := id, email := none, name := none, isAdmin := isAdmin }
    config.jwtSecret config.refreshTokenExpiry env.nowMs
  let created := Adapter.create sessions
    { id := env.uuid slot, userId := id, userType := if isAdmin then "Admin" else "User",
      refreshToken := refreshToken, isAdmin := isAdmin, createdAt := env.now,
      expiresAt := env.isoOf (env.nowMs + 30 * 24 * 60 * 60 * 1000), updatedAt := "" }
    (env.uuid (slot + 1)) env.now
  ((accessToken, refreshToken), created.2)

/-- Body of `POST /api/auth/login`. -/
structure LoginBody where
  email : Option String
  password : Option String

/-- Payload of a successful login: message, the user without its password,
and the two tokens. -/
structure AuthResult where
  message : String
  user : JObj
  accessToken : String
  refreshToken : String

/-- Models `login`: 400 without email or password, 401 for an unknown email or a
wrong password; otherwise record `lastLogin`, issue tokens and answer with the
user found, its password removed. -/
def login (crypto : Crypto) (config : Config) (env : Env) (body : LoginBody) (s : Store) :
    Response AuthResult × Store :=
  if !truthy body.email || !truthy body.password then
    (⟨400, .error "Email and password are required"⟩, s)
  else
    let email := body.email.getD ""
    let password := body.password.getD ""
    match Adapter.findOne s.users [("email", .str email)] with
    | none => (⟨401, .error "Invalid email or password"⟩, s)
    | some user =>
      if !crypto.bcryptCompare password user.password then
        (⟨401, .error "Invalid email or password"⟩, s)
      else
        let users := (Adapter.updateById s.users user.id
          (fun u => { u with lastLogin := some env.now }) env.now).2
        let tokens := generateTokens crypto config env 0 user.id user.email user.name false
          s.sessions
        (⟨200, .ok { message := "Login successful",
                     user := JObj.delete user.toJson "password",
                     accessToken := tokens.1.1, refreshToken := tokens.1.2 }⟩,
          { s with users := users, sessions := tokens.2 })

/-- Models `getProfile`: look `req.user.id` up among the admins or the users, 404
when it is not there, otherwise answer `{ user: { ...record, isAdmin } }`
without the password. -/
def getProfile (user : Payload) (s : Store) : Response JObj :=
  let found : Option JObj :=
    if user.isAdmin then (Adapter.findById s.admins user.id).map Admin.toJson
    else (Adapter.findById s.users user.id).map User.toJson
  match found with
  | none => ⟨404, .error "User not found"⟩
  | some record =>
    let userResponse := JObj.delete record "password"
    ⟨200, .ok [("user", .obj (JObj.set userResponse "isAdmin" (.bool user.isAdmin)))]⟩

/-! ## MongoDB operator semantics the adapter is compared with -/

/-- One MongoDB comparison operator applied to a stored value, on numbers and
on strings. -/
def operatorHolds (op : String) (operand value : JVal) : Bool :=
  match value, operand with
  | .num v, .num o =>
    if op = "$gte" then decide (v ≥ o)
    else if op = "$lte" then decide (v ≤ o)
    else if op = "$gt" then decide (v > o)
    else if op = "$lt" then decide (v < o)
    else if op = "$eq" then decide (v = o)
    else if op = "$ne" then decide (v ≠ o)
    else false
  | .str v, .str o =>
    if op = "$gte" then decide (v ≥ o)
    else if op = "$lte" then decide (v ≤ o)
    else if op = "$gt" then decide (v > o)
    else if op = "$lt" then decide (v < o)
    else if op = "$eq" then decide (v = o)
    else if op = "$ne" then decide (v ≠ o)
    else false
  | _, _ => false

/-- The selection the claim describes for a query: a field whose query value
is an operator object must satisfy every operator in it, any other field must
equal the query value. -/
def operatorQueryMatches {α : Type} [Record α] (query : JObj) (item : α) : Bool :=
  List.all (List.map (fun kv => kv.1) query) (fun key =>
    match JObj.get query key with
    | .obj ops => List.all ops (fun kv => operatorHolds kv.1 kv.2 (Record.field item key))
    | v => JVal.strictEq (Record.field item key) v)

/-! ## Quantities the statements are phrased with -/

/-- Sum of the requested quantities of the line items that reference product `id`. -/
def orderedQuantity (items : List LineItem) (id : String) : JNum :=
  JNum.sum (List.map (fun it => it.quantity) (List.filter (fun it => it.productId = id) items))

/-- What a stored line item records about its request item and the product
`products` holds for it: the product's id, name, image and price, the
requested quantity, and price times quantity as its subtotal. -/
def LineItemOf (products : List Product) (item : LineItem) (stored : OrderItem) : Prop :=
  ∃ p, Database.findById products item.productId = some p ∧
    stored.productId = p.id ∧ stored.product = p.id ∧ stored.name = p.name ∧
    stored.image = p.image ∧ stored.price = p.price ∧
    stored.quantity = item.quantity ∧
    stored.subtotal = JNum.mul (.num p.price) item.quantity

/-- Every line item carries a number as its quantity. -/
def NumericItems (items : List LineItem) : Prop :=
  ∀ it ∈ items, it.quantity ≠ .nan

/-- The products file a loop outcome leaves behind. -/
def LoopResult.products : LoopResult → List Product
  | .fail _ products => products
  | .done _ _ products => products

/-- A filter of a listing is supplied when its query parameter is a non-empty
text; a filter that is not supplied holds of every product. -/
def Supplied (param : Option String) (cond : String → Prop) : Prop :=
  match param with
  | some t => t ≠ "" → cond t
  | none => True

instance (param : Option String) (cond : String → Prop) [∀ t, Decidable (cond t)] :
    Decidable (Supplied param cond) :=
  match param with
  | some t => inferInstanceAs (Decidable (t ≠ "" → cond t))
  | none => inferInstanceAs (Decidable True)

/-- A price is at least a bound: the comparison of rational numbers; every
price is at least minus infinity, none is at least plus infinity or `NaN`. -/
def PriceFrom (bound : JFloat) (price : Int) : Prop :=
  match bound with
  | .dec m e => (m : ℚ) * (10 : ℚ) ^ e ≤ (price : ℚ)
  | .inf negative => negative = true
  | .nan => False

instance (bound : JFloat) (price : Int) : Decidable (PriceFrom bound price) :=
  match bound with
  | .dec m e => inferInstanceAs (Decidable ((m : ℚ) * (10 : ℚ) ^ e ≤ (price : ℚ)))
  | .inf negative => inferInstanceAs (Decidable (negative = true))
  | .nan => inferInstanceAs (Decidable False)

/-- A price is at most a bound: the comparison of rational numbers; every price
is at most plus infinity, none is at most minus infinity or `NaN`. -/
def PriceUpTo (bound : JFloat) (price : Int) : Prop :=
  match bound with
  | .dec m e => (price : ℚ) ≤ (m : ℚ) * (10 : ℚ) ^ e
  | .inf negative => negative = false
  | .nan => False

instance (bound : JFloat) (price : Int) : Decidable (PriceUpTo bound price) :=
  match bound with
  | .dec m e => inferInstanceAs (Decidable ((price : ℚ) ≤ (m : ℚ) * (10 : ℚ) ^ e))
  | .inf negative => inferInstanceAs (Decidable (negative = false))
  | .nan => inferInstanceAs (Decidable False)

/-- What the filters of a product listing ask of a product: the category equal
ignoring case, the price at least the minimum and at most the maximum, and the
search text contained, as a run of consecutive characters and ignoring case, in
the name or in the description. -/
def ProductMatches (toLowerCase : String → String) (q : ProductQuery) (p : Product) : Prop :=
  Supplied q.category (fun c => toLowerCase p.category = toLowerCase c) ∧
  Supplied q.minPrice (fun t => PriceFrom (parseFloat t) p.price) ∧
  Supplied q.maxPrice (fun t => PriceUpTo (parseFloat t) p.price) ∧
  Supplied q.search (fun t =>
    (toLowerCase t).data <:+: (toLowerCase p.name).data ∨
    (toLowerCase t).data <:+: (toLowerCase p.description).data)

instance (toLowerCase : String → String) (q : ProductQuery) (p : Product) :
    Decidable (ProductMatches toLowerCase q p) :=
  inferInstanceAs (Decidable (_ ∧ _ ∧ _ ∧ _))

/-- The character of a decimal digit. -/
def digitChar (d : Fin 10) : Char :=
  Char.ofNat (48 + d.val)

/-- The number a run of decimal digits stands for, most significant digit
first. -/
def digitsValue (ds : List (Fin 10)) : Nat :=
  Nat.ofDigits 10 (List.map (fun d : Fin 10 => d.val) ds.reverse)

/-- A decimal numeral as a client writes it in a query: a sign, the digits
before the point, the digits after it, and the sign and digits of an exponent
(no digits: no exponent). -/
structure Numeral where
  negative : Bool
  whole : List (Fin 10)
  frac : List (Fin 10)
  exponentNegative : Bool
  exponentDigits : List (Fin 10)
  deriving DecidableEq, Repr

/-- The text of a numeral, such as `-12.50e3`. -/
def Numeral.render (n : Numeral) : List Char :=
  (if n.negative then ['-'] else []) ++ List.map digitChar n.whole ++
  (if n.frac = [] then [] else '.' :: List.map digitChar n.frac) ++
  (if n.exponentDigits = [] then []
   else 'e' :: ((if n.exponentNegative then ['-'] else []) ++
     List.map digitChar n.exponentDigits))

/-- The rational number a numeral stands for. -/
def Numeral.value (n : Numeral) : ℚ :=
  (if n.negative then -1 else 1) *
  ((digitsValue n.whole : ℚ) + (digitsValue n.frac : ℚ) / (10 : ℚ) ^ n.frac.length) *
  (10 : ℚ) ^ (if n.exponentNegative then -(digitsValue n.exponentDigits : Int)
    else (digitsValue n.exponentDigits : Int))

/-- A text that cannot continue a numeral written before it: it is empty or
starts with a character that is not a digit, a point or an exponent mark. -/
def EndsNumeral (rest : List Char) : Prop :=
  ∀ c, rest.head? = some c → c.isDigit = false ∧ c ≠ '.' ∧ c ≠ 'e' ∧ c ≠ 'E'

/-- The invariant of an order's status history: the history has a last entry
and that entry records the order's current status. -/
def HistoryTracksStatus (o : Order) : Prop :=
  Option.map (fun e : StatusEntry => e.status) o.statusHistory.getLast? = some o.status

instance (o : Order) : Decidable (HistoryTracksStatus o) :=
  inferInstanceAs (Decidable (_ = _))


/-! ## Admin gate, order access and order status -/

/-- Models `requireAdmin`: 401 without `req.user`, 403 when `req.user.isAdmin`
is falsy or no admin has the id `req.user.id`, otherwise `next()`. -/
def requireAdmin (req : Request) (s : Store) : Handled :=
  match req.user with
  | none => .respond 401 "Authentication required."
  | some user =>
    if !user.isAdmin then .respond 403 "Admin access required."
    else
      match Adapter.findById s.admins user.id with
      | none => .respond 403 "Admin account not found."
      | some _ => .next req

/-- Outcome of a guarded route: a middleware answered and the handler did not
run, or the handler ran on the request the middlewares passed on. -/
inductive RouteResult (β : Type) where
  | rejected (status : Nat) (error : String)
  | handled (result : β)

/-- A route registered as `verifyToken, requireAdmin, handler` (the product
writes, the admin order routes) or behind `router.use(verifyToken,
requireAdmin)` (every analytics route). -/
def adminRoute {β : Type} (crypto : Crypto) (config : Config) (nowMs : Nat)
    (handler : Request → Store → β) (req : Request) (s : Store) : RouteResult β :=
  match verifyToken crypto config nowMs req with
  | .respond status error => .rejected status error
  | .next req1 =>
    match requireAdmin req1 s with
    | .respond status error => .rejected status error
    | .next req2 => .handled (handler req2 s)

/-- Models `getOrder`: 404 for an unknown id; `orderUserId` is
`order.user?._id || order.user || order.userId`, which for a stored order is
its `user` when that is a non-empty string and `undefined` otherwise; a
requester who is not an admin and whose id differs from it gets 403. -/
def getOrder (user : Payload) (id : String) (s : Store) : Response Order :=
  match Adapter.findById s.orders id with
  | none => ⟨404, .error "Order not found"⟩
  | some order =>
    let orderUserId : Option String :=
      match order.user with
      | some u => if u = "" then none else some u
      | none => none
    if !user.isAdmin && orderUserId != some user.id then ⟨403, .error "Access denied"⟩
    else ⟨200, .ok order⟩

/-- Models `initializeDefaultAdmin` of `server.js`: when `findMany()` on the
admins is empty, create the default admin with the hashed password. -/
def initializeDefaultAdmin (crypto : Crypto) (config : Config) (env : Env)
    (arraySort : (Admin → Admin → Int) → List Admin → List Admin) (s : Store) : Store :=
  if (Adapter.findMany arraySort s.admins [] {}).length = 0 then
    { s with admins := (Adapter.create s.admins
        { id := env.uuid 0, name := "Admin", email := "admin@himorganic.com",
          password := crypto.bcryptHash "admin123" config.bcryptRounds,
          role := "super_admin",
          permissions := ["products", "orders", "users", "analytics", "settings"],
          lastLogin := none, createdAt := "", updatedAt := "" }
        (env.uuid 1) env.now).2 }
  else s

/-- Body of `PATCH /api/orders/:id/status`. -/
structure StatusBody where
  status : Option String
  paymentStatus : Option String

/-- The list `validStatuses` of `updateOrderStatus`. -/
def validStatuses : List String :=
  ["pending", "confirmed", "processing", "shipped", "out_for_delivery", "delivered",
   "cancelled", "returned"]

/-- The list `validPaymentStatuses` of `updateOrderStatus`. -/
def validPaymentStatuses : List String :=
  ["pending", "paid", "failed", "refunded"]

/-- The update object `updateOrderStatus` builds for an order: with a status,
the status and the history extended by one entry; with a payment status, the
payment status and, for `paid`, `paymentDetails.paidAt`. -/
def statusUpdates (env : Env) (admin : Payload) (body : StatusBody) (order : Order)
    (stored : Order) : Order :=
  let stored :=
    if truthy body.status then
      { stored with
        status := body.status.getD "",
        statusHistory := order.statusHistory ++
          [{ status := body.status.getD "", timestamp := env.now, note := none,
             updatedBy := some admin.id }] }
    else stored
  if truthy body.paymentStatus then
    { stored with
      paymentStatus := body.paymentStatus.getD "",
      paidAt := if body.paymentStatus.getD "" = "paid" then some env.now else stored.paidAt }
  else stored

/-- Models `updateOrderStatus`: 404 for an unknown order, 400 for a status or
a payment status outside the valid lists, otherwise `updateById` with the
update object, an analytics event and the updated order as answer. -/
def updateOrderStatus (env : Env) (admin : Payload) (id : String) (body : StatusBody)
    (s : Store) : Response (Option Order) × Store :=
  match Adapter.findById s.orders id with
  | none => (⟨404, .error "Order not found"⟩, s)
  | some order =>
    if truthy body.status && !validStatuses.contains (body.status.getD "") then
      (⟨400, .error "Invalid status"⟩, s)
    else if truthy body.paymentStatus &&
        !validPaymentStatuses.contains (body.paymentStatus.getD "") then
      (⟨400, .error "Invalid payment status"⟩, s)
    else
      let written := Adapter.updateById s.orders id (statusUpdates env admin body order) env.now
      let analytics := trackAnalytics env 0 "order_status_updated"
        [("orderId", .str id), ("oldStatus", .str order.status),
         ("newStatus", .str (if truthy body.status then body.status.getD "" else order.status)),
         ("adminId", .str admin.id)]
        s.analytics
      (⟨200, .ok written.1⟩, { s with orders := written.2, analytics := analytics })

/-! ## Registration, admin login and token refresh -/

/-- Body of `POST /api/auth/register`. -/
structure RegisterBody where
  name : Option String
  email : Option String
  password : Option String

/-- Models `register`: 400 for a missing field, a password shorter than 6 or
an email already stored; otherwise store the user with the hashed password,
issue tokens and answer 201 with the user, its password removed. -/
def register (crypto : Crypto) (config : Config) (env : Env) (body : RegisterBody)
    (s : Store) : Response AuthResult × Store :=
  if !truthy body.name || !truthy body.email || !truthy body.password then
    (⟨400, .error "Name, email and password are required"⟩, s)
  else if (body.password.getD "").length < 6 then
    (⟨400, .error "Password must be at least 6 characters"⟩, s)
  else
    match Adapter.findOne s.users [("email", .str (body.email.getD ""))] with
    | some _ => (⟨400, .error "Email already registered"⟩, s)
    | none =>
      let created := Adapter.create s.users
        { id := env.uuid 0, name := body.name.getD "", email := body.email.getD "",
          password := crypto.bcryptHash (body.password.getD "") config.bcryptRounds,
          orders := [], wishlist := [], lastLogin := none, createdAt := "", updatedAt := "" }
        (env.uuid 1) env.now
      let newUser := created.1
      let tokens := generateTokens crypto config env 2 newUser.id newUser.email newUser.name
        false s.sessions
      (⟨201, .ok { message := "Registration successful",
                   user := JObj.delete newUser.toJson "password",
                   accessToken := tokens.1.1, refreshToken := tokens.1.2 }⟩,
        { s with users := created.2, sessions := tokens.2 })

/-- Models `adminLogin`: 400 without email or password, 401 for an unknown
email or a wrong password; a stored password that does not start with `$2` is
compared as plain text and replaced by its hash when it matches; on success
record `lastLogin` and issue admin tokens. -/
def adminLogin (crypto : Crypto) (config : Config) (env : Env) (body : LoginBody)
    (s : Store) : Response AuthResult × Store :=
  if !truthy body.email || !truthy body.password then
    (⟨400, .error "Email and password are required"⟩, s)
  else
    let password := body.password.getD ""
    match Adapter.findOne s.admins [("email", .str (body.email.getD ""))] with
    | none => (⟨401, .error "Invalid credentials"⟩, s)
    | some admin =>
      let hashed := jsStartsWith admin.password "$2"
      let isValidPassword :=
        if hashed then crypto.bcryptCompare password admin.password
        else decide (admin.password = password)
      let admins :=
        if !hashed && isValidPassword then
          (Adapter.updateById s.admins admin.id
            (fun a => { a with password := crypto.bcryptHash password config.bcryptRounds })
            env.now).2
        else s.admins
      if !isValidPassword then
        (⟨401, .error "Invalid credentials"⟩, { s with admins := admins })
      else
        let admins := (Adapter.updateById admins admin.id
          (fun a => { a with lastLogin := some env.now }) env.now).2
        let tokens := generateTokens crypto config env 0 admin.id admin.email admin.name true
          s.sessions
        (⟨200, .ok { message := "Admin login successful",
                     user := JObj.set (JObj.delete admin.toJson "password") "isAdmin"
                       (.bool true),
                     accessToken := tokens.1.1, refreshToken := tokens.1.2 }⟩,
          { s with admins := admins, sessions := tokens.2 })

/-- Body of `POST /api/auth/refresh-token`. -/
structure RefreshBody where
  refreshToken : Option String

/-- The two tokens `refreshToken` answers with. -/
structure TokenPair where
  accessToken : String
  refreshToken : String
  deriving DecidableEq, Repr

/-- Models `refreshToken`: 400 without a token; 401 when the token does not
verify, no session holds it for the decoded id, or the account is gone;
otherwise delete the session and issue new tokens for the account with the
decoded `isAdmin`. -/
def refreshToken (crypto : Crypto) (config : Config) (env : Env) (body : RefreshBody)
    (s : Store) : Response TokenPair × Store :=
  if !truthy body.refreshToken then (⟨400, .error "Refresh token required"⟩, s)
  else
    let token := body.refreshToken.getD ""
    match crypto.jwtVerify (some token) config.jwtSecret env.nowMs with
    | .error _ => (⟨401, .error "Invalid refresh token"⟩, s)
    | .ok decoded =>
      match Adapter.findOne s.sessions
          [("refreshToken", .str token), ("userId", .str decoded.id)] with
      | none => (⟨401, .error "Invalid refresh token"⟩, s)
      | some session =>
        let account : Option (String × String × String) :=
          if decoded.isAdmin then
            (Adapter.findById s.admins decoded.id).map (fun a => (a.id, a.email, a.name))
          else (Adapter.findById s.users decoded.id).map (fun u => (u.id, u.email, u.name))
        match account with
        | none => (⟨401, .error "User not found"⟩, s)
        | some (id, email, name) =>
          let sessions := (Adapter.deleteById s.sessions session.id).2
          let tokens := generateTokens crypto config env 0 id email name decoded.isAdmin
            sessions
          (⟨200, .ok { accessToken := tokens.1.1, refreshToken := tokens.1.2 }⟩,
            { s with sessions := tokens.2 })

/-! ## Logout, profile update and the rate limiter -/

/-- Models `deleteOne(query)` on the JSON backend: `findOne(query)`, then the
collection's `delete(item.id)`; nothing happens when no item matches. -/
def Adapter.deleteOne {α : Type} [Record α] (data : List α) (query : JObj) :
    Bool × List α :=
  match Adapter.findOne data query with
  | none => (false, data)
  | some item => Database.delete data (Record.id item)

/-- Models `logout`: when the body carries a refresh token, `deleteOne` is called
for a session holding it; the answer is always the confirmation message. -/
def logout (body : RefreshBody) (s : Store) : Response String × Store :=
  let sessions :=
    if truthy body.refreshToken then
      (Adapter.deleteOne s.sessions [("refreshToken", .str (body.refreshToken.getD ""))]).2
    else s.sessions
  (⟨200, .ok "Logged out successfully"⟩, { s with sessions := sessions })

/-- Body of `PUT /api/auth/profile`. -/
structure ProfileBody where
  name : Option String := none
  email : Option String := none
  currentPassword : Option String := none
  newPassword : Option String := none

/-- What `updateProfile` reads from and writes to an account record, for the
collection chosen by `req.user.isAdmin`. -/
structure AccountKind (α : Type) where
  email : α → String
  password : α → String
  toJson : α → JObj
  withName : α → String → α
  withEmail : α → String → α
  withPassword : α → String → α

/-- The accounts of `db.users`. -/
def userKind : AccountKind User :=
  { email := fun u => u.email, password := fun u => u.password, toJson := User.toJson,
    withName := fun u v => { u with name := v },
    withEmail := fun u v => { u with email := v },
    withPassword := fun u v => { u with password := v } }

/-- The accounts of `db.admins`. -/
def adminKind : AccountKind Admin :=
  { email := fun a => a.email, password := fun a => a.password, toJson := Admin.toJson,
    withName := fun a v => { a with name := v },
    withEmail := fun a v => { a with email := v },
    withPassword := fun a v => { a with password := v } }

/-- The condition `email && email !== user.email` of `updateProfile`. -/
def emailChanges {α : Type} (kind : AccountKind α) (body : ProfileBody) (account : α) : Bool :=
  truthy body.email && decide (body.email.getD "" ≠ kind.email account)

/-- The `updates` object of `updateProfile` once every check has passed. -/
def profileUpdates {α : Type} (kind : AccountKind α) (crypto : Crypto) (config : Config)
    (body : ProfileBody) (account : α) (record : α) : α :=
  let record := if truthy body.name then kind.withName record (body.name.getD "") else record
  let record :=
    if emailChanges kind body account then kind.withEmail record (body.email.getD "")
    else record
  if truthy body.newPassword then
    kind.withPassword record (crypto.bcryptHash (body.newPassword.getD "") config.bcryptRounds)
  else record

/-- Models `updateProfile` on one collection: 404 for an unknown account, 400
for an email held by another record, for a new password without the current
one and for a wrong current password; otherwise `updateById` and the updated
record without its password.  A missing result of `updateById` makes the
handler throw, which it answers with 500. -/
def updateProfileIn {α : Type} [Record α] (kind : AccountKind α) (crypto : Crypto)
    (config : Config) (env : Env) (id : String) (body : ProfileBody) (data : List α) :
    Response JObj × List α :=
  match Adapter.findById data id with
  | none => (⟨404, .error "User not found"⟩, data)
  | some account =>
    let taken : Bool :=
      emailChanges kind body account &&
        (match Adapter.findOne data [("email", .str (body.email.getD ""))] with
         | some existing => decide (Record.id existing ≠ Record.id account)
         | none => false)
    if taken then (⟨400, .error "Email already in use"⟩, data)
    else if truthy body.newPassword && !truthy body.currentPassword then
      (⟨400, .error "Current password required"⟩, data)
    else if truthy body.newPassword &&
        !crypto.bcryptCompare (body.currentPassword.getD "") (kind.password account) then
      (⟨400, .error "Current password is incorrect"⟩, data)
    else
      let written := Adapter.updateById data (Record.id account)
        (profileUpdates kind crypto config body account) env.now
      match written.1 with
      | none => (⟨500, .error "Failed to update profile"⟩, written.2)
      | some updatedUser =>
        (⟨200, .ok [("user", .obj (JObj.delete (kind.toJson updatedUser) "password"))]⟩,
          written.2)

/-- Models `updateProfile`: the admins collection for an admin token, the users
collection otherwise. -/
def updateProfile (crypto : Crypto) (config : Config) (env : Env) (user : Payload)
    (body : ProfileBody) (s : Store) : Response JObj × Store :=
  if user.isAdmin then
    let result := updateProfileIn adminKind crypto config env user.id body s.admins
    (result.1, { s with admins := result.2 })
  else
    let result := updateProfileIn userKind crypto config env user.id body s.users
    (result.1, { s with users := result.2 })

/-- A record of the rate limiter: requests counted in the current window and
the time (ms) at which the window ends. -/
structure RateRecord where
  count : Nat
  resetTime : Nat
  deriving DecidableEq, Repr

/-- The module-level `rateLimitStore`, a `Map` from client key to record. -/
abbrev RateStore : Type := String → Option RateRecord

/-- Models `rateLimitStore.set(key, record)`. -/
def RateStore.set (store : RateStore) (key : String) (record : RateRecord) : RateStore :=
  fun k => if k = key then some record else store k

/-- What the limiter does with a request: hand it on, or answer 429 with
`retryAfter` seconds. -/
inductive RateOutcome where
  | next
  | tooMany (retryAfter : Nat)
  deriving DecidableEq, Repr

/-- Models the middleware returned by `rateLimit({ windowMs, max })` for a request of
client `key` arriving at `now`. -/
def rateLimit (windowMs max : Nat) (key : String) (now : Nat) (store : RateStore) :
    RateOutcome × RateStore :=
  match store key with
  | none => (.next, store.set key { count := 1, resetTime := now + windowMs })
  | some record =>
    if now > record.resetTime then
      (.next, store.set key { count := 1, resetTime := now + windowMs })
    else if record.count ≥ max then
      (.tooMany ((record.resetTime - now + 999) / 1000), store)
    else (.next, store.set key { record with count := record.count + 1 })

/-- The limiter applied to the requests of one client arriving at the given
times, in order: the outcomes and the final store. -/
def rateLimitAll (windowMs max : Nat) (key : String) :
    List Nat → RateStore → List RateOutcome × RateStore
  | [], store => ([], store)
  | now :: later, store =>
    let first := rateLimit windowMs max key now store
    let rest := rateLimitAll windowMs max key later first.2
    (first.1 :: rest.1, rest.2)

/-- The limiter of the auth routes: 10 requests per 15 minutes. -/
def authRateLimit : String → Nat → RateStore → RateOutcome × RateStore :=
  rateLimit (15 * 60 * 1000) 10


/-! ## The store-changing operations as one transition system -/

/-- A request (or the start-up step) that can change the store, with its inputs. -/
inductive Operation where
  | createOrder (env : Env) (user : Option Payload) (body : CreateOrderBody)
  | updateOrderStatus (env : Env) (admin : Payload) (id : String) (body : StatusBody)
  | deleteProduct (id : String)
  | register (crypto : Crypto) (config : Config) (env : Env) (body : RegisterBody)
  | login (crypto : Crypto) (config : Config) (env : Env) (body : LoginBody)
  | adminLogin (crypto : Crypto) (config : Config) (env : Env) (body : LoginBody)
  | refreshToken (crypto : Crypto) (config : Config) (env : Env) (body : RefreshBody)
  | initializeDefaultAdmin (crypto : Crypto) (config : Config) (env : Env)
      (arraySort : (Admin → Admin → Int) → List Admin → List Admin)
  | getProduct (env : Env) (id : String)
  | createProduct (env : Env) (admin : Payload) (body : ProductBody)
  | updateProduct (env : Env) (id : String) (body : ProductBody)
  | logout (body : RefreshBody)
  | updateProfile (crypto : Crypto) (config : Config) (env : Env) (user : Payload)
      (body : ProfileBody)

/-- The store an operation leaves behind. -/
def Operation.run : Operation → Store → Store
  | .createOrder env user body, s => (Himorganic.createOrder env user body s).2
  | .updateOrderStatus env admin id body, s => (Himorganic.updateOrderStatus env admin id body s).2
  | .deleteProduct id, s => (Himorganic.deleteProduct id s).2
  | .register crypto config env body, s => (Himorganic.register crypto config env body s).2
  | .login crypto config env body, s => (Himorganic.login crypto config env body s).2
  | .adminLogin crypto config env body, s => (Himorganic.adminLogin crypto config env body s).2
  | .refreshToken crypto config env body, s =>
    (Himorganic.refreshToken crypto config env body s).2
  | .initializeDefaultAdmin crypto config env arraySort, s =>
    Himorganic.initializeDefaultAdmin crypto config env arraySort s
  | .getProduct env id, s => (Himorganic.getProduct env id s).2
  | .createProduct env admin body, s => (Himorganic.createProduct env admin body s).2
  | .updateProduct env id body, s => (Himorganic.updateProduct env id body s).2
  | .logout body, s => (Himorganic.logout body s).2
  | .updateProfile crypto config env user body, s =>
    (Himorganic.updateProfile crypto config env user body s).2

/-- The store after a sequence of operations. -/
def runAll : List Operation → Store → Store
  | [], s => s
  | op :: ops, s => runAll ops (op.run s)

/-- The part of an order outside status bookkeeping: everything but `status`,
`statusHistory`, `paymentStatus`, `paymentDetails.paidAt` and `updatedAt`. -/
def Order.fixedPart (o : Order) :
    String × String × Option String × List OrderItem × Customer × String × JNum × Int ×
      JNum × String :=
  (o.id, o.orderNumber, o.user, o.items, o.customer, o.paymentMethod, o.subtotal, o.shipping,
    o.total, o.createdAt)

/-- The invariant of the orders file: every stored order has a status and a
payment status from the valid lists. -/
def StatusesValid (s : Store) : Prop :=
  ∀ o ∈ s.orders, o.status ∈ validStatuses ∧ o.paymentStatus ∈ validPaymentStatuses

/-- What it means that a token pair issued for an account carries the
account's id and the flag `isAdmin`, and that `session` is the session stored
with it. -/
def IssuedFor (crypto : Crypto) (config : Config) (env : Env) (id email name : String)
    (isAdmin : Bool) (accessToken refreshToken : String) (session : Session) : Prop :=
  accessToken = crypto.jwtSign
    { id := id, email := some email, name := some name, isAdmin := isAdmin }
    config.jwtSecret config.jwtExpiry env.nowMs ∧
  refreshToken = crypto.jwtSign { id := id, email := none, name := none, isAdmin := isAdmin }
    config.jwtSecret config.refreshTokenExpiry env.nowMs ∧
  session.userId = id ∧ session.refreshToken = refreshToken ∧ session.isAdmin = isAdmin ∧
  (session.userType = "Admin" ↔ isAdmin = true)

/-! ## `getAllOrders` -/

/-- Query string of `GET /api/orders/admin/all`; `fromDate` and `toDate` are the
parameters `from` and `to`. -/
structure OrdersQuery where
  status : Option String := none
  fromDate : Option String := none
  toDate : Option String := none
  limit : Option String := none
  offset : Option String := none

/-- The answer of `getAllOrders`; a `limit` or `offset` of `none` is `NaN`. -/
structure OrdersPage where
  orders : List Order
  total : Nat
  limit : Option Int
  offset : Option Int

/-- Models `new Date(a) >= new Date(b)`; `parseDate` gives the time value of a date
text, `none` for an invalid date, and a comparison with an invalid date is
false. -/
def dateGe (parseDate : String → Option Int) (a b : String) : Bool :=
  match parseDate a, parseDate b with
  | some x, some y => decide (x ≥ y)
  | _, _ => false

/-- Models `new Date(a) <= new Date(b)`. -/
def dateLe (parseDate : String → Option Int) (a b : String) : Bool :=
  match parseDate a, parseDate b with
  | some x, some y => decide (x ≤ y)
  | _, _ => false

/-- Models `parseInt(limit)` with the default of the destructuring
(`limit = 50`, `offset = 0`). -/
def parseIntOr (value : Option String) (dflt : Int) : Option Int :=
  match value with
  | some text =>
    match parseInt text with
    | .num n => some n
    | .nan => none
  | none => some dflt

/-- Models `getAllOrders` on the JSON backend: `findMany` with the status query,
sorted by `createdAt` descending and paginated; then the date filters on
the page; `total` is `count(query)`. -/
def getAllOrders (parseDate : String → Option Int)
    (arraySort : (Order → Order → Int) → List Order → List Order)
    (q : OrdersQuery) (s : Store) : Response OrdersPage :=
  let query : JObj := if truthy q.status then [("status", .str (q.status.getD ""))] else []
  let options : FindOptions :=
    { sort := some ("createdAt", .num (-1)),
      limit := parseIntOr q.limit 50,
      skip := parseIntOr q.offset 0 }
  let allOrders := Adapter.findMany arraySort s.orders query options
  let allOrders :=
    if truthy q.fromDate then
      List.filter (fun o => dateGe parseDate o.createdAt (q.fromDate.getD "")) allOrders
    else allOrders
  let allOrders :=
    if truthy q.toDate then
      List.filter (fun o => dateLe parseDate o.createdAt (q.toDate.getD "")) allOrders
    else allOrders
  let total := Adapter.count arraySort s.orders query
  ⟨200, .ok { orders := allOrders, total := total, limit := parseIntOr q.limit 50,
              offset := parseIntOr q.offset 0 }⟩

/-- Whether an order matches every supplied filter of an orders query: the
status, and the date range on `createdAt`. -/
def matchesOrdersQuery (parseDate : String → Option Int) (q : OrdersQuery) (o : Order) : Bool :=
  (if truthy q.status then decide (o.status = q.status.getD "") else true) &&
  (if truthy q.fromDate then dateGe parseDate o.createdAt (q.fromDate.getD "") else true) &&
  (if truthy q.toDate then dateLe parseDate o.createdAt (q.toDate.getD "") else true)

/-- The page and total the orders listing is specified to give: select the
orders matching status and date range, sort them by `createdAt` descending,
skip `offset`, take `limit`; the total is the number of selected orders. -/
def ordersPageSpec (parseDate : String → Option Int)
    (arraySort : (Order → Order → Int) → List Order → List Order)
    (q : OrdersQuery) (s : Store) : List Order × Nat :=
  let selected := List.filter (matchesOrdersQuery parseDate q) s.orders
  let sorted := arraySort (Adapter.sortComparator "createdAt" (.num (-1))) selected
  let skipped := List.drop ((parseIntOr q.offset 0).getD 0).toNat sorted
  let page := List.take ((parseIntOr q.limit 50).getD 50).toNat skipped
  (page, selected.length)

/-! ## The client's cart and checkout page -/

/-- An item of the client's cart (`CartItem`). -/
structure CartItem where
  productId : String
  name : String
  price : Int
  image : String
  quantity : Int
  deriving DecidableEq, Repr

/-- Models `getTotal()` of the cart store:
`items.reduce((sum, item) => sum + item.price * item.quantity, 0)`. -/
def getTotal (items : List CartItem) : Int :=
  List.foldl (fun sum item => sum + item.price * item.quantity) 0 items

/-- The three amounts the checkout page shows. -/
structure CheckoutTotals where
  subtotal : Int
  shipping : Int
  total : Int
  deriving DecidableEq, Repr

/-- Models the amounts of `Checkout`: `subtotal = getTotal()`,
`shipping = subtotal > 500 ? 0 : 50`, `total = subtotal + shipping`. -/
def checkoutTotals (items : List CartItem) : CheckoutTotals :=
  let subtotal := getTotal items
  let shipping : Int := if subtotal > 500 then 0 else 50
  { subtotal := subtotal, shipping := shipping, total := subtotal + shipping }

/-- The request `handlePayment` sends: product id and quantity of every cart
item, the customer form and the payment method. -/
def checkoutRequest (items : List CartItem) (customer : Customer) (paymentMethod : String) :
    CreateOrderBody :=
  { items := some (List.map (fun item => LineItem.mk item.productId (.num item.quantity)) items),
    customer := some customer,
    paymentMethod := some paymentMethod }


/-! ## The engine's `Array.prototype.sort` -/

/-- What is asked of the engine's sort: whenever the comparator never answers
0 on the elements of the array and its answers `cmp a b < 0` ("a goes first")
are total and transitive on them, the result is a rearrangement of the array
in which every element goes before the ones after it. -/
def OrdersByComparator {α : Type} (arraySort : (α → α → Int) → List α → List α) : Prop :=
  ∀ (cmp : α → α → Int) (l : List α),
    (∀ a ∈ l, ∀ b ∈ l, cmp a b ≠ 0) →
    (∀ a ∈ l, ∀ b ∈ l, cmp a b < 0 ∨ cmp b a < 0) →
    (∀ a ∈ l, ∀ b ∈ l, ∀ c ∈ l, cmp a b < 0 → cmp b c < 0 → cmp a c < 0) →
    List.Perm (arraySort cmp l) l ∧ List.Pairwise (fun a b => cmp a b < 0) (arraySort cmp l)

/-- The part of the initial run after `prev`: elements are taken while each
compares below its predecessor (descending run) or not below it (ascending
run); returns the run and the remaining elements. -/
def runAfter {α : Type} (cmp : α → α → Int) (descending : Bool) : α → List α → List α × List α
  | _, [] => ([], [])
  | prev, cur :: rest =>
    if (descending && decide (cmp cur prev ≥ 0)) || (!descending && decide (cmp cur prev < 0)) then
      ([], cur :: rest)
    else ((cur :: (runAfter cmp descending cur rest).1), (runAfter cmp descending cur rest).2)

/-- Binary search for the insertion point of `pivot` in `sorted[left, right)`:
go left when `cmp pivot sorted[mid] < 0`, right otherwise. -/
def insertionPoint {α : Type} (cmp : α → α → Int) (pivot : α) (sorted : List α) :
    Nat → Nat → Nat → Nat
  | 0, left, _ => left
  | fuel + 1, left, right =>
    if left < right then
      match sorted[left + (right - left) / 2]? with
      | some m =>
        if cmp pivot m < 0 then insertionPoint cmp pivot sorted fuel left (left + (right - left) / 2)
        else insertionPoint cmp pivot sorted fuel (left + (right - left) / 2 + 1) right
      | none => left
    else left

/-- Insert `pivot` into `sorted` at its binary-search insertion point. -/
def binaryInsert {α : Type} (cmp : α → α → Int) (sorted : List α) (pivot : α) : List α :=
  List.take (insertionPoint cmp pivot sorted (sorted.length + 1) 0 sorted.length) sorted ++
    pivot :: List.drop (insertionPoint cmp pivot sorted (sorted.length + 1) 0 sorted.length) sorted

/-- An engine sort in the manner of a run-detecting binary insertion sort (the
path a TimSort takes on a short array): find the initial run, reverse it when
it descends, then insert the remaining elements one by one. -/
def runInsertionSort {α : Type} (cmp : α → α → Int) : List α → List α
  | [] => []
  | [a] => [a]
  | a :: b :: rest =>
    let descending := decide (cmp b a < 0)
    let run := a :: b :: (runAfter cmp descending b rest).1
    List.foldl (binaryInsert cmp) (if descending then run.reverse else run)
      (runAfter cmp descending b rest).2

/-- The order of texts the statements speak of: lexicographic on UTF-16 code
units. -/
def StringLe (a b : String) : Prop :=
  utf16Units a = utf16Units b ∨ List.Lex (fun x y : Nat => x < y) (utf16Units a) (utf16Units b)

/-- The order of sort keys the statements speak of: numbers by value, strings
lexicographically; keys of different kinds and missing keys are not ordered. -/
def JVal.le : JVal → JVal → Prop
  | .num a, .num b => a ≤ b
  | .str a, .str b => StringLe a b
  | _, _ => False

/-- The number stored under a property, if it is a number. -/
def JVal.asNum : JVal → Option Int
  | .num n => some n
  | _ => none

/-- Whether the numbers present in a list of sort keys are in non-decreasing order. -/
def nonDecreasing (keys : List (Option Int)) : Bool :=
  decide (List.Pairwise (fun a b => a ≤ b) (List.filterMap (fun x => x) keys))

/-- The laws the record types satisfy: assigning the id sets it, stamping
`createdAt` and `updatedAt` leaves the id alone and can be read back. -/
class LawfulRecord (α : Type) [Record α] : Prop where
  id_withId : ∀ (x : α) (v : String), Record.id (Record.withId x v) = v
  id_withCreatedAt : ∀ (x : α) (v : String), Record.id (Record.withCreatedAt x v) = Record.id x
  id_withUpdatedAt : ∀ (x : α) (v : String), Record.id (Record.withUpdatedAt x v) = Record.id x
  createdAt_stamped : ∀ (x : α) (v w : String),
    Record.field (Record.withUpdatedAt (Record.withCreatedAt x v) w) "createdAt" = .str v
  updatedAt_stamped : ∀ (x : α) (w : String),
    Record.field (Record.withUpdatedAt x w) "updatedAt" = .str w

instance : LawfulRecord Product where
  id_withId _ _ := rfl
  id_withCreatedAt _ _ := rfl
  id_withUpdatedAt _ _ := rfl
  createdAt_stamped _ _ _ := by simp [Record.field, Record.withCreatedAt, Record.withUpdatedAt]
  updatedAt_stamped _ _ := by simp [Record.field, Record.withUpdatedAt]

instance : LawfulRecord Order where
  id_withId _ _ := rfl
  id_withCreatedAt _ _ := rfl
  id_withUpdatedAt _ _ := rfl
  createdAt_stamped _ _ _ := by simp [Record.field, Record.withCreatedAt, Record.withUpdatedAt]
  updatedAt_stamped _ _ := by simp [Record.field, Record.withUpdatedAt]

instance : LawfulRecord User where
  id_withId _ _ := rfl
  id_withCreatedAt _ _ := rfl
  id_withUpdatedAt _ _ := rfl
  createdAt_stamped _ _ _ := by simp [Record.field, Record.withCreatedAt, Record.withUpdatedAt]
  updatedAt_stamped _ _ := by simp [Record.field, Record.withUpdatedAt]

instance : LawfulRecord Admin where
  id_withId _ _ := rfl
  id_withCreatedAt _ _ := rfl
  id_withUpdatedAt _ _ := rfl
  createdAt_stamped _ _ _ := by simp [Record.field, Record.withCreatedAt, Record.withUpdatedAt]
  updatedAt_stamped _ _ := by simp [Record.field, Record.withUpdatedAt]

instance : LawfulRecord Session where
  id_withId _ _ := rfl
  id_withCreatedAt _ _ := rfl
  id_withUpdatedAt _ _ := rfl
  createdAt_stamped _ _ _ := by simp [Record.field, Record.withCreatedAt, Record.withUpdatedAt]
  updatedAt_stamped _ _ := by simp [Record.field, Record.withUpdatedAt]

instance : LawfulRecord AnalyticsEvent where
  id_withId _ _ := rfl
  id_withCreatedAt _ _ := rfl
  id_withUpdatedAt _ _ := rfl
  createdAt_stamped _ _ _ := by simp [Record.field, Record.withCreatedAt, Record.withUpdatedAt]
  updatedAt_stamped _ _ := by simp [Record.field, Record.withUpdatedAt]

/-! ## Sample data of the worked examples -/

/-- A stored user whose password hash belongs to the password `secret1`. -/
def sampleUser : User :=
  { id := "U1", name := "Asha", email := "asha@example.com", password := "hash:secret1",
    orders := [], wishlist := [], lastLogin := none,
    createdAt := "2024-01-01T00:00:00.000Z", updatedAt := "2024-01-01T00:00:00.000Z" }

/-- The access-token payload of `sampleUser`. -/
def samplePayload : Payload :=
  { id := "U1", email := some "asha@example.com", name := some "Asha", isAdmin := false }

/-- Stand-ins for the libraries: a token names the account and its lifetime,
only the access token of `sampleUser` verifies, and a hash is the password
behind a marker. -/
def sampleCrypto : Crypto :=
  { jwtSign := fun payload _ expiresIn _ => "jwt." ++ payload.id ++ "." ++ expiresIn,
    jwtVerify := fun token _ _ =>
      if token = some "jwt.U1.7d" then .ok samplePayload else .error .invalid,
    bcryptHash := fun password _ => "hash:" ++ password,
    bcryptCompare := fun password hash => decide (hash = "hash:" ++ password) }

/-- A store whose only account is `sampleUser`. -/
def sampleAuthStore : Store :=
  { users := [sampleUser], admins := [], products := [], orders := [], analytics := [],
    sessions := [] }

/-- The query `{ price: { $gte: 100 } }`. -/
def gteQuery : JObj :=
  [("price", .obj [("$gte", .num 100)])]

/-- An engine sort used in the worked examples: insertion of each element
before the first element it does not compare greater than. -/
def sampleSort {α : Type} (cmp : α → α → Int) (xs : List α) : List α :=
  List.insertionSort (fun a b => cmp a b ≤ 0) xs

/-- A product listing request without any query parameter. -/
def noProductQuery : ProductQuery :=
  { category := none, minPrice := none, maxPrice := none, search := none, sort := none }


/-- A product with the given id, price and stock. -/
def sampleProduct (id : String) (price stock : Int) : Product :=
  { id := id, name := "item " ++ id, description := "", price := price, image := "",
    category := "General", stock := .num stock, rating := 0, reviewCount := 0, createdBy := "A",
    createdAt := "2024-01-01T00:00:00.000Z", updatedAt := "2024-01-01T00:00:00.000Z" }

/-- A request environment. -/
def sampleEnv : Env :=
  { now := "2024-02-01T00:00:00.000Z", nowMs := 1706745600000,
    uuid := fun n => "uuid-" ++ toString n,
    isoOf := fun ms => "ms-" ++ toString ms }

/-- Customer details that pass validation. -/
def sampleCustomer : Customer :=
  { name := some "Asha", email := some "asha@example.com", phone := none,
    address := some "1 Hill Road", city := none, state := none, pincode := none }

/-- A store with product `P` (price 100, stock 5) and product `Q` (price 10, stock 1). -/
def sampleStore : Store :=
  { users := [], admins := [], products := [sampleProduct "P" 100 5, sampleProduct "Q" 10 1],
    orders := [], analytics := [], sessions := [] }

/-- An order request for the given items with valid customer details. -/
def sampleOrderBody (items : List LineItem) : CreateOrderBody :=
  { items := some items, customer := some sampleCustomer, paymentMethod := none }

/-- An order request with valid customer details whose only item names product
`P` and carries no quantity. -/
def missingQuantityBody : CreateOrderBody :=
  sampleOrderBody [{ productId := "P", quantity := .nan }]

/-- A raw collection whose third record has no property `k`; the others carry
2, 0 and 1. -/
def sparseItems : List JObj :=
  [[("id", .str "a"), ("k", .num 2)], [("id", .str "b"), ("k", .num 0)],
   [("id", .str "c")], [("id", .str "d"), ("k", .num 1)]]

/-- A stored admin whose password is still stored as plain text. -/
def sampleAdmin : Admin :=
  { id := "A1", name := "Admin", email := "admin@himorganic.com", password := "admin123",
    role := "super_admin", permissions := ["products", "orders"], lastLogin := none,
    createdAt := "2024-01-01T00:00:00.000Z", updatedAt := "2024-01-01T00:00:00.000Z" }

/-- The access-token payload of `sampleAdmin`. -/
def sampleAdminPayload : Payload :=
  { id := "A1", email := some "admin@himorganic.com", name := some "Admin", isAdmin := true }

/-- An order of `sampleUser`, as `createOrder` stores it. -/
def sampleOrder : Order :=
  { id := "O1", orderNumber := "ORD-1", user := some "U1",
    items := [{ product := "P", productId := "P", name := "item P", price := 100, quantity := 2,
                image := "", subtotal := 200 }],
    customer := sampleCustomer, paymentMethod := "cod", subtotal := 200, shipping := 50,
    total := 250, status := "pending", paymentStatus := "pending",
    statusHistory := [{ status := "pending", timestamp := "2024-01-02T00:00:00.000Z",
                        note := some "Order placed", updatedBy := none }],
    paidAt := none, createdAt := "2024-01-02T00:00:00.000Z",
    updatedAt := "2024-01-02T00:00:00.000Z" }

/-- A store with one user, one admin, the two sample products and one order. -/
def sampleShop : Store :=
  { users := [sampleUser], admins := [sampleAdmin],
    products := [sampleProduct "P" 100 5, sampleProduct "Q" 10 1],
    orders := [sampleOrder], analytics := [], sessions := [] }

/-- The login request of `sampleUser`. -/
def sampleLogin : LoginBody :=
  { email := some "asha@example.com", password := some "secret1" }

/-- A profile update that only renames the account. -/
def sampleRename : ProfileBody :=
  { name := some "Asha K" }


/-- Whether a request of `key` arriving at `now` opens a window: the store has no
record for the key, or the record's window has elapsed (`now > resetTime`). -/
def opensWindow (store : RateStore) (key : String) (now : Nat) : Bool :=
  match store key with
  | none => true
  | some record => decide (now > record.resetTime)

/-- The rate-limit store before any request. -/
def emptyRateStore : RateStore := fun _ => none


/-- A product write request with name `Tea`, price 250 and the given stock. -/
def sampleProductBody (stock : NumField) : ProductBody :=
  { name := some "Tea", price := some 250, stock := stock }


/-- A stand-in for the time value of a date text, order-preserving on
timestamps written as `YYYY-MM-DDTHH:mm:ss.sssZ`: the digits of the text read as
one number; a text without digits is an invalid date. -/
def sampleParseDate (text : String) : Option Int :=
  let ds := List.filter Char.isDigit text.data
  if ds.length = 0 then none else some (digitsToNat ds : Int)

/-- The sample order with another id and creation time. -/
def sampleOrderAt (id createdAt : String) : Order :=
  { sampleOrder with id := id, createdAt := createdAt, updatedAt := createdAt }

/-- A store with an order of 10 January and an order of 10 February. -/
def sampleOrdersStore : Store :=
  { users := [], admins := [sampleAdmin], products := [],
    orders := [sampleOrderAt "O1" "2024-01-10T00:00:00.000Z",
               sampleOrderAt "O2" "2024-02-10T00:00:00.000Z"],
    analytics := [], sessions := [] }

/-- The orders up to 31 January, one per page. -/
def januaryFirstPage : OrdersQuery :=
  { toDate := some "2024-01-31T00:00:00.000Z", limit := some "1" }

/-- The orders up to 31 January with the default page size. -/
def januaryQuery : OrdersQuery :=
  { toDate := some "2024-01-31T00:00:00.000Z" }


/-- A second user account. -/
def secondUser : User :=
  { id := "U2", name := "Ravi", email := "ravi@example.com", password := "hash:secret2",
    orders := [], wishlist := [], lastLogin := none,
    createdAt := "2024-01-03T00:00:00.000Z", updatedAt := "2024-01-03T00:00:00.000Z" }

/-- A store with the two user accounts. -/
def twoUserStore : Store :=
  { users := [sampleUser, secondUser], admins := [sampleAdmin], products := [], orders := [],
    analytics := [], sessions := [] }

/-- A registration that reuses the email of `sampleUser`. -/
def duplicateRegistration : RegisterBody :=
  { name := some "Asha B", email := some "asha@example.com", password := some "secret9" }


/-- The refresh token `refreshCrypto` signs for `sampleUser` during the second
in which `sampleEnv` runs. -/
def sampleRefreshToken : String := "jwt.U1.30d.1706745600"

/-- Stand-ins for the libraries in which a token names the account, its
lifetime and the second in which it was issued (the `iat` claim), and the
refresh token of `sampleUser` verifies. -/
def refreshCrypto : Crypto :=
  { jwtSign := fun payload _ expiresIn nowMs =>
      "jwt." ++ payload.id ++ "." ++ expiresIn ++ "." ++ toString (nowMs / 1000),
    jwtVerify := fun token _ _ =>
      if token = some sampleRefreshToken then
        .ok { id := "U1", email := none, name := none, isAdmin := false }
      else .error .invalid,
    bcryptHash := fun password _ => "hash:" ++ password,
    bcryptCompare := fun password hash => decide (hash = "hash:" ++ password) }

/-- A request environment 200 ms after `sampleEnv`, within the same second. -/
def laterEnv : Env :=
  { now := "2024-02-01T00:00:00.200Z", nowMs := 1706745600200,
    uuid := fun n => "later-" ++ toString n,
    isoOf := fun ms => "ms-" ++ toString ms }

/-- The sample user logged in twice within one second. -/
def twoLoginStore : Store :=
  (login refreshCrypto defaultConfig laterEnv sampleLogin
    (login refreshCrypto defaultConfig sampleEnv sampleLogin sampleAuthStore).2).2


/-- A `toLowerCase` for the worked examples: the engine's function on texts of
ASCII characters. -/
def asciiToLowerCase (s : String) : String :=
  String.mk (List.map Char.toLower s.data)

/-- The listing request `?minPrice=10.5&search=ITEM&sort=price_desc`. -/
def fromTenAndAHalf : ProductQuery :=
  { category := none, minPrice := some "10.5", maxPrice := none, search := some "ITEM",
    sort := some "price_desc" }

/-- The listing request `?minPrice=50&sort=price_asc`. -/
def fromFiftyAscending : ProductQuery :=
  { category := none, minPrice := some "50", maxPrice := none, search := none,
    sort := some "price_asc" }

/-- The listing request `?sort=price_asc`. -/
def priceAscending : ProductQuery :=
  { category := none, minPrice := none, maxPrice := none, search := none,
    sort := some "price_asc" }


/-- The cart with two units of `P` and one of `Q`, at the stored prices. -/
def sampleCart : List CartItem :=
  [{ productId := "P", name := "item P", price := 100, image := "", quantity := 2 },
   { productId := "Q", name := "item Q", price := 10, image := "", quantity := 1 }]


/-! ## Theorems -/

/-! ### The JSON file database -/

theorem Database.findIndex_cons {α : Type} (p : α → Bool) (x : α) (xs : List α) :
    Database.findIndex p (x :: xs) =
      if p x then some 0 else (Database.findIndex p xs).map (fun i => i + 1) := by
  simp only [Database.findIndex]
  split
  · rfl
  · cases Database.findIndex p xs <;> rfl

theorem Database.findIndex_lt {α : Type} (p : α → Bool) (xs : List α) (i : Nat)
    (h : Database.findIndex p xs = some i) : i < xs.length := by
  induction xs generalizing i with
  | nil => simp [Database.findIndex] at h
  | cons x xs ih =>
    rw [Database.findIndex_cons] at h
    split at h
    · cases h; simp
    · cases hx : Database.findIndex p xs with
      | none => simp [hx] at h
      | some j =>
        simp [hx] at h
        subst h
        simpa using ih j hx

theorem Database.findById_cons {α : Type} [Record α] (x : α) (xs : List α) (id : String) :
    Database.findById (x :: xs) id =
      if Record.id x = id then some x else Database.findById xs id := by
  unfold Database.findById
  by_cases h : Record.id x = id
  · simp [h]
  · simp [h, List.find?_cons]

theorem Database.update_nil {α : Type} [Record α] (id : String) (f : α → α) (now : String) :
    Database.update ([] : List α) id f now = (none, []) := by
  simp [Database.update, Database.findIndex]

theorem Database.update_cons {α : Type} [Record α] (x : α) (xs : List α) (id : String)
    (f : α → α) (now : String) :
    Database.update (x :: xs) id f now =
      if Record.id x = id then
        (some (Record.withUpdatedAt (f x) now), Record.withUpdatedAt (f x) now :: xs)
      else ((Database.update xs id f now).1, x :: (Database.update xs id f now).2) := by
  by_cases h : Record.id x = id
  · simp [Database.update, Database.findIndex_cons, h]
  · simp only [Database.update, Database.findIndex_cons, h, if_false]
    cases hx : Database.findIndex (fun item => Record.id item == id) xs with
    | none => simp [hx, h]
    | some j =>
      have hj := Database.findIndex_lt _ _ _ hx
      simp [hx, hj, h]

/-! ### Arithmetic on numbers that may be `NaN` -/

theorem JNum.add_assoc (a b c : JNum) :
    JNum.add (JNum.add a b) c = JNum.add a (JNum.add b c) := by
  cases a <;> cases b <;> cases c <;> simp [JNum.add, Int.add_assoc]

theorem JNum.add_zero (a : JNum) : JNum.add a (.num 0) = a := by
  cases a <;> simp [JNum.add]

theorem JNum.zero_add (a : JNum) : JNum.add (.num 0) a = a := by
  cases a <;> simp [JNum.add]

theorem JNum.sum_nil : JNum.sum [] = .num 0 := rfl

theorem JNum.sum_cons (a : JNum) (xs : List JNum) :
    JNum.sum (a :: xs) = JNum.add a (JNum.sum xs) := rfl

/-- The sum of numbers none of which is `NaN`. -/
theorem JNum.sum_map_num (xs : List Int) :
    JNum.sum (List.map JNum.num xs) = .num xs.sum := by
  induction xs with
  | nil => rfl
  | cons x xs ih => simp [JNum.sum_cons, ih, JNum.add]

/-- A stock written as `stock - quantity` after the check `stock < quantity`
failed is not negative: it is a difference that is not below zero, or `NaN`. -/
theorem JNum.sub_read_nonneg (stock : Int) (quantity : JNum)
    (h : JNum.lt (.num stock) quantity = false) :
    0 ≤ (JNum.sub (.num stock) quantity).read := by
  cases quantity with
  | nan => simp [JNum.sub, JNum.read]
  | num q =>
    simp only [JNum.lt, decide_eq_false_iff_not] at h
    simp only [JNum.sub, JNum.read]
    omega

/-! ### Writing a stock value back (`updateById(id, { stock })`) -/

theorem update_stock_ids (ps : List Product) (k : String) (st : JNum) (now : String) :
    List.map (fun p => p.id)
        (Database.update ps k (fun p => { p with stock := st }) now).2 =
      List.map (fun p => p.id) ps := by
  induction ps with
  | nil => simp [Database.update_nil]
  | cons x xs ih =>
    rw [Database.update_cons]
    split
    · simp [Record.withUpdatedAt]
    · simp [ih]

theorem update_stock_find (ps : List Product) (k : String) (st : JNum) (now : String)
    (id : String) :
    Database.findById (Database.update ps k (fun p => { p with stock := st }) now).2 id =
      if id = k then
        (Database.findById ps k).map (fun p => { p with stock := st, updatedAt := now })
      else Database.findById ps id := by
  induction ps with
  | nil => simp [Database.update_nil, Database.findById]
  | cons x xs ih =>
    rw [Database.update_cons]
    by_cases hx : Record.id x = k
    · rw [if_pos hx]
      by_cases hid : id = k
      · subst hid
        simp [Database.findById_cons, hx, Record.withUpdatedAt, Record.id] at *
        simp [hx]
      · have hne : ¬ x.id = id := by
          intro h; apply hid; rw [← h]; exact hx
        simp [Database.findById_cons, Record.withUpdatedAt, Record.id, hne, hid]
    · rw [if_neg hx]
      by_cases hid : id = k
      · subst hid
        simp only [Database.findById_cons, hx, if_false]
        simpa using ih
      · simp only [Database.findById_cons]
        by_cases hxi : Record.id x = id
        · simp [hxi, hid]
        · simp only [hxi, if_false]
          simpa [hid] using ih

theorem update_stock_frame (ps : List Product) (k : String) (st : JNum) (now : String)
    (i : Nat) (p : Product) (hp : ps[i]? = some p) (hk : p.id ≠ k) :
    (Database.update ps k (fun p => { p with stock := st }) now).2[i]? = some p := by
  induction ps generalizing i with
  | nil => simp at hp
  | cons x xs ih =>
    rw [Database.update_cons]
    by_cases hx : Record.id x = k
    · rw [if_pos hx]
      cases i with
      | zero =>
        simp at hp
        subst hp
        exact absurd hx hk
      | succ j => simpa using hp
    · rw [if_neg hx]
      cases i with
      | zero => simpa using hp
      | succ j =>
        simp at hp
        simpa using ih j hp

theorem update_stock_mem (ps : List Product) (k : String) (st : JNum) (now : String)
    (q : Product)
    (hq : q ∈ (Database.update ps k (fun p => { p with stock := st }) now).2) :
    q ∈ ps ∨ q.stock = st := by
  induction ps with
  | nil => simp [Database.update_nil] at hq
  | cons x xs ih =>
    rw [Database.update_cons] at hq
    by_cases hx : Record.id x = k
    · rw [if_pos hx] at hq
      simp [Record.withUpdatedAt] at hq
      rcases hq with h | h
      · right; rw [h]
      · left; simp [h]
    · rw [if_neg hx] at hq
      simp at hq
      rcases hq with h | h
      · left; simp [h]
      · rcases ih h with h1 | h1
        · left; simp [h1]
        · right; exact h1

/-! ### The item loop of `createOrder` -/

theorem Database.findById_id {α : Type} [Record α] (xs : List α) (id : String) (x : α)
    (h : Database.findById xs id = some x) : Record.id x = id := by
  unfold Database.findById at h
  have := List.find?_some h
  simpa using this

theorem Database.findById_mem {α : Type} [Record α] (xs : List α) (id : String) (x : α)
    (h : Database.findById xs id = some x) : x ∈ xs := by
  unfold Database.findById at h
  exact List.mem_of_find?_eq_some h

theorem orderLoop_nil (now : String) (ps : List Product) (total : JNum) (acc : List OrderItem) :
    orderLoop now [] ps total acc = .done total acc ps := by
  simp [orderLoop]

theorem orderLoop_cons_done (now : String) (item : LineItem) (rest : List LineItem)
    (ps : List Product) (total : JNum) (acc : List OrderItem)
    (t : JNum) (oi : List OrderItem) (ps' : List Product)
    (h : orderLoop now (item :: rest) ps total acc = .done t oi ps') :
    ∃ product, Database.findById ps item.productId = some product ∧
      JNum.lt (.num product.stock.read) item.quantity = false ∧
      orderLoop now rest
        (Database.update ps item.productId
          (fun p => { p with stock := JNum.sub (.num product.stock.read) item.quantity })
          now).2
        (JNum.add total (JNum.mul (.num product.price) item.quantity))
        (acc ++ [{ product := product.id, productId := product.id, name := product.name,
                   price := product.price, quantity := item.quantity,
                   image := product.image,
                   subtotal := JNum.mul (.num product.price) item.quantity }]) =
        .done t oi ps' := by
  simp only [orderLoop, Adapter.findById, Adapter.updateById] at h
  cases hf : Database.findById ps item.productId with
  | none => simp [hf] at h
  | some product =>
    simp only [hf] at h
    have hid : product.id = item.productId := Database.findById_id _ _ _ hf
    by_cases hlt : JNum.lt (.num product.stock.read) item.quantity = true
    · simp [hlt] at h
    · simp only [hlt, if_false] at h
      refine ⟨product, rfl, by simpa using hlt, ?_⟩
      rw [← hid]
      exact h

theorem orderLoop_ids (now : String) (items : List LineItem) :
    ∀ (ps : List Product) (total : JNum) (acc : List OrderItem),
      List.map (fun p => p.id) (orderLoop now items ps total acc).products =
        List.map (fun p => p.id) ps := by
  induction items with
  | nil => intro ps total acc; simp [orderLoop, LoopResult.products]
  | cons item rest ih =>
    intro ps total acc
    simp only [orderLoop, Adapter.findById, Adapter.updateById]
    cases hf : Database.findById ps item.productId with
    | none => simp [LoopResult.products]
    | some product =>
      simp only []
      by_cases hlt : JNum.lt (.num product.stock.read) item.quantity = true
      · rw [if_pos hlt]; simp [LoopResult.products]
      · rw [if_neg hlt, ih]
        exact update_stock_ids _ _ _ _

theorem orderLoop_nonneg (now : String) (items : List LineItem) :
    ∀ (ps : List Product) (total : JNum) (acc : List OrderItem),
      (∀ p ∈ ps, 0 ≤ p.stock.read) →
      ∀ p ∈ (orderLoop now items ps total acc).products, 0 ≤ p.stock.read := by
  induction items with
  | nil => intro ps total acc h; simpa [orderLoop, LoopResult.products] using h
  | cons item rest ih =>
    intro ps total acc h
    simp only [orderLoop, Adapter.findById, Adapter.updateById]
    cases hf : Database.findById ps item.productId with
    | none => simpa [LoopResult.products] using h
    | some product =>
      simp only []
      by_cases hlt : JNum.lt (.num product.stock.read) item.quantity = true
      · rw [if_pos hlt]; simpa [LoopResult.products] using h
      · rw [if_neg hlt]
        apply ih
        intro q hq
        rcases update_stock_mem _ _ _ _ q hq with h1 | h1
        · exact h q h1
        · rw [h1]
          exact JNum.sub_read_nonneg _ _ (by simpa using hlt)

theorem NumericItems.tail (item : LineItem) (rest : List LineItem)
    (h : NumericItems (item :: rest)) : NumericItems rest :=
  fun it hit => h it (List.mem_cons_of_mem _ hit)

theorem NumericItems.head (item : LineItem) (rest : List LineItem)
    (h : NumericItems (item :: rest)) : ∃ n, item.quantity = .num n := by
  have := h item (List.mem_cons_self _ _)
  cases hq : item.quantity with
  | num n => exact ⟨n, rfl⟩
  | nan => exact absurd hq this

/-- The quantities ordered of a product add up to a number when every item
carries one. -/
theorem orderedQuantity_num (items : List LineItem) (id : String) (h : NumericItems items) :
    ∃ n, orderedQuantity items id = .num n := by
  induction items with
  | nil => exact ⟨0, rfl⟩
  | cons item rest ih =>
    obtain ⟨m, hm⟩ := ih (NumericItems.tail item rest h)
    obtain ⟨n, hn⟩ := NumericItems.head item rest h
    unfold orderedQuantity at hm ⊢
    by_cases hid : item.productId = id
    · refine ⟨n + m, ?_⟩
      simp only [List.filter_cons, hid, decide_True, if_true, List.map_cons, JNum.sum_cons]
      rw [hm, hn]
      rfl
    · refine ⟨m, ?_⟩
      simp only [List.filter_cons, hid, decide_False, Bool.false_eq_true, if_false]
      exact hm

theorem orderedQuantity_cons (item : LineItem) (rest : List LineItem) (id : String) :
    orderedQuantity (item :: rest) id =
      if item.productId = id then JNum.add item.quantity (orderedQuantity rest id)
      else orderedQuantity rest id := by
  unfold orderedQuantity
  by_cases hid : item.productId = id
  · simp [List.filter_cons, hid, JNum.sum_cons]
  · simp [List.filter_cons, hid]

/-- When every item carries a number as quantity and the loop runs to its
end, the stock found under an id afterwards is the stock found before minus
the quantities ordered of it (a stored `null` counting as 0). -/
theorem orderLoop_stock (now : String) (items : List LineItem) :
    ∀ (ps : List Product) (total : JNum) (acc : List OrderItem)
      (t : JNum) (oi : List OrderItem) (ps' : List Product),
      NumericItems items →
      orderLoop now items ps total acc = .done t oi ps' →
      ∀ id, (Database.findById ps' id).map (fun p => p.stock.read) =
        (Database.findById ps id).map
          (fun p => p.stock.read - (orderedQuantity items id).read) := by
  induction items with
  | nil =>
    intro ps total acc t oi ps' _ h id
    simp [orderLoop] at h
    rw [← h.2.2]
    simp [orderedQuantity, JNum.sum, JNum.read]
  | cons item rest ih =>
    intro ps total acc t oi ps' hnum h id
    obtain ⟨product, hf, _, hrest⟩ := orderLoop_cons_done _ _ _ _ _ _ _ _ _ h
    obtain ⟨n, hn⟩ := NumericItems.head item rest hnum
    obtain ⟨m, hm⟩ := orderedQuantity_num rest id (NumericItems.tail item rest hnum)
    rw [ih _ _ _ _ _ _ (NumericItems.tail item rest hnum) hrest id, update_stock_find,
      orderedQuantity_cons, hm, hn]
    by_cases hid : id = item.productId
    · subst hid
      simp [hf, JNum.sub, JNum.add, JNum.read]
      omega
    · have hne : ¬ item.productId = id := fun h => hid h.symm
      simp [hid, hne, JNum.read]

theorem orderLoop_frame (now : String) (items : List LineItem) :
    ∀ (ps : List Product) (total : JNum) (acc : List OrderItem)
      (t : JNum) (oi : List OrderItem) (ps' : List Product),
      orderLoop now items ps total acc = .done t oi ps' →
      ∀ (i : Nat) (p : Product), ps[i]? = some p →
        (∀ it ∈ items, it.productId ≠ p.id) → ps'[i]? = some p := by
  induction items with
  | nil =>
    intro ps total acc t oi ps' h i p hp _
    simp [orderLoop] at h
    rw [← h.2.2]; exact hp
  | cons item rest ih =>
    intro ps total acc t oi ps' h i p hp hnot
    obtain ⟨product, _, _, hrest⟩ := orderLoop_cons_done _ _ _ _ _ _ _ _ _ h
    apply ih _ _ _ _ _ _ hrest i p
    · apply update_stock_frame _ _ _ _ _ _ hp
      exact fun h => hnot item (by simp) h.symm
    · intro it hit
      exact hnot it (by simp [hit])

theorem lineItemOf_of_update (ps : List Product) (k : String) (st : JNum) (now : String)
    (it : LineItem) (oi : OrderItem)
    (h : LineItemOf (Database.update ps k (fun p => { p with stock := st }) now).2 it oi) :
    LineItemOf ps it oi := by
  obtain ⟨p1, hf, h1, h2, h3, h4, h5, h6, h7⟩ := h
  rw [update_stock_find] at hf
  by_cases hid : it.productId = k
  · rw [if_pos hid] at hf
    cases hk : Database.findById ps k with
    | none => simp [hk] at hf
    | some p =>
      simp [hk] at hf
      subst hf
      exact ⟨p, by rw [hid, hk], h1, h2, h3, h4, h5, h6, h7⟩
  · rw [if_neg hid] at hf
    exact ⟨p1, hf, h1, h2, h3, h4, h5, h6, h7⟩

/-- When the loop runs to its end it has pushed one line item per request item,
each recording its product and `price * quantity`, and the total is the sum
of the line subtotals in the arithmetic of JavaScript numbers. -/
theorem orderLoop_items (now : String) (items : List LineItem) :
    ∀ (ps : List Product) (total : JNum) (acc : List OrderItem)
      (t : JNum) (oi : List OrderItem) (ps' : List Product),
      orderLoop now items ps total acc = .done t oi ps' →
      ∃ stored, oi = acc ++ stored ∧
        t = JNum.add total (JNum.sum (List.map (fun i => i.subtotal) stored)) ∧
        List.Forall₂ (LineItemOf ps) items stored := by
  induction items with
  | nil =>
    intro ps total acc t oi ps' h
    simp [orderLoop] at h
    exact ⟨[], by simp [h.2.1], by simp [h.1, JNum.sum_nil, JNum.add_zero], List.Forall₂.nil⟩
  | cons item rest ih =>
    intro ps total acc t oi ps' h
    obtain ⟨product, hf, _, hrest⟩ := orderLoop_cons_done _ _ _ _ _ _ _ _ _ h
    obtain ⟨stored, h1, h2, h3⟩ := ih _ _ _ _ _ _ hrest
    refine ⟨_ :: stored, by simpa using h1, ?_, List.Forall₂.cons ?_ ?_⟩
    · rw [h2, JNum.add_assoc]
      rfl
    · exact ⟨product, hf, rfl, rfl, rfl, rfl, rfl, rfl, rfl⟩
    · exact h3.imp (fun it oi hio => lineItemOf_of_update _ _ _ _ _ _ hio)

/-- The line subtotals of items that carry numbers are numbers, and so is
their sum. -/
theorem lineItems_sum_num (ps : List Product) (items : List LineItem) :
    ∀ stored : List OrderItem, List.Forall₂ (LineItemOf ps) items stored →
      NumericItems items →
      ∃ n, JNum.sum (List.map (fun i : OrderItem => i.subtotal) stored) = .num n := by
  induction items with
  | nil =>
    intro stored h _
    rw [List.forall₂_nil_left_iff] at h
    subst h
    exact ⟨0, rfl⟩
  | cons item rest ih =>
    intro stored h hnum
    rw [List.forall₂_cons_left_iff] at h
    obtain ⟨o, os, ho, hos, rfl⟩ := h
    obtain ⟨m, hm⟩ := ih os hos (NumericItems.tail item rest hnum)
    obtain ⟨n, hn⟩ := NumericItems.head item rest hnum
    obtain ⟨p, _, _, _, _, _, _, _, hsub⟩ := ho
    refine ⟨p.price * n + m, ?_⟩
    simp only [List.map_cons, JNum.sum_cons]
    rw [hm, hsub, hn]
    rfl

/-! ### `createOrder` -/

theorem Adapter.create_appends {α : Type} [Record α] (data : List α) (item : α)
    (freshId now : String) :
    (Adapter.create data item freshId now).2 =
      data ++ [(Adapter.create data item freshId now).1] := by
  simp [Adapter.create, Database.create]

theorem Adapter.create_order_fields (data : List Order) (item : Order)
    (freshId now : String) :
    (Adapter.create data item freshId now).1.items = item.items ∧
    (Adapter.create data item freshId now).1.subtotal = item.subtotal ∧
    (Adapter.create data item freshId now).1.shipping = item.shipping ∧
    (Adapter.create data item freshId now).1.total = item.total := by
  simp only [Adapter.create, Database.create]
  by_cases h : Record.id item = ""
  · simp [h, Record.withId, Record.withCreatedAt, Record.withUpdatedAt]
  · simp [h, Record.withCreatedAt, Record.withUpdatedAt]

/-- What a 201 response of `createOrder` means: the loop ran to its end, and
the response body is the order appended to the orders file. -/
theorem createOrder_created (env : Env) (user : Option Payload) (body : CreateOrderBody)
    (s : Store) (h : (createOrder env user body s).1.status = 201) :
    ∃ items total orderItems products order,
      body.items = some items ∧
      orderLoop env.now items s.products 0 [] = .done total orderItems products ∧
      (createOrder env user body s).1.body = .ok order ∧
      (createOrder env user body s).2.products = products ∧
      (createOrder env user body s).2.orders = s.orders ++ [order] ∧
      order.items = orderItems ∧ order.subtotal = total ∧
      order.shipping = (if JNum.lt 500 total then 0 else 50) ∧
      order.total = JNum.add total (.num (if JNum.lt 500 total then 0 else 50)) := by
  unfold createOrder at h ⊢
  cases hi : body.items with
  | none => simp [hi] at h
  | some items =>
    simp only [hi] at h ⊢
    by_cases hlen : items.length = 0
    · simp [hlen] at h
    · simp only [hlen, if_false] at h ⊢
      cases hc : body.customer with
      | none => simp [hc] at h
      | some customer =>
        simp only [hc] at h ⊢
        by_cases hv : (!truthy customer.name || !truthy customer.email ||
            !truthy customer.address) = true
        · simp [hv] at h
        · simp only [hv, if_false] at h ⊢
          cases hl : orderLoop env.now items s.products 0 [] with
          | fail e ps => simp [hl] at h
          | done total orderItems products =>
            simp only [hl] at h ⊢
            clear h
            exact ⟨items, total, orderItems, products, _, rfl, hl, rfl, rfl,
              Adapter.create_appends _ _ _ _,
              (Adapter.create_order_fields _ _ _ _).1,
              (Adapter.create_order_fields _ _ _ _).2.1,
              (Adapter.create_order_fields _ _ _ _).2.2.1,
              (Adapter.create_order_fields _ _ _ _).2.2.2⟩

/-- The products file after `createOrder` is the one the request found, or
the one the item loop left behind. -/
theorem createOrder_products (env : Env) (user : Option Payload) (body : CreateOrderBody)
    (s : Store) :
    (createOrder env user body s).2.products = s.products ∨
    ∃ items, body.items = some items ∧
      (createOrder env user body s).2.products =
        (orderLoop env.now items s.products 0 []).products := by
  unfold createOrder
  cases hi : body.items with
  | none => left; rfl
  | some items =>
    simp only []
    by_cases hlen : items.length = 0
    · left; simp [hlen]
    · simp only [hlen, if_false]
      cases hc : body.customer with
      | none => left; rfl
      | some customer =>
        simp only []
        by_cases hv : (!truthy customer.name || !truthy customer.email ||
            !truthy customer.address) = true
        · left; simp [hv]
        · simp only [hv, if_false]
          right
          refine ⟨items, rfl, ?_⟩
          cases hl : orderLoop env.now items s.products 0 [] with
          | fail e ps => simp [LoopResult.products]
          | done total orderItems products => simp [LoopResult.products]

theorem Database.findById_of_nodup {α : Type} [Record α] (xs : List α)
    (hnd : (List.map (fun x => Record.id x) xs).Nodup) (i : Nat) (x : α)
    (hx : xs[i]? = some x) : Database.findById xs (Record.id x) = some x := by
  induction xs generalizing i with
  | nil => simp at hx
  | cons y ys ih =>
    rw [Database.findById_cons]
    cases i with
    | zero =>
      simp at hx
      subst hx
      simp
    | succ j =>
      simp at hx
      have hmem : x ∈ ys := List.getElem?_mem hx
      simp only [List.map_cons, List.nodup_cons, List.mem_map, not_exists, not_and] at hnd
      have hne : ¬ Record.id y = Record.id x := fun h => hnd.1 x hmem h.symm
      rw [if_neg hne]
      exact ih hnd.2 j hx

/-! ### Claims about `createOrder` -/

/-- When every item carries a number as quantity and `createOrder` responds 201,
the stored order has a number `sub` as subtotal, its total is `sub` plus the
shipping, and the shipping is 0 exactly when `sub` exceeds 500 and 50
otherwise. -/
theorem createOrder_total_and_shipping (env : Env) (user : Option Payload)
    (body : CreateOrderBody) (s : Store)
    (hnum : ∀ items, body.items = some items → NumericItems items)
    (h : (createOrder env user body s).1.status = 201) :
    ∃ order sub, (createOrder env user body s).1.body = .ok order ∧
      (createOrder env user body s).2.orders = s.orders ++ [order] ∧
      order.subtotal = .num sub ∧
      order.total = .num (sub + order.shipping) ∧
      (order.shipping = 0 ↔ sub > 500) ∧
      (¬ sub > 500 → order.shipping = 50) := by
  obtain ⟨items, total, orderItems, products, order, hi, hl, hb, _, ho, _, hsub, hship, htot⟩ :=
    createOrder_created env user body s h
  obtain ⟨stored, _, h2, h3⟩ := orderLoop_items _ _ _ _ _ _ _ _ hl
  obtain ⟨n, hn⟩ := lineItems_sum_num _ _ _ h3 (hnum items hi)
  have htotal : total = .num n := by
    rw [h2, hn]
    simp [JNum.add]
  rw [htotal] at hsub hship htot
  refine ⟨order, n, hb, ho, hsub, ?_, ?_, ?_⟩
  · rw [htot, hship]; rfl
  · rw [hship]
    by_cases ht : n > 500
    · simp [JNum.lt, ht]
    · simp [JNum.lt, ht]
  · intro hn'
    rw [hship]
    simp [JNum.lt, hn']

/-- C1 (failing input). An order whose only item names `P` (price 100, stock 5)
and carries no quantity passes the check `product.stock < item.quantity`, is
answered with 201 and is stored with subtotal `NaN`, shipping 50 and total
`NaN`, both written as `null`: read back, the total (0) is not the subtotal
(0) plus the shipping (50). -/
theorem createOrder_missing_quantity_totals :
    (createOrder sampleEnv none missingQuantityBody sampleStore).1.status = 201 ∧
    List.map (fun o => (o.subtotal, o.shipping, o.total))
      (createOrder sampleEnv none missingQuantityBody sampleStore).2.orders
      = [(.nan, 50, .nan)] ∧
    List.map (fun o => decide (o.total.read = o.subtotal.read + o.shipping))
      (createOrder sampleEnv none missingQuantityBody sampleStore).2.orders
      = [false] := by
  refine ⟨by decide, by decide, by decide⟩

/-- C2 (failing input). With `P` in stock 5 and `Q` in stock 1, an order for
2 of `P` and 3 of `Q` is refused with 400 for the second item and stores no
order, yet the stock of `P` has already been written down from 5 to 3. -/
theorem createOrder_failure_keeps_partial_stock :
    (createOrder sampleEnv none (sampleOrderBody [⟨"P", 2⟩, ⟨"Q", 3⟩]) sampleStore).1.status
      = 400 ∧
    (createOrder sampleEnv none (sampleOrderBody [⟨"P", 2⟩, ⟨"Q", 3⟩]) sampleStore).2.orders
      = [] ∧
    List.map (fun p => p.stock) sampleStore.products = [5, 1] ∧
    List.map (fun p => p.stock)
      (createOrder sampleEnv none (sampleOrderBody [⟨"P", 2⟩, ⟨"Q", 3⟩]) sampleStore).2.products
      = [3, 1] := by
  refine ⟨by decide, by decide, by decide, by decide⟩

/-- Whenever `createOrder` responds 201, the stored order has one line item per
request item, each recording the stored product's price, the requested
quantity and `price * quantity` as its subtotal; the order's subtotal is the
sum of the line subtotals and its total is that sum plus shipping, all in the
arithmetic of JavaScript numbers, where a missing quantity makes them `NaN`. -/
theorem createOrder_line_items (env : Env) (user : Option Payload)
    (body : CreateOrderBody) (s : Store)
    (h : (createOrder env user body s).1.status = 201) :
    ∃ items order, body.items = some items ∧
      (createOrder env user body s).1.body = .ok order ∧
      (createOrder env user body s).2.orders = s.orders ++ [order] ∧
      List.Forall₂ (LineItemOf s.products) items order.items ∧
      order.subtotal = JNum.sum (List.map (fun i => i.subtotal) order.items) ∧
      order.total =
        JNum.add (JNum.sum (List.map (fun i => i.subtotal) order.items))
          (.num order.shipping) := by
  obtain ⟨items, total, orderItems, products, order, hi, hl, hb, _, ho, hit, hsub, hship, htot⟩ :=
    createOrder_created env user body s h
  obtain ⟨stored, h1, h2, h3⟩ := orderLoop_items _ _ _ _ _ _ _ _ hl
  simp only [List.nil_append] at h1
  replace h2 : total = JNum.sum (List.map (fun i => i.subtotal) stored) := by
    rw [h2]; exact JNum.zero_add _
  subst h1
  refine ⟨items, order, hi, hb, ho, ?_, ?_, ?_⟩
  · rw [hit]; exact h3
  · rw [hsub, hit, h2]
  · rw [htot, hship, hit, ← h2]

/-- C3 (failing input). For the order whose only item names `P` (price 100) and
carries no quantity, `createOrder` answers 201 and stores a line item without
a quantity whose subtotal is `NaN` (`null`), not a price times a quantity, and
an order whose subtotal and total are `NaN` as well. -/
theorem createOrder_missing_quantity_line_item :
    (createOrder sampleEnv none missingQuantityBody sampleStore).1.status = 201 ∧
    List.map
      (fun o => List.map (fun i : OrderItem => (i.productId, i.price, i.quantity, i.subtotal))
        o.items)
      (createOrder sampleEnv none missingQuantityBody sampleStore).2.orders
      = [[("P", 100, .nan, .nan)]] ∧
    List.map (fun o => (o.subtotal, o.total))
      (createOrder sampleEnv none missingQuantityBody sampleStore).2.orders
      = [(.nan, .nan)] := by
  refine ⟨by decide, by decide, by decide⟩

/-- A request with a non-empty item list and complete customer details whose
item loop runs to its end is answered with 201. -/
theorem createOrder_status_of_done (env : Env) (user : Option Payload)
    (body : CreateOrderBody) (s : Store) (items : List LineItem) (customer : Customer)
    (total : JNum) (orderItems : List OrderItem) (products : List Product)
    (hi : body.items = some items) (hne : items ≠ [])
    (hc : body.customer = some customer)
    (hv : truthy customer.name = true ∧ truthy customer.email = true ∧
      truthy customer.address = true)
    (hl : orderLoop env.now items s.products 0 [] = .done total orderItems products) :
    (createOrder env user body s).1.status = 201 := by
  have hlen : ¬ items.length = 0 := by
    intro h; exact hne (List.length_eq_zero.mp h)
  unfold createOrder
  simp [hi, hlen, hc, hv.1, hv.2.1, hv.2.2, hl]

/-- After a 201 response the products file holds the same ids at the same
positions and every record that no line item references is unchanged; when
every item carries a number as quantity, the stock found under an id is the
stock found before minus the summed quantities of the line items that
reference it. -/
theorem createOrder_stock_effect (env : Env) (user : Option Payload)
    (body : CreateOrderBody) (s : Store)
    (h : (createOrder env user body s).1.status = 201) :
    ∃ items, body.items = some items ∧
      List.map (fun p => p.id) (createOrder env user body s).2.products =
        List.map (fun p => p.id) s.products ∧
      (NumericItems items → ∀ id,
        (Database.findById (createOrder env user body s).2.products id).map
          (fun q => q.stock.read) =
        (Database.findById s.products id).map
          (fun p => p.stock.read - (orderedQuantity items id).read)) ∧
      (∀ (i : Nat) (p : Product), s.products[i]? = some p →
        (∀ it ∈ items, it.productId ≠ p.id) →
        (createOrder env user body s).2.products[i]? = some p) := by
  obtain ⟨items, total, orderItems, products, order, hi, hl, _, hp, _⟩ :=
    createOrder_created env user body s h
  have hids : List.map (fun p => p.id) products = List.map (fun p => p.id) s.products := by
    have := orderLoop_ids env.now items s.products 0 []
    rw [hl] at this
    simpa [LoopResult.products] using this
  rw [hp]
  refine ⟨items, hi, hids, ?_, ?_⟩
  · intro hnum id
    exact orderLoop_stock _ _ _ _ _ _ _ _ hnum hl id
  · intro i p hip hnot
    exact orderLoop_frame _ _ _ _ _ _ _ _ hl i p hip hnot

/-- C4 (failing input). With `P` in stock 5 and `Q` in stock 1, the order whose
only item names `P` and carries no quantity is answered with 201 and writes
the stock of `P` as `5 - undefined`, that is `NaN`, stored as `null`: the stock
is not the stock before minus the quantities ordered.  The order of the
claim's example, one item of quantity 2, is stored with subtotal 200,
shipping 50 and total 250 and leaves the stock of `P` at 3. -/
theorem createOrder_missing_quantity_stock :
    (createOrder sampleEnv none missingQuantityBody sampleStore).1.status = 201 ∧
    List.map (fun p => p.stock) sampleStore.products = [5, 1] ∧
    List.map (fun p => p.stock)
      (createOrder sampleEnv none missingQuantityBody sampleStore).2.products
      = [.nan, 1] ∧
    (createOrder sampleEnv none (sampleOrderBody [⟨"P", 2⟩]) sampleStore).1.status = 201 ∧
    List.map (fun o => (o.subtotal, o.shipping, o.total))
      (createOrder sampleEnv none (sampleOrderBody [⟨"P", 2⟩]) sampleStore).2.orders
      = [(200, 50, 250)] ∧
    List.map (fun p => p.stock)
      (createOrder sampleEnv none (sampleOrderBody [⟨"P", 2⟩]) sampleStore).2.products
      = [3, 1] := by
  refine ⟨by decide, by decide, by decide, by decide, by decide, by decide⟩

/-- C5. If every stored product has a non-negative stock before `createOrder`,
every stored product has a non-negative stock after it, whatever the response
and whatever the line items (several for one product, and items without a
numeric quantity, included).  A stock is read as JavaScript compares it: a
stored `null` counts as 0. -/
theorem createOrder_stock_nonneg (env : Env) (user : Option Payload)
    (body : CreateOrderBody) (s : Store) (h : ∀ p ∈ s.products, 0 ≤ p.stock.read) :
    ∀ p ∈ (createOrder env user body s).2.products, 0 ≤ p.stock.read := by
  rcases createOrder_products env user body s with h1 | ⟨items, _, h1⟩
  · rw [h1]; exact h
  · rw [h1]; exact orderLoop_nonneg _ _ _ _ _ h

/-- Worked instance of C5: `P` ordered three times over (2 + 2 + 2 > 5). -/
theorem createOrder_stock_nonneg_witness :
    (∀ p ∈ sampleStore.products, 0 ≤ p.stock.read) ∧
    ∀ p ∈ (createOrder sampleEnv none
        (sampleOrderBody [⟨"P", 2⟩, ⟨"P", 2⟩, ⟨"P", 2⟩]) sampleStore).2.products,
      0 ≤ p.stock.read :=
  ⟨by decide, createOrder_stock_nonneg _ _ _ _ (by decide)⟩

/-- C6 (failing input). An order for quantity -2 of `P` (price 100, stock 5)
passes the check `product.stock < item.quantity`, is answered with 201 and
writes the stock of `P` up from 5 to 7; the stored order has subtotal -200. -/
theorem createOrder_negative_quantity_raises_stock :
    (createOrder sampleEnv none (sampleOrderBody [⟨"P", -2⟩]) sampleStore).1.status = 201 ∧
    (Database.findById sampleStore.products "P").map (fun p => p.stock) = some 5 ∧
    (Database.findById
      (createOrder sampleEnv none (sampleOrderBody [⟨"P", -2⟩]) sampleStore).2.products
      "P").map (fun p => p.stock) = some 7 ∧
    List.map (fun o => o.subtotal)
      (createOrder sampleEnv none (sampleOrderBody [⟨"P", -2⟩]) sampleStore).2.orders
      = [-200] := by
  refine ⟨by decide, by decide, by decide, by decide⟩

/-! ### Deleting a product and listing products -/

theorem Database.delete_cons {α : Type} [Record α] (x : α) (xs : List α) (id : String) :
    Database.delete (x :: xs) id =
      if Record.id x = id then (true, xs)
      else ((Database.delete xs id).1, x :: (Database.delete xs id).2) := by
  by_cases h : Record.id x = id
  · simp [Database.delete, Database.findIndex_cons, h]
  · simp only [Database.delete, Database.findIndex_cons]
    cases hx : Database.findIndex (fun item => Record.id item == id) xs with
    | none => simp [h]
    | some j => simp [h]

theorem Database.delete_mem_of_ne {α : Type} [Record α] (xs : List α) (id : String) (x : α)
    (hx : x ∈ xs) (hne : Record.id x ≠ id) : x ∈ (Database.delete xs id).2 := by
  induction xs with
  | nil => simp at hx
  | cons y ys ih =>
    rw [Database.delete_cons]
    by_cases hy : Record.id y = id
    · rw [if_pos hy]
      simp only [List.mem_cons] at hx
      rcases hx with h | h
      · subst h; exact absurd hy hne
      · exact h
    · rw [if_neg hy]
      simp only [List.mem_cons] at hx ⊢
      rcases hx with h | h
      · left; exact h
      · right; exact ih h

theorem Database.delete_not_mem_of_nodup {α : Type} [Record α] (xs : List α) (id : String)
    (hnd : (List.map (fun x => Record.id x) xs).Nodup) :
    ∀ x ∈ (Database.delete xs id).2, Record.id x ≠ id := by
  induction xs with
  | nil => simp [Database.delete, Database.findIndex]
  | cons y ys ih =>
    simp only [List.map_cons, List.nodup_cons, List.mem_map, not_exists, not_and] at hnd
    rw [Database.delete_cons]
    by_cases hy : Record.id y = id
    · rw [if_pos hy]
      intro x hx hxid
      exact hnd.1 x hx (by rw [hxid, hy])
    · rw [if_neg hy]
      intro x hx
      simp only [List.mem_cons] at hx
      rcases hx with h | h
      · subst h; exact hy
      · exact ih hnd.2 x h

theorem Adapter.findMany_all_perm {α : Type} [Record α]
    (arraySort : (α → α → Int) → List α → List α)
    (hsort : ∀ cmp l, List.Perm (arraySort cmp l) l)
    (data : List α) (options : FindOptions)
    (hskip : options.skip = none) (hlimit : options.limit = none) :
    List.Perm (Adapter.findMany arraySort data [] options) data := by
  unfold Adapter.findMany
  simp only [hskip, hlimit, Database.findMany]
  have hfilter : List.filter
      (fun item : α => if ([] : JObj).length = 0 then true
        else Adapter.queryPredicate [] item) data = data := by
    simp
  rw [hfilter]
  cases options.sort with
  | none => exact List.Perm.refl _
  | some kd => exact hsort _ _

theorem productSortOptions_unpaged (sort : Option String) :
    (productSortOptions sort).skip = none ∧ (productSortOptions sort).limit = none := by
  unfold productSortOptions
  split_ifs <;> exact ⟨rfl, rfl⟩

/-- C7. After `deleteProduct` answers 200 for an id, `getProducts` without
filters (whatever the requested sort) answers 200 with a listing that holds
no product of that id and still holds every other product stored before the
deletion; product ids are unique in the products file and the engine's sort
permutes its input. -/
theorem deleteProduct_then_getProducts (toLowerCase : String → String)
    (arraySort : (Product → Product → Int) → List Product → List Product)
    (hsort : ∀ cmp l, List.Perm (arraySort cmp l) l)
    (id : String) (s : Store) (q : ProductQuery)
    (hq : truthy q.category = false ∧ truthy q.minPrice = false ∧
      truthy q.maxPrice = false ∧ truthy q.search = false)
    (hnd : (List.map (fun p => p.id) s.products).Nodup)
    (h : (deleteProduct id s).1.status = 200) :
    ∃ listing, (getProducts toLowerCase arraySort q (deleteProduct id s).2).status = 200 ∧
      (getProducts toLowerCase arraySort q (deleteProduct id s).2).body = .ok listing ∧
      (∀ p ∈ listing, p.id ≠ id) ∧
      (∀ p ∈ s.products, p.id ≠ id → p ∈ listing) := by
  have hprod : (deleteProduct id s).2.products = (Database.delete s.products id).2 := by
    unfold deleteProduct at h ⊢
    cases hf : Adapter.findById s.products id with
    | none => simp [hf] at h
    | some x => simp [Adapter.deleteById]
  have hperm := Adapter.findMany_all_perm arraySort hsort (deleteProduct id s).2.products
    (productSortOptions q.sort) (productSortOptions_unpaged q.sort).1
    (productSortOptions_unpaged q.sort).2
  refine ⟨Adapter.findMany arraySort (deleteProduct id s).2.products []
    (productSortOptions q.sort), rfl, ?_, ?_, ?_⟩
  · simp [getProducts, hq.1, hq.2.1, hq.2.2.1, hq.2.2.2]
  · intro p hp
    have hp' := hperm.mem_iff.mp hp
    rw [hprod] at hp'
    exact Database.delete_not_mem_of_nodup s.products id hnd p hp'
  · intro p hp hne
    apply hperm.mem_iff.mpr
    rw [hprod]
    exact Database.delete_mem_of_ne s.products id p hp hne

/-- Worked instance of C7: `P` is deleted from the sample store and the
products are listed cheapest first. -/
theorem deleteProduct_then_getProducts_witness :
    (List.map (fun p => p.id) sampleStore.products).Nodup ∧
    (deleteProduct "P" sampleStore).1.status = 200 ∧
    ∃ listing,
      (getProducts asciiToLowerCase sampleSort { noProductQuery with sort := some "price_asc" }
        (deleteProduct "P" sampleStore).2).status = 200 ∧
      (getProducts asciiToLowerCase sampleSort { noProductQuery with sort := some "price_asc" }
        (deleteProduct "P" sampleStore).2).body = .ok listing ∧
      (∀ p ∈ listing, p.id ≠ "P") ∧
      (∀ p ∈ sampleStore.products, p.id ≠ "P" → p ∈ listing) :=
  ⟨by decide, by decide,
    deleteProduct_then_getProducts asciiToLowerCase sampleSort
      (fun cmp l => List.perm_insertionSort (fun a b => cmp a b ≤ 0) l)
      "P" sampleStore { noProductQuery with sort := some "price_asc" }
      ⟨rfl, rfl, rfl, rfl⟩ (by decide) (by decide)⟩

/-! ### `verifyToken` -/

/-- C8. `verifyToken` answers 401, without calling the next handler, when the
Authorization header is missing, does not start with `Bearer `, or carries a
token whose verification fails (expired or invalid); it calls the next
handler only when verification succeeds, and then with `req.user` set to the
decoded payload; and it does call it whenever verification succeeds. -/
theorem verifyToken_gate (crypto : Crypto) (config : Config) (nowMs : Nat) (req : Request) :
    ((req.authorization = none ∨
        (∃ header, req.authorization = some header ∧
          jsStartsWith header "Bearer " = false) ∨
        (∃ header e, req.authorization = some header ∧
          crypto.jwtVerify (jsSplit header ' ')[1]? config.jwtSecret nowMs = .error e)) →
      ∃ message, verifyToken crypto config nowMs req = .respond 401 message) ∧
    (∀ req', verifyToken crypto config nowMs req = .next req' →
      ∃ header decoded, req.authorization = some header ∧
        jsStartsWith header "Bearer " = true ∧
        crypto.jwtVerify (jsSplit header ' ')[1]? config.jwtSecret nowMs = .ok decoded ∧
        req' = { req with user := some decoded }) ∧
    (∀ header decoded, req.authorization = some header →
      jsStartsWith header "Bearer " = true →
      crypto.jwtVerify (jsSplit header ' ')[1]? config.jwtSecret nowMs = .ok decoded →
      verifyToken crypto config nowMs req = .next { req with user := some decoded }) := by
  have hempty : ∀ header : String, jsStartsWith header "Bearer " = true → header ≠ "" := by
    intro header hh he
    subst he
    exact absurd hh (by decide)
  refine ⟨?_, ?_, ?_⟩
  · intro h
    rcases h with h | ⟨header, h, hb⟩ | ⟨header, e, h, hv⟩
    · exact ⟨"Access denied. No token provided.", by simp [verifyToken, h]⟩
    · exact ⟨"Access denied. No token provided.", by simp [verifyToken, h, hb]⟩
    · by_cases hb : jsStartsWith header "Bearer " = true
      · have hne := hempty header hb
        cases e with
        | expired =>
          exact ⟨"Token expired. Please login again.", by simp [verifyToken, h, hb, hne, hv]⟩
        | invalid => exact ⟨"Invalid token.", by simp [verifyToken, h, hb, hne, hv]⟩
      · exact ⟨"Access denied. No token provided.", by simp [verifyToken, h, hb]⟩
  · intro req' hnext
    cases h : req.authorization with
    | none => simp [verifyToken, h] at hnext
    | some header =>
      by_cases hb : jsStartsWith header "Bearer " = true
      · have hne := hempty header hb
        cases hv : crypto.jwtVerify (jsSplit header ' ')[1]? config.jwtSecret nowMs with
        | error e =>
          cases e <;> simp [verifyToken, h, hb, hne, hv] at hnext
        | ok decoded =>
          simp [verifyToken, h, hb, hne, hv] at hnext
          exact ⟨header, decoded, rfl, hb, hv, hnext.symm⟩
      · simp [verifyToken, h, hb] at hnext
  · intro header decoded h hb hv
    have hne := hempty header hb
    simp [verifyToken, h, hb, hne, hv]

/-- Worked instance of C8: a request without Authorization header is answered
401; one that carries the access token of `sampleUser` reaches the next
handler with that user's payload, and reaching it shows that the token
verified. -/
theorem verifyToken_gate_witness :
    (∃ message,
      verifyToken sampleCrypto defaultConfig 0 { authorization := none, user := none } =
        .respond 401 message) ∧
    verifyToken sampleCrypto defaultConfig 0
        { authorization := some "Bearer jwt.U1.7d", user := none } =
      .next { authorization := some "Bearer jwt.U1.7d", user := some samplePayload } ∧
    (∃ header decoded,
      (some "Bearer jwt.U1.7d" : Option String) = some header ∧
      jsStartsWith header "Bearer " = true ∧
      sampleCrypto.jwtVerify (jsSplit header ' ')[1]? defaultConfig.jwtSecret 0 = .ok decoded ∧
      ({ authorization := some "Bearer jwt.U1.7d", user := some samplePayload } : Request) =
        { authorization := some "Bearer jwt.U1.7d", user := some decoded }) :=
  ⟨(verifyToken_gate sampleCrypto defaultConfig 0 { authorization := none, user := none }).1
      (Or.inl rfl),
    (verifyToken_gate sampleCrypto defaultConfig 0
      { authorization := some "Bearer jwt.U1.7d", user := none }).2.2
      "Bearer jwt.U1.7d" samplePayload rfl (by decide) (by rfl),
    (verifyToken_gate sampleCrypto defaultConfig 0
      { authorization := some "Bearer jwt.U1.7d", user := none }).2.1
      { authorization := some "Bearer jwt.U1.7d", user := some samplePayload } (by rfl)⟩

/-! ### Login, token and profile -/

theorem find?_of_nodup_key {α β : Type} [DecidableEq β] (key : α → β) (xs : List α)
    (hnd : (List.map key xs).Nodup) (x : α) (hx : x ∈ xs) :
    List.find? (fun y => key y == key x) xs = some x := by
  induction xs with
  | nil => simp at hx
  | cons y ys ih =>
    simp only [List.map_cons, List.nodup_cons, List.mem_map, not_exists, not_and] at hnd
    simp only [List.mem_cons] at hx
    rcases hx with h | h
    · subst h; simp
    · have hne : ¬ key y = key x := fun hk => hnd.1 x h hk.symm
      simp [List.find?_cons, hne, ih hnd.2 h]

theorem Adapter.queryPredicate_email (u : User) (email : String) :
    Adapter.queryPredicate [("email", .str email)] u = (u.email == email) := by
  simp [Adapter.queryPredicate, JObj.get, Record.field, JVal.strictEq]

theorem Database.update_find_same {α : Type} [Record α] (xs : List α) (k : String)
    (f : α → α) (now : String) (x : α)
    (hid : ∀ y : α, Record.id (Record.withUpdatedAt (f y) now) = Record.id y)
    (hf : Database.findById xs k = some x) :
    Database.findById (Database.update xs k f now).2 k =
      some (Record.withUpdatedAt (f x) now) := by
  induction xs with
  | nil => simp [Database.findById] at hf
  | cons y ys ih =>
    rw [Database.findById_cons] at hf
    rw [Database.update_cons]
    by_cases hy : Record.id y = k
    · rw [if_pos hy] at hf ⊢
      cases hf
      rw [Database.findById_cons, if_pos (by rw [hid]; exact hy)]
    · rw [if_neg hy] at hf ⊢
      rw [Database.findById_cons, if_neg hy]
      exact ih hf

theorem splitChars_of_not_mem (sep : Char) (t : List Char) (h : sep ∉ t) :
    splitChars sep t = [t] := by
  induction t with
  | nil => rfl
  | cons c cs ih =>
    simp only [List.mem_cons, not_or] at h
    have hc : ¬ c = sep := fun hh => h.1 hh.symm
    simp [splitChars, hc, ih h.2]

theorem bearer_split (token : String) (h : ' ' ∉ token.data) :
    (jsSplit ("Bearer " ++ token) ' ')[1]? = some token := by
  have hd : ("Bearer " ++ token).data =
      'B' :: 'e' :: 'a' :: 'r' :: 'e' :: 'r' :: ' ' :: token.data := by
    simp [String.data_append]
  simp [jsSplit, hd, splitChars, splitChars_of_not_mem ' ' token.data h]

theorem bearer_startsWith (token : String) :
    jsStartsWith ("Bearer " ++ token) "Bearer " = true := by
  simp [jsStartsWith, String.data_append]

theorem verifyToken_next_of_bearer (crypto : Crypto) (config : Config) (nowMs : Nat)
    (token : String) (payload : Payload) (hblank : ' ' ∉ token.data)
    (hverify : crypto.jwtVerify (some token) config.jwtSecret nowMs = .ok payload) :
    verifyToken crypto config nowMs
        { authorization := some ("Bearer " ++ token), user := none } =
      .next { authorization := some ("Bearer " ++ token), user := some payload } := by
  have hne : ¬ ("Bearer " ++ token = "") := by
    intro h
    have hd := congrArg String.data h
    simp [String.data_append] at hd
  simp [verifyToken, bearer_startsWith, bearer_split token hblank, hverify, hne]

/-- C9. For a stored user and that user's correct password, `login` answers
200 with an access token; a later request carrying `Bearer <accessToken>`
passes `verifyToken`, and `getProfile` then answers 200 with that user's
record (same id and email, password removed).  User ids and emails are unique
in the users file, the token contains no blank, and verifying the signed token
with the same secret while it is unexpired returns the signed payload. -/
theorem login_token_opens_profile (crypto : Crypto) (config : Config) (env : Env) (s : Store)
    (u : User) (password : String) (later : Nat)
    (hu : u ∈ s.users)
    (hids : (List.map (fun x => x.id) s.users).Nodup)
    (hemails : (List.map (fun x => x.email) s.users).Nodup)
    (hemail : u.email ≠ "") (hpw : password ≠ "")
    (hcmp : crypto.bcryptCompare password u.password = true)
    (hblank : ' ' ∉ (crypto.jwtSign
      { id := u.id, email := some u.email, name := some u.name, isAdmin := false }
      config.jwtSecret config.jwtExpiry env.nowMs).data)
    (hverify : crypto.jwtVerify
      (some (crypto.jwtSign
        { id := u.id, email := some u.email, name := some u.name, isAdmin := false }
        config.jwtSecret config.jwtExpiry env.nowMs))
      config.jwtSecret later =
        .ok { id := u.id, email := some u.email, name := some u.name, isAdmin := false }) :
    ∃ result,
      (login crypto config env { email := some u.email, password := some password } s).1.status
        = 200 ∧
      (login crypto config env { email := some u.email, password := some password } s).1.body
        = .ok result ∧
      ∃ req', verifyToken crypto config later
          { authorization := some ("Bearer " ++ result.accessToken), user := none } =
            .next req' ∧
        ∃ payload, req'.user = some payload ∧
          ∃ profile,
            (getProfile payload
              (login crypto config env
                { email := some u.email, password := some password } s).2).status = 200 ∧
            (getProfile payload
              (login crypto config env
                { email := some u.email, password := some password } s).2).body
              = .ok [("user", .obj profile)] ∧
            profile = JObj.set (JObj.delete
              (User.toJson { u with lastLogin := some env.now, updatedAt := env.now })
              "password") "isAdmin" (.bool false) ∧
            JObj.get profile "id" = .str u.id ∧
            JObj.get profile "email" = .str u.email ∧
            JObj.get profile "password" = .undefined := by
  have hfind : Adapter.findOne s.users [("email", .str u.email)] = some u := by
    unfold Adapter.findOne Database.findOne
    have hpred : (fun item : User => Adapter.queryPredicate [("email", .str u.email)] item) =
        (fun y => (fun x : User => x.email) y == (fun x : User => x.email) u) := by
      funext item
      exact Adapter.queryPredicate_email item u.email
    rw [hpred]
    exact find?_of_nodup_key (fun x : User => x.email) s.users hemails u hu
  have hbyid : Database.findById s.users u.id = some u := by
    unfold Database.findById
    exact find?_of_nodup_key (fun x : User => x.id) s.users hids u hu
  have hlogin : login crypto config env { email := some u.email, password := some password } s =
      (⟨200, .ok { message := "Login successful",
                   user := JObj.delete u.toJson "password",
                   accessToken := (generateTokens crypto config env 0 u.id u.email u.name false
                     s.sessions).1.1,
                   refreshToken := (generateTokens crypto config env 0 u.id u.email u.name false
                     s.sessions).1.2 }⟩,
        { s with
          users := (Adapter.updateById s.users u.id
            (fun x => { x with lastLogin := some env.now }) env.now).2,
          sessions := (generateTokens crypto config env 0 u.id u.email u.name false
            s.sessions).2 }) := by
    simp [login, truthy, hemail, hpw, hfind, hcmp]
  rw [hlogin]
  refine ⟨_, rfl, rfl, ?_⟩
  have htoken : (generateTokens crypto config env 0 u.id u.email u.name false s.sessions).1.1 =
      crypto.jwtSign { id := u.id, email := some u.email, name := some u.name, isAdmin := false }
        config.jwtSecret config.jwtExpiry env.nowMs := rfl
  simp only [htoken]
  refine ⟨_, (verifyToken_next_of_bearer crypto config later _ _ hblank hverify), _, rfl, ?_⟩
  have hafter : Database.findById
      (Adapter.updateById s.users u.id (fun x => { x with lastLogin := some env.now })
        env.now).2 u.id =
      some { u with lastLogin := some env.now, updatedAt := env.now } := by
    exact Database.update_find_same s.users u.id
      (fun x : User => { x with lastLogin := some env.now }) env.now u (fun _ => rfl) hbyid
  refine ⟨_, ?_, ?_, rfl, ?_, ?_, ?_⟩
  · simp [getProfile, Adapter.findById, hafter]
  · simp [getProfile, Adapter.findById, hafter]
  · simp [User.toJson, JObj.delete, JObj.set, JObj.get]
  · simp [User.toJson, JObj.delete, JObj.set, JObj.get]
  · simp [User.toJson, JObj.delete, JObj.set, JObj.get]

/-- Worked instance of C9: `sampleUser` logs in with `secret1` and reads the
profile one millisecond later. -/
theorem login_token_opens_profile_witness :
    sampleUser ∈ sampleAuthStore.users ∧
    sampleCrypto.bcryptCompare "secret1" sampleUser.password = true ∧
    ∃ result,
      (login sampleCrypto defaultConfig sampleEnv
        { email := some sampleUser.email, password := some "secret1" } sampleAuthStore).1.status
        = 200 ∧
      (login sampleCrypto defaultConfig sampleEnv
        { email := some sampleUser.email, password := some "secret1" } sampleAuthStore).1.body
        = .ok result ∧
      ∃ req', verifyToken sampleCrypto defaultConfig (sampleEnv.nowMs + 1)
          { authorization := some ("Bearer " ++ result.accessToken), user := none } =
            .next req' ∧
        ∃ payload, req'.user = some payload ∧
          ∃ profile,
            (getProfile payload
              (login sampleCrypto defaultConfig sampleEnv
                { email := some sampleUser.email, password := some "secret1" }
                sampleAuthStore).2).status = 200 ∧
            (getProfile payload
              (login sampleCrypto defaultConfig sampleEnv
                { email := some sampleUser.email, password := some "secret1" }
                sampleAuthStore).2).body
              = .ok [("user", .obj profile)] ∧
            profile = JObj.set (JObj.delete
              (User.toJson
                { sampleUser with lastLogin := some sampleEnv.now, updatedAt := sampleEnv.now })
              "password") "isAdmin" (.bool false) ∧
            JObj.get profile "id" = .str sampleUser.id ∧
            JObj.get profile "email" = .str sampleUser.email ∧
            JObj.get profile "password" = .undefined :=
  ⟨by decide, by decide,
    login_token_opens_profile sampleCrypto defaultConfig sampleEnv sampleAuthStore sampleUser
      "secret1" (sampleEnv.nowMs + 1) (by decide) (by decide) (by decide) (by decide)
      (by decide) (by decide) (by decide) (by rfl)⟩

/-! ### Queries with MongoDB operator objects on the JSON backend -/

theorem JVal.strictEq_obj (v : JVal) (ops : List (String × JVal)) :
    JVal.strictEq v (.obj ops) = false := by
  cases v <;> rfl

theorem Adapter.queryPredicate_operator {α : Type} [Record α] (query : JObj) (key : String)
    (ops : JObj) (hkey : key ∈ List.map (fun kv => kv.1) query)
    (hop : JObj.get query key = .obj ops) (item : α) :
    Adapter.queryPredicate query item = false := by
  unfold Adapter.queryPredicate
  rw [Bool.eq_false_iff]
  intro hall
  rw [List.all_eq_true] at hall
  have := hall key hkey
  rw [hop, JVal.strictEq_obj] at this
  exact Bool.false_ne_true this

theorem find?_eq_head?_filter {α : Type} (p : α → Bool) (l : List α) :
    List.find? p l = List.head? (List.filter p l) := by
  induction l with
  | nil => rfl
  | cons x xs ih =>
    by_cases h : p x = true
    · rw [List.find?_cons_of_pos _ h, List.filter_cons_of_pos h]
      rfl
    · rw [List.find?_cons_of_neg _ h, List.filter_cons_of_neg h]
      exact ih

theorem all_map_fst (l : List (String × JVal)) (g : String → Bool) :
    List.all (List.map (fun kv => kv.1) l) g = List.all l (fun kv => g kv.1) := by
  induction l with
  | nil => rfl
  | cons x xs ih => simp [List.all_cons, ih]

theorem jsSlice_nil {α : Type} (start : Int) (stop : Option Int) :
    jsSlice ([] : List α) start stop = [] := by
  simp [jsSlice]

/-- C10 (counterexample). With products `P` (price 100) and `Q` (price 10)
stored, the query `{ price: { $gte: 100 } }` describes `P`, yet on the JSON
backend `findMany` returns no item, `findOne` finds none and `count` is 0. -/
theorem adapter_ignores_gte_operator :
    List.filter (operatorQueryMatches gteQuery) sampleStore.products =
      [sampleProduct "P" 100 5] ∧
    Adapter.findMany sampleSort sampleStore.products gteQuery {} = [] ∧
    Adapter.findOne sampleStore.products gteQuery = none ∧
    Adapter.count sampleSort sampleStore.products gteQuery = 0 ∧
    ¬ (Adapter.findMany sampleSort sampleStore.products gteQuery {} =
        List.filter (operatorQueryMatches gteQuery) sampleStore.products) := by
  refine ⟨by decide, by decide, by decide, by decide, by decide⟩

/-- C10 (amended). On the JSON backend `findMany`, `findOne` and `count`
select the stored items whose properties are strictly equal to the query's
values: `findMany` returns them in file order, `findOne` the first of them and
`count` their number.  A query whose value for some field is an operator
object therefore selects nothing: `findOne` finds none, `findMany` returns the
empty list (under every sort, skip and limit, the engine sorting an empty
array to an empty array) and `count` is 0. -/
theorem adapter_strict_equality_selection {α : Type} [Record α]
    (arraySort : (α → α → Int) → List α → List α) (data : List α) (query : JObj) :
    (Adapter.findMany arraySort data query {} =
        List.filter (fun item => List.all query (fun kv =>
          JVal.strictEq (Record.field item kv.1) (JObj.get query kv.1))) data ∧
      Adapter.findOne data query =
        List.head? (List.filter (fun item => List.all query (fun kv =>
          JVal.strictEq (Record.field item kv.1) (JObj.get query kv.1))) data) ∧
      Adapter.count arraySort data query =
        (List.filter (fun item => List.all query (fun kv =>
          JVal.strictEq (Record.field item kv.1) (JObj.get query kv.1))) data).length) ∧
    (∀ key ops, key ∈ List.map (fun kv => kv.1) query → JObj.get query key = .obj ops →
      Adapter.findOne data query = none ∧
      Adapter.findMany arraySort data query {} = [] ∧
      Adapter.count arraySort data query = 0 ∧
      ((∀ cmp, arraySort cmp [] = []) →
        ∀ options, Adapter.findMany arraySort data query options = [])) := by
  have hpred : ∀ item : α, Adapter.queryPredicate query item =
      List.all query (fun kv =>
        JVal.strictEq (Record.field item kv.1) (JObj.get query kv.1)) := by
    intro item
    exact all_map_fst query _
  have hfilter : Database.findMany data
      (some (fun item : α => if query.length = 0 then true
        else Adapter.queryPredicate query item)) =
      List.filter (fun item => List.all query (fun kv =>
        JVal.strictEq (Record.field item kv.1) (JObj.get query kv.1))) data := by
    simp only [Database.findMany]
    congr 1
    funext item
    by_cases hq : query.length = 0
    · have : query = [] := List.length_eq_zero.mp hq
      subst this
      simp
    · simp [hq, hpred]
  have hmany : Adapter.findMany arraySort data query {} =
      List.filter (fun item => List.all query (fun kv =>
        JVal.strictEq (Record.field item kv.1) (JObj.get query kv.1))) data := by
    unfold Adapter.findMany
    simp only [hfilter]
  have hone : Adapter.findOne data query =
      List.head? (List.filter (fun item => List.all query (fun kv =>
        JVal.strictEq (Record.field item kv.1) (JObj.get query kv.1))) data) := by
    unfold Adapter.findOne Database.findOne
    rw [← find?_eq_head?_filter]
    congr 1
    funext item
    exact hpred item
  refine ⟨⟨hmany, hone, by simp [Adapter.count, hmany]⟩, ?_⟩
  intro key ops hkey hop
  have hfalse : ∀ item : α, List.all query (fun kv =>
      JVal.strictEq (Record.field item kv.1) (JObj.get query kv.1)) = false := by
    intro item
    rw [← hpred]
    exact Adapter.queryPredicate_operator query key ops hkey hop item
  have hnil : List.filter (fun item : α => List.all query (fun kv =>
      JVal.strictEq (Record.field item kv.1) (JObj.get query kv.1))) data = [] := by
    simp [hfalse]
  refine ⟨by rw [hone, hnil]; rfl, by rw [hmany, hnil], by simp [Adapter.count, hmany, hnil], ?_⟩
  intro harr options
  unfold Adapter.findMany
  simp only [hfilter, hnil]
  cases options.sort <;> cases options.skip <;> cases options.limit <;>
    simp [harr, jsSlice_nil]

/-- Worked instance of C10 (amended): the query `{ price: { $gte: 100 } }` on
the sample products. -/
theorem adapter_strict_equality_selection_witness :
    "price" ∈ List.map (fun kv => kv.1) gteQuery ∧
    JObj.get gteQuery "price" = .obj [("$gte", .num 100)] ∧
    Adapter.findOne sampleStore.products gteQuery = none ∧
    Adapter.findMany sampleSort sampleStore.products gteQuery {} = [] ∧
    Adapter.count sampleSort sampleStore.products gteQuery = 0 ∧
    ((∀ cmp, sampleSort cmp ([] : List Product) = []) →
      ∀ options, Adapter.findMany sampleSort sampleStore.products gteQuery options = []) :=
  ⟨by decide, rfl,
    (adapter_strict_equality_selection sampleSort sampleStore.products gteQuery).2
      "price" [("$gte", .num 100)] (by decide) rfl⟩

/-! ### Sorting in `findMany` -/

theorem pairwise_orderedInsert_of_mem {α : Type} (r : α → α → Prop) [DecidableRel r]
    (a : α) (l : List α) (hsorted : List.Pairwise r l)
    (htot : ∀ b ∈ l, r a b ∨ r b a)
    (htrans : ∀ b ∈ l, ∀ c ∈ l, r a b → r b c → r a c) :
    List.Pairwise r (List.orderedInsert r a l) := by
  induction l with
  | nil => simp
  | cons b l ih =>
    rw [List.pairwise_cons] at hsorted
    by_cases hab : r a b
    · rw [List.orderedInsert, if_pos hab]
      refine List.pairwise_cons.mpr ⟨?_, List.pairwise_cons.mpr hsorted⟩
      intro x hx
      simp only [List.mem_cons] at hx
      rcases hx with hx | hx
      · rw [hx]; exact hab
      · exact htrans b (by simp) x (by simp [hx]) hab (hsorted.1 x hx)
    · rw [List.orderedInsert, if_neg hab]
      have hba : r b a := by
        rcases htot b (by simp) with h | h
        · exact absurd h hab
        · exact h
      refine List.pairwise_cons.mpr ⟨?_, ?_⟩
      · intro x hx
        rw [List.mem_orderedInsert] at hx
        rcases hx with hx | hx
        · rw [hx]; exact hba
        · exact hsorted.1 x hx
      · exact ih hsorted.2 (fun c hc => htot c (by simp [hc]))
          (fun c hc d hd => htrans c (by simp [hc]) d (by simp [hd]))

theorem pairwise_insertionSort_of_mem {α : Type} (r : α → α → Prop) [DecidableRel r]
    (l : List α) (htot : ∀ a ∈ l, ∀ b ∈ l, r a b ∨ r b a)
    (htrans : ∀ a ∈ l, ∀ b ∈ l, ∀ c ∈ l, r a b → r b c → r a c) :
    List.Pairwise r (List.insertionSort r l) := by
  induction l with
  | nil => simp
  | cons a l ih =>
    rw [List.insertionSort]
    have hmem : ∀ x, x ∈ List.insertionSort r l → x ∈ l :=
      fun x hx => (List.perm_insertionSort r l).mem_iff.mp hx
    apply pairwise_orderedInsert_of_mem
    · exact ih (fun x hx y hy => htot x (by simp [hx]) y (by simp [hy]))
        (fun x hx y hy z hz => htrans x (by simp [hx]) y (by simp [hy]) z (by simp [hz]))
    · intro b hb
      exact htot a (by simp) b (by simp [hmem b hb])
    · intro b hb c hc
      exact htrans a (by simp) b (by simp [hmem b hb]) c (by simp [hmem c hc])

/-- The insertion sort of the worked examples is an engine sort in the sense
of `OrdersByComparator`. -/
theorem sampleSort_ordersByComparator {α : Type} :
    OrdersByComparator (sampleSort : (α → α → Int) → List α → List α) := by
  intro cmp l hne htot htrans
  have hperm : List.Perm (sampleSort cmp l) l := List.perm_insertionSort _ l
  refine ⟨hperm, ?_⟩
  have hle : ∀ a ∈ l, ∀ b ∈ l, (cmp a b ≤ 0 ↔ cmp a b < 0) := by
    intro a ha b hb
    have := hne a ha b hb
    omega
  have hsorted : List.Pairwise (fun a b => cmp a b ≤ 0) (sampleSort cmp l) := by
    apply pairwise_insertionSort_of_mem
    · intro a ha b hb
      rcases htot a ha b hb with h | h
      · left; exact le_of_lt h
      · right; exact le_of_lt h
    · intro a ha b hb c hc hab hbc
      exact le_of_lt (htrans a ha b hb c hc ((hle a ha b hb).mp hab) ((hle b hb c hc).mp hbc))
  refine hsorted.imp_of_mem ?_
  intro a b ha hb hab
  exact (hle a (hperm.mem_iff.mp ha) b (hperm.mem_iff.mp hb)).mp hab

theorem unitsLt_iff_lex (a b : List Nat) :
    unitsLt a b = true ↔ List.Lex (fun x y : Nat => x < y) a b := by
  induction a generalizing b with
  | nil =>
    cases b with
    | nil => simp [unitsLt]
    | cons y ys => simp [unitsLt, List.Lex.nil]
  | cons x xs ih =>
    cases b with
    | nil => simp [unitsLt]
    | cons y ys =>
      unfold unitsLt
      by_cases hxy : x < y
      · simp only [hxy, if_true, true_iff]
        exact List.Lex.rel hxy
      · by_cases hyx : y < x
        · simp only [hxy, hyx, if_true, if_false, Bool.false_eq_true, false_iff]
          intro h
          cases h with
          | cons h => exact absurd hyx (lt_irrefl _)
          | rel h => exact hxy h
        · have hcases : x = y := by omega
          subst hcases
          simp only [lt_irrefl, if_false]
          rw [ih]
          constructor
          · intro h
            exact List.Lex.cons h
          · intro h
            cases h with
            | cons h => exact h
            | rel h => exact absurd h (lt_irrefl _)

theorem jsStringLt_iff (a b : String) :
    jsStringLt a b = true ↔ List.Lex (fun x y : Nat => x < y) (utf16Units a) (utf16Units b) :=
  unitsLt_iff_lex _ _

theorem StringLe.of_not_lt (a b : String) (h : jsStringLt b a = false) : StringLe a b := by
  have hn : ¬ List.Lex (fun x y : Nat => x < y) (utf16Units b) (utf16Units a) := by
    rw [← jsStringLt_iff, h]
    simp
  rcases trichotomous_of (List.Lex (fun x y : Nat => x < y)) (utf16Units a) (utf16Units b)
    with h1 | h1 | h1
  · exact Or.inr h1
  · exact Or.inl h1
  · exact absurd h1 hn

theorem StringLe.not_lt (a b : String) (h : StringLe a b) : jsStringLt b a = false := by
  rw [Bool.eq_false_iff]
  intro hlt
  rw [jsStringLt_iff] at hlt
  rcases h with h | h
  · rw [h] at hlt
    exact irrefl_of (List.Lex (fun x y : Nat => x < y)) _ hlt
  · exact irrefl_of (List.Lex (fun x y : Nat => x < y)) _
      (trans_of (List.Lex (fun x y : Nat => x < y)) h hlt)

theorem jsStringLt_false_iff (a b : String) : jsStringLt b a = false ↔ StringLe a b :=
  ⟨StringLe.of_not_lt a b, StringLe.not_lt a b⟩

theorem StringLe.total (a b : String) : StringLe a b ∨ StringLe b a := by
  rcases trichotomous_of (List.Lex (fun x y : Nat => x < y)) (utf16Units a) (utf16Units b)
    with h1 | h1 | h1
  · exact Or.inl (Or.inr h1)
  · exact Or.inl (Or.inl h1)
  · exact Or.inr (Or.inr h1)

theorem StringLe.trans (a b c : String) (hab : StringLe a b) (hbc : StringLe b c) :
    StringLe a c := by
  rcases hab with h | h
  · rcases hbc with h' | h'
    · exact Or.inl (h.trans h')
    · exact Or.inr (h ▸ h')
  · rcases hbc with h' | h'
    · exact Or.inr (h' ▸ h)
    · exact Or.inr (trans_of (List.Lex (fun x y : Nat => x < y)) h h')

theorem sortComparator_num {α : Type} [Record α] (key : String) (a b : α) (x y : Int)
    (ha : Record.field a key = .num x) (hb : Record.field b key = .num y) :
    (Adapter.sortComparator key (.num 1) a b ≠ 0 ∧
      (Adapter.sortComparator key (.num 1) a b < 0 ↔ x ≤ y)) ∧
    (Adapter.sortComparator key (.num (-1)) a b ≠ 0 ∧
      (Adapter.sortComparator key (.num (-1)) a b < 0 ↔ y ≤ x)) ∧
    (Adapter.sortComparator key (.str "desc") a b ≠ 0 ∧
      (Adapter.sortComparator key (.str "desc") a b < 0 ↔ y ≤ x)) := by
  simp only [Adapter.sortComparator, ha, hb, JVal.strictEq, JVal.gt, JVal.toNumber]
  by_cases h : y < x <;> by_cases h' : x < y <;> simp [h, h'] <;> omega

theorem sortComparator_str {α : Type} [Record α] (key : String) (a b : α) (x y : String)
    (ha : Record.field a key = .str x) (hb : Record.field b key = .str y) :
    (Adapter.sortComparator key (.num 1) a b ≠ 0 ∧
      (Adapter.sortComparator key (.num 1) a b < 0 ↔ StringLe x y)) ∧
    (Adapter.sortComparator key (.num (-1)) a b ≠ 0 ∧
      (Adapter.sortComparator key (.num (-1)) a b < 0 ↔ StringLe y x)) ∧
    (Adapter.sortComparator key (.str "desc") a b ≠ 0 ∧
      (Adapter.sortComparator key (.str "desc") a b < 0 ↔ StringLe y x)) := by
  simp only [Adapter.sortComparator, ha, hb, JVal.strictEq, JVal.gt]
  by_cases h : jsStringLt y x = true
  · have h1 : ¬ StringLe x y := fun hle => by
      rw [StringLe.not_lt x y hle] at h
      exact Bool.false_ne_true h
    have h2 : StringLe y x := (StringLe.total x y).resolve_left h1
    have h3 : jsStringLt x y = false := StringLe.not_lt y x h2
    simp [h, h1, h2, h3]
  · have h0 : jsStringLt y x = false := by simpa using h
    have h1 : StringLe x y := StringLe.of_not_lt x y h0
    by_cases h' : jsStringLt x y = true
    · have h2 : ¬ StringLe y x := fun hle => by
        rw [StringLe.not_lt y x hle] at h'
        exact Bool.false_ne_true h'
      simp [h0, h1, h2, h']
    · have h0' : jsStringLt x y = false := by simpa using h'
      have h2 : StringLe y x := StringLe.of_not_lt y x h0'
      simp [h0, h1, h2, h0']

theorem engine_orders_by_key {α : Type} [Record α]
    (arraySort : (α → α → Int) → List α → List α) (hengine : OrdersByComparator arraySort)
    (l : List α) (key : String) (dir : JVal) (rel : JVal → JVal → Prop)
    (hcmp : ∀ a ∈ l, ∀ b ∈ l, Adapter.sortComparator key dir a b ≠ 0 ∧
      (Adapter.sortComparator key dir a b < 0 ↔ rel (Record.field a key) (Record.field b key)))
    (htot : ∀ a ∈ l, ∀ b ∈ l, rel (Record.field a key) (Record.field b key) ∨
      rel (Record.field b key) (Record.field a key))
    (htrans : ∀ a ∈ l, ∀ b ∈ l, ∀ c ∈ l, rel (Record.field a key) (Record.field b key) →
      rel (Record.field b key) (Record.field c key) →
      rel (Record.field a key) (Record.field c key)) :
    List.Perm (arraySort (Adapter.sortComparator key dir) l) l ∧
    List.Pairwise (fun a b => rel (Record.field a key) (Record.field b key))
      (arraySort (Adapter.sortComparator key dir) l) := by
  have h := hengine (Adapter.sortComparator key dir) l
    (fun a ha b hb => (hcmp a ha b hb).1)
    (fun a ha b hb => by
      rcases htot a ha b hb with h | h
      · left; exact (hcmp a ha b hb).2.mpr h
      · right; exact (hcmp b hb a ha).2.mpr h)
    (fun a ha b hb c hc hab hbc =>
      (hcmp a ha c hc).2.mpr (htrans a ha b hb c hc ((hcmp a ha b hb).2.mp hab)
        ((hcmp b hb c hc).2.mp hbc)))
  refine ⟨h.1, h.2.imp_of_mem ?_⟩
  intro a b ha hb hab
  exact (hcmp a (h.1.mem_iff.mp ha) b (h.1.mem_iff.mp hb)).2.mp hab

theorem engine_orders_numbers {α : Type} [Record α]
    (arraySort : (α → α → Int) → List α → List α) (hengine : OrdersByComparator arraySort)
    (l : List α) (key : String) (hnum : ∀ item ∈ l, ∃ n, Record.field item key = .num n) :
    (List.Perm (arraySort (Adapter.sortComparator key (.num 1)) l) l ∧
      List.Pairwise (fun a b => JVal.le (Record.field a key) (Record.field b key))
        (arraySort (Adapter.sortComparator key (.num 1)) l)) ∧
    (List.Perm (arraySort (Adapter.sortComparator key (.num (-1))) l) l ∧
      List.Pairwise (fun a b => JVal.le (Record.field b key) (Record.field a key))
        (arraySort (Adapter.sortComparator key (.num (-1))) l)) ∧
    (List.Perm (arraySort (Adapter.sortComparator key (.str "desc")) l) l ∧
      List.Pairwise (fun a b => JVal.le (Record.field b key) (Record.field a key))
        (arraySort (Adapter.sortComparator key (.str "desc")) l)) := by
  refine ⟨?_, ?_, ?_⟩
  · apply engine_orders_by_key arraySort hengine l key (.num 1) (fun u v => JVal.le u v)
    · intro a ha b hb
      obtain ⟨x, hx⟩ := hnum a ha
      obtain ⟨y, hy⟩ := hnum b hb
      have := (sortComparator_num key a b x y hx hy).1
      simpa [hx, hy, JVal.le] using this
    · intro a ha b hb
      obtain ⟨x, hx⟩ := hnum a ha
      obtain ⟨y, hy⟩ := hnum b hb
      simp only [hx, hy, JVal.le]
      omega
    · intro a ha b hb c hc
      obtain ⟨x, hx⟩ := hnum a ha
      obtain ⟨y, hy⟩ := hnum b hb
      obtain ⟨z, hz⟩ := hnum c hc
      simp only [hx, hy, hz, JVal.le]
      omega
  · apply engine_orders_by_key arraySort hengine l key (.num (-1)) (fun u v => JVal.le v u)
    · intro a ha b hb
      obtain ⟨x, hx⟩ := hnum a ha
      obtain ⟨y, hy⟩ := hnum b hb
      have := (sortComparator_num key a b x y hx hy).2.1
      simpa [hx, hy, JVal.le] using this
    · intro a ha b hb
      obtain ⟨x, hx⟩ := hnum a ha
      obtain ⟨y, hy⟩ := hnum b hb
      simp only [hx, hy, JVal.le]
      omega
    · intro a ha b hb c hc
      obtain ⟨x, hx⟩ := hnum a ha
      obtain ⟨y, hy⟩ := hnum b hb
      obtain ⟨z, hz⟩ := hnum c hc
      simp only [hx, hy, hz, JVal.le]
      omega
  · apply engine_orders_by_key arraySort hengine l key (.str "desc") (fun u v => JVal.le v u)
    · intro a ha b hb
      obtain ⟨x, hx⟩ := hnum a ha
      obtain ⟨y, hy⟩ := hnum b hb
      have := (sortComparator_num key a b x y hx hy).2.2
      simpa [hx, hy, JVal.le] using this
    · intro a ha b hb
      obtain ⟨x, hx⟩ := hnum a ha
      obtain ⟨y, hy⟩ := hnum b hb
      simp only [hx, hy, JVal.le]
      omega
    · intro a ha b hb c hc
      obtain ⟨x, hx⟩ := hnum a ha
      obtain ⟨y, hy⟩ := hnum b hb
      obtain ⟨z, hz⟩ := hnum c hc
      simp only [hx, hy, hz, JVal.le]
      omega

theorem engine_orders_strings {α : Type} [Record α]
    (arraySort : (α → α → Int) → List α → List α) (hengine : OrdersByComparator arraySort)
    (l : List α) (key : String) (hstr : ∀ item ∈ l, ∃ t, Record.field item key = .str t) :
    (List.Perm (arraySort (Adapter.sortComparator key (.num 1)) l) l ∧
      List.Pairwise (fun a b => JVal.le (Record.field a key) (Record.field b key))
        (arraySort (Adapter.sortComparator key (.num 1)) l)) ∧
    (List.Perm (arraySort (Adapter.sortComparator key (.num (-1))) l) l ∧
      List.Pairwise (fun a b => JVal.le (Record.field b key) (Record.field a key))
        (arraySort (Adapter.sortComparator key (.num (-1))) l)) ∧
    (List.Perm (arraySort (Adapter.sortComparator key (.str "desc")) l) l ∧
      List.Pairwise (fun a b => JVal.le (Record.field b key) (Record.field a key))
        (arraySort (Adapter.sortComparator key (.str "desc")) l)) := by
  refine ⟨?_, ?_, ?_⟩
  · apply engine_orders_by_key arraySort hengine l key (.num 1) (fun u v => JVal.le u v)
    · intro a ha b hb
      obtain ⟨x, hx⟩ := hstr a ha
      obtain ⟨y, hy⟩ := hstr b hb
      have := (sortComparator_str key a b x y hx hy).1
      simpa [hx, hy, JVal.le] using this
    · intro a ha b hb
      obtain ⟨x, hx⟩ := hstr a ha
      obtain ⟨y, hy⟩ := hstr b hb
      simp only [hx, hy, JVal.le]
      exact StringLe.total x y
    · intro a ha b hb c hc
      obtain ⟨x, hx⟩ := hstr a ha
      obtain ⟨y, hy⟩ := hstr b hb
      obtain ⟨z, hz⟩ := hstr c hc
      simp only [hx, hy, hz, JVal.le]
      exact StringLe.trans x y z
  · apply engine_orders_by_key arraySort hengine l key (.num (-1)) (fun u v => JVal.le v u)
    · intro a ha b hb
      obtain ⟨x, hx⟩ := hstr a ha
      obtain ⟨y, hy⟩ := hstr b hb
      have := (sortComparator_str key a b x y hx hy).2.1
      simpa [hx, hy, JVal.le] using this
    · intro a ha b hb
      obtain ⟨x, hx⟩ := hstr a ha
      obtain ⟨y, hy⟩ := hstr b hb
      simp only [hx, hy, JVal.le]
      exact StringLe.total y x
    · intro a ha b hb c hc
      obtain ⟨x, hx⟩ := hstr a ha
      obtain ⟨y, hy⟩ := hstr b hb
      obtain ⟨z, hz⟩ := hstr c hc
      simp only [hx, hy, hz, JVal.le]
      exact fun h1 h2 => StringLe.trans z y x h2 h1
  · apply engine_orders_by_key arraySort hengine l key (.str "desc") (fun u v => JVal.le v u)
    · intro a ha b hb
      obtain ⟨x, hx⟩ := hstr a ha
      obtain ⟨y, hy⟩ := hstr b hb
      have := (sortComparator_str key a b x y hx hy).2.2
      simpa [hx, hy, JVal.le] using this
    · intro a ha b hb
      obtain ⟨x, hx⟩ := hstr a ha
      obtain ⟨y, hy⟩ := hstr b hb
      simp only [hx, hy, JVal.le]
      exact StringLe.total y x
    · intro a ha b hb c hc
      obtain ⟨x, hx⟩ := hstr a ha
      obtain ⟨y, hy⟩ := hstr b hb
      obtain ⟨z, hz⟩ := hstr c hc
      simp only [hx, hy, hz, JVal.le]
      exact fun h1 h2 => StringLe.trans z y x h2 h1

/-- C11 (failing input). The raw collection with `k` = 2, 0, missing, 1 is
returned by `findMany` with sort `{ k: 1 }` as 0, 2, missing, 1 by the
insertion-sort engine and as 1, missing, 0, 2 by the run-detecting engine: in
both the numbers present are not in non-decreasing order.  The comparator
`a[k] > b[k] ? 1 : -1` answers -1 in both directions when a key is missing, so
it is not an ordering; the MongoDB branch of `findMany` sorts such a
collection. -/
theorem findMany_sort_missing_key_unordered :
    List.map (fun o => Record.id o)
      (Adapter.findMany sampleSort sparseItems [] { sort := some ("k", .num 1) }) =
        ["b", "a", "c", "d"] ∧
    nonDecreasing (List.map (fun o => (JObj.get o "k").asNum)
      (Adapter.findMany sampleSort sparseItems [] { sort := some ("k", .num 1) })) = false ∧
    List.map (fun o => Record.id o)
      (Adapter.findMany runInsertionSort sparseItems [] { sort := some ("k", .num 1) }) =
        ["d", "c", "b", "a"] ∧
    nonDecreasing (List.map (fun o => (JObj.get o "k").asNum)
      (Adapter.findMany runInsertionSort sparseItems [] { sort := some ("k", .num 1) })) =
        false := by
  refine ⟨by decide, by decide, by decide, by decide⟩

/-- Sorting where the key is present.  On the JSON backend, with an engine
sort that orders its input under every comparator whose answers are total and
transitive, and for a
collection in which every item matching the query carries a number under `k`,
or every one a string (equal values included), `findMany` with sort `{ k: 1 }`
returns a rearrangement of the matching items in non-decreasing order of `k`,
and with `{ k: -1 }` or `{ k: 'desc' }` one in non-increasing order of `k`. -/
theorem findMany_sort_order {α : Type} [Record α]
    (arraySort : (α → α → Int) → List α → List α) (hengine : OrdersByComparator arraySort)
    (data : List α) (query : JObj) (key : String)
    (hkeys : (∀ item ∈ Adapter.findMany arraySort data query {},
        ∃ n, Record.field item key = .num n) ∨
      (∀ item ∈ Adapter.findMany arraySort data query {},
        ∃ t, Record.field item key = .str t)) :
    (List.Perm (Adapter.findMany arraySort data query { sort := some (key, .num 1) })
        (Adapter.findMany arraySort data query {}) ∧
      List.Pairwise (fun a b => JVal.le (Record.field a key) (Record.field b key))
        (Adapter.findMany arraySort data query { sort := some (key, .num 1) })) ∧
    (List.Perm (Adapter.findMany arraySort data query { sort := some (key, .num (-1)) })
        (Adapter.findMany arraySort data query {}) ∧
      List.Pairwise (fun a b => JVal.le (Record.field b key) (Record.field a key))
        (Adapter.findMany arraySort data query { sort := some (key, .num (-1)) })) ∧
    (List.Perm (Adapter.findMany arraySort data query { sort := some (key, .str "desc") })
        (Adapter.findMany arraySort data query {}) ∧
      List.Pairwise (fun a b => JVal.le (Record.field b key) (Record.field a key))
        (Adapter.findMany arraySort data query { sort := some (key, .str "desc") })) := by
  have hsort : ∀ dir : JVal,
      Adapter.findMany arraySort data query { sort := some (key, dir) } =
        arraySort (Adapter.sortComparator key dir) (Adapter.findMany arraySort data query {}) :=
    fun _ => rfl
  rw [hsort, hsort, hsort]
  rcases hkeys with hnum | hstr
  · exact engine_orders_numbers arraySort hengine _ key hnum
  · exact engine_orders_strings arraySort hengine _ key hstr

/-- Worked instance: the sample products sorted by price with the
insertion-sort engine. -/
theorem findMany_sort_order_witness :
    (List.Perm
        (Adapter.findMany sampleSort sampleStore.products [] { sort := some ("price", .num 1) })
        (Adapter.findMany sampleSort sampleStore.products [] {}) ∧
      List.Pairwise (fun a b => JVal.le (Record.field a "price") (Record.field b "price"))
        (Adapter.findMany sampleSort sampleStore.products []
          { sort := some ("price", .num 1) })) ∧
    (List.Perm
        (Adapter.findMany sampleSort sampleStore.products []
          { sort := some ("price", .num (-1)) })
        (Adapter.findMany sampleSort sampleStore.products [] {}) ∧
      List.Pairwise (fun a b => JVal.le (Record.field b "price") (Record.field a "price"))
        (Adapter.findMany sampleSort sampleStore.products []
          { sort := some ("price", .num (-1)) })) ∧
    (List.Perm
        (Adapter.findMany sampleSort sampleStore.products []
          { sort := some ("price", .str "desc") })
        (Adapter.findMany sampleSort sampleStore.products [] {}) ∧
      List.Pairwise (fun a b => JVal.le (Record.field b "price") (Record.field a "price"))
        (Adapter.findMany sampleSort sampleStore.products []
          { sort := some ("price", .str "desc") })) :=
  findMany_sort_order sampleSort sampleSort_ordersByComparator sampleStore.products [] "price"
    (Or.inl (fun item _ => ⟨item.price, by simp [Record.field]⟩))

/-! ### Pagination in `findMany` -/

theorem jsSliceIndex_natCast (len n : Nat) : jsSliceIndex len (n : Int) = min n len := by
  simp [jsSliceIndex]

theorem jsSlice_skip {α : Type} (xs : List α) (n : Nat) :
    jsSlice xs (n : Int) none = List.drop n xs := by
  simp only [jsSlice, jsSliceIndex_natCast]
  by_cases h : n ≤ xs.length
  · rw [Nat.min_eq_left h]
    apply List.take_of_length_le
    simp
  · have h' : xs.length ≤ n := by omega
    rw [Nat.min_eq_right h', List.drop_of_length_le (Nat.le_refl _),
      List.drop_of_length_le h']
    simp

theorem jsSlice_limit {α : Type} (xs : List α) (n : Nat) :
    jsSlice xs 0 (some (n : Int)) = List.take n xs := by
  have h0 : jsSliceIndex xs.length 0 = 0 := by simp [jsSliceIndex]
  simp only [jsSlice, h0, jsSliceIndex_natCast, List.drop_zero, Nat.sub_zero]
  by_cases h : n ≤ xs.length
  · rw [Nat.min_eq_left h]
  · have h' : xs.length ≤ n := by omega
    rw [Nat.min_eq_right h', List.take_of_length_le (Nat.le_refl _),
      List.take_of_length_le h']

/-- C12 (counterexample). With two products stored, `findMany` with
`{ skip: 0, limit: 0 }` returns both of them, more than the limit of 0. -/
theorem findMany_limit_zero_returns_all :
    (Adapter.findMany sampleSort sampleStore.products []
      { skip := some 0, limit := some 0 }).length = 2 ∧
    List.take 0 (List.drop 0 (Adapter.findMany sampleSort sampleStore.products [] {})) = [] := by
  refine ⟨by decide, by decide⟩

/-- C12 (amended). On the JSON backend, for every skip `s ≥ 0` and limit
`l ≥ 1`, `findMany` with `{ skip: s, limit: l }` returns exactly the items at
positions `s, ..., s + l - 1` of the filtered and sorted list (fewer when the
list ends earlier), hence at most `l` items; with limit 0, as without a limit,
it returns every item from position `s` on. -/
theorem findMany_pagination {α : Type} [Record α]
    (arraySort : (α → α → Int) → List α → List α) (data : List α) (query : JObj)
    (sort : Option (String × JVal)) (s l : Nat) :
    (1 ≤ l →
      Adapter.findMany arraySort data query
          { sort := sort, skip := some (s : Int), limit := some (l : Int) } =
        List.take l (List.drop s (Adapter.findMany arraySort data query { sort := sort })) ∧
      (Adapter.findMany arraySort data query
          { sort := sort, skip := some (s : Int), limit := some (l : Int) }).length ≤ l) ∧
    Adapter.findMany arraySort data query
        { sort := sort, skip := some (s : Int), limit := some 0 } =
      List.drop s (Adapter.findMany arraySort data query { sort := sort }) ∧
    Adapter.findMany arraySort data query { sort := sort, skip := some (s : Int) } =
      List.drop s (Adapter.findMany arraySort data query { sort := sort }) := by
  have hskip : ∀ xs : List α,
      (if (s : Int) = 0 then xs else jsSlice xs (s : Int) none) = List.drop s xs := by
    intro xs
    by_cases h : (s : Int) = 0
    · have : s = 0 := by omega
      subst this
      simp
    · rw [if_neg h, jsSlice_skip]
  refine ⟨?_, ?_, ?_⟩
  · intro hl
    have hne : ¬ ((l : Int) = 0) := by omega
    have heq : Adapter.findMany arraySort data query
          { sort := sort, skip := some (s : Int), limit := some (l : Int) } =
        List.take l (List.drop s (Adapter.findMany arraySort data query { sort := sort })) := by
      simp only [Adapter.findMany, hskip, if_neg hne, jsSlice_limit]
    refine ⟨heq, ?_⟩
    rw [heq]
    simp [List.length_take]
  · simp only [Adapter.findMany, hskip, if_true]
  · simp only [Adapter.findMany, hskip]

/-- Worked instance of C12 (amended): the second page of size 1 of the sample
products. -/
theorem findMany_pagination_witness :
    Adapter.findMany sampleSort sampleStore.products []
        { sort := none, skip := some ((1 : Nat) : Int), limit := some ((1 : Nat) : Int) } =
      List.take 1 (List.drop 1
        (Adapter.findMany sampleSort sampleStore.products [] { sort := none })) ∧
    (Adapter.findMany sampleSort sampleStore.products []
        { sort := none, skip := some ((1 : Nat) : Int),
          limit := some ((1 : Nat) : Int) }).length ≤ 1 :=
  (findMany_pagination sampleSort sampleStore.products [] none 1 1).1 (by decide)

/-! ### `create` on the JSON backend -/

theorem Adapter.count_all {α : Type} [Record α]
    (arraySort : (α → α → Int) → List α → List α) (data : List α) :
    Adapter.count arraySort data [] = data.length := by
  simp [Adapter.count, Adapter.findMany, Database.findMany]

theorem Database.findById_append_new {α : Type} [Record α] (data : List α) (x : α)
    (hnew : ∀ y ∈ data, Record.id y ≠ Record.id x) :
    Database.findById (data ++ [x]) (Record.id x) = some x := by
  unfold Database.findById
  rw [List.find?_append]
  have hnone : List.find? (fun item => Record.id item == Record.id x) data = none := by
    rw [List.find?_eq_none]
    intro y hy
    simpa using hnew y hy
  rw [hnone]
  simp

/-- C13. On the JSON backend `create(data)` returns the item with the id
given in `data`, or the freshly generated one when `data` has none, stamped
with `createdAt` and `updatedAt`; afterwards `findById` of that id returns the
created item whenever no previously stored item has the same id, `count({})`
is one more than before, and every previously stored item is unchanged at its
position. -/
theorem adapter_create_effect {α : Type} [Record α] [LawfulRecord α]
    (arraySort : (α → α → Int) → List α → List α) (data : List α) (item : α)
    (freshId now : String) :
    Record.id (Adapter.create data item freshId now).1 =
      (if Record.id item = "" then freshId else Record.id item) ∧
    Record.field (Adapter.create data item freshId now).1 "createdAt" = .str now ∧
    Record.field (Adapter.create data item freshId now).1 "updatedAt" = .str now ∧
    (Adapter.create data item freshId now).2 =
      data ++ [(Adapter.create data item freshId now).1] ∧
    ((∀ x ∈ data, Record.id x ≠ Record.id (Adapter.create data item freshId now).1) →
      Adapter.findById (Adapter.create data item freshId now).2
        (Record.id (Adapter.create data item freshId now).1) =
        some (Adapter.create data item freshId now).1) ∧
    Adapter.count arraySort (Adapter.create data item freshId now).2 [] =
      Adapter.count arraySort data [] + 1 ∧
    (∀ (i : Nat) (x : α), data[i]? = some x →
      (Adapter.create data item freshId now).2[i]? = some x) := by
  have happ := Adapter.create_appends data item freshId now
  refine ⟨?_, ?_, ?_, happ, ?_, ?_, ?_⟩
  · simp only [Adapter.create, Database.create, LawfulRecord.id_withUpdatedAt,
      LawfulRecord.id_withCreatedAt]
    by_cases h : Record.id item = ""
    · simp [h, LawfulRecord.id_withId]
    · simp [h]
  · simp only [Adapter.create, Database.create]
    exact LawfulRecord.createdAt_stamped _ _ _
  · simp only [Adapter.create, Database.create]
    exact LawfulRecord.updatedAt_stamped _ _
  · intro hnew
    rw [happ]
    exact Database.findById_append_new data _ hnew
  · rw [Adapter.count_all, Adapter.count_all, happ]
    simp
  · intro i x hx
    rw [happ]
    have hlt : i < data.length := (List.getElem?_eq_some.mp hx).1
    rw [List.getElem?_append_left hlt]
    exact hx

/-- Worked instance of C13: a product `R` without timestamps is created in
the sample products file. -/
theorem adapter_create_effect_witness :
    (∀ x ∈ sampleStore.products,
      Record.id x ≠ Record.id
        (Adapter.create sampleStore.products (sampleProduct "R" 7 3) "fresh" "now").1) ∧
    Adapter.findById
      (Adapter.create sampleStore.products (sampleProduct "R" 7 3) "fresh" "now").2
      (Record.id (Adapter.create sampleStore.products (sampleProduct "R" 7 3) "fresh" "now").1) =
      some (Adapter.create sampleStore.products (sampleProduct "R" 7 3) "fresh" "now").1 :=
  ⟨by decide,
    (adapter_create_effect sampleSort sampleStore.products (sampleProduct "R" 7 3)
      "fresh" "now").2.2.2.2.1 (by decide)⟩

/-! ### `requireAdmin` and the admin routes -/

theorem Database.findById_eq_none_iff {α : Type} [Record α] (xs : List α) (id : String) :
    Database.findById xs id = none ↔ ∀ x ∈ xs, Record.id x ≠ id := by
  unfold Database.findById
  rw [List.find?_eq_none]
  simp

theorem Database.findById_exists_iff {α : Type} [Record α] (xs : List α) (id : String) :
    (∃ x, Database.findById xs id = some x) ↔ ∃ x ∈ xs, Record.id x = id := by
  constructor
  · rintro ⟨x, hx⟩
    exact ⟨x, Database.findById_mem _ _ _ hx, Database.findById_id _ _ _ hx⟩
  · rintro ⟨x, hx, hid⟩
    cases h : Database.findById xs id with
    | none => exact absurd hid ((Database.findById_eq_none_iff xs id).mp h x hx)
    | some y => exact ⟨y, rfl⟩

theorem requireAdmin_next_iff (req req' : Request) (s : Store) :
    requireAdmin req s = .next req' ↔
      req' = req ∧ ∃ user, req.user = some user ∧ user.isAdmin = true ∧
        ∃ a ∈ s.admins, a.id = user.id := by
  unfold requireAdmin
  cases hu : req.user with
  | none => simp
  | some user =>
    by_cases hadmin : user.isAdmin = true
    · cases hf : Adapter.findById s.admins user.id with
      | none =>
        have hnone := (Database.findById_eq_none_iff s.admins user.id).mp hf
        simp only [hadmin, Bool.not_true, Bool.false_eq_true, if_false, hf]
        constructor
        · intro h; cases h
        · rintro ⟨_, user', hu', _, a, ha, haid⟩
          cases hu'
          exact absurd haid (hnone a ha)
      | some a =>
        have hmem := Database.findById_mem _ _ _ hf
        have hid := Database.findById_id _ _ _ hf
        simp only [hadmin, Bool.not_true, Bool.false_eq_true, if_false, hf]
        constructor
        · intro h
          cases h
          exact ⟨rfl, user, rfl, hadmin, a, hmem, hid⟩
        · rintro ⟨h, _⟩
          rw [h]
    · simp only [hadmin, Bool.not_false, if_true]
      constructor
      · intro h; cases h
      · rintro ⟨_, user', hu', hadmin', _⟩
        cases hu'
        exact absurd hadmin' hadmin

/-- C14. `requireAdmin` calls the next handler exactly when `req.user` is
present, `req.user.isAdmin` is true and an admin with id `req.user.id` is
stored; it answers 401 without a user and 403 for a user who is not an admin
or whose admin record is missing.  On a route guarded by `verifyToken` and
`requireAdmin` the handler runs only on a request that passed both, and a
rejection by `requireAdmin` is the route's answer. -/
theorem requireAdmin_gate {β : Type} (crypto : Crypto) (config : Config) (nowMs : Nat)
    (handler : Request → Store → β) (req : Request) (s : Store) :
    (∀ req', requireAdmin req s = .next req' ↔
      req' = req ∧ ∃ user, req.user = some user ∧ user.isAdmin = true ∧
        ∃ a ∈ s.admins, a.id = user.id) ∧
    (req.user = none → requireAdmin req s = .respond 401 "Authentication required.") ∧
    (∀ user, req.user = some user → user.isAdmin = false →
      requireAdmin req s = .respond 403 "Admin access required.") ∧
    (∀ user, req.user = some user → user.isAdmin = true →
      (∀ a ∈ s.admins, a.id ≠ user.id) →
      requireAdmin req s = .respond 403 "Admin account not found.") ∧
    (∀ result, adminRoute crypto config nowMs handler req s = .handled result →
      ∃ req1 user, verifyToken crypto config nowMs req = .next req1 ∧
        req1.user = some user ∧ user.isAdmin = true ∧
        (∃ a ∈ s.admins, a.id = user.id) ∧ result = handler req1 s) ∧
    (∀ req1 status error, verifyToken crypto config nowMs req = .next req1 →
      requireAdmin req1 s = .respond status error →
      adminRoute crypto config nowMs handler req s = .rejected status error) := by
  refine ⟨fun req' => requireAdmin_next_iff req req' s, ?_, ?_, ?_, ?_, ?_⟩
  · intro h
    simp [requireAdmin, h]
  · intro user hu hadmin
    simp [requireAdmin, hu, hadmin]
  · intro user hu hadmin hnone
    have hf := (Database.findById_eq_none_iff s.admins user.id).mpr hnone
    simp [requireAdmin, hu, hadmin, Adapter.findById, hf]
  · intro result h
    unfold adminRoute at h
    cases hv : verifyToken crypto config nowMs req with
    | respond st e => simp [hv] at h
    | next req1 =>
      simp only [hv] at h
      cases hr : requireAdmin req1 s with
      | respond st e => simp [hr] at h
      | next req2 =>
        simp only [hr] at h
        obtain ⟨heq, user, hu, hadmin, hex⟩ := (requireAdmin_next_iff req1 req2 s).mp hr
        subst heq
        cases h
        exact ⟨req2, user, rfl, hu, hadmin, hex, rfl⟩
  · intro req1 status error hv hr
    simp [adminRoute, hv, hr]

/-- Worked instance of C14: in the sample shop the admin's request passes
`requireAdmin`, the user's request is answered 403 and a request without user
401. -/
theorem requireAdmin_gate_witness :
    requireAdmin { authorization := none, user := some sampleAdminPayload } sampleShop =
      .next { authorization := none, user := some sampleAdminPayload } ∧
    requireAdmin { authorization := none, user := some samplePayload } sampleShop =
      .respond 403 "Admin access required." ∧
    requireAdmin { authorization := none, user := none } sampleShop =
      .respond 401 "Authentication required." :=
  ⟨((requireAdmin_gate sampleCrypto defaultConfig 0 (fun _ _ => 0)
      { authorization := none, user := some sampleAdminPayload } sampleShop).1
      { authorization := none, user := some sampleAdminPayload }).mpr
      ⟨rfl, sampleAdminPayload, rfl, rfl, sampleAdmin, by decide, rfl⟩,
    (requireAdmin_gate sampleCrypto defaultConfig 0 (fun _ _ => 0)
      { authorization := none, user := some samplePayload } sampleShop).2.2.1
      samplePayload rfl rfl,
    (requireAdmin_gate sampleCrypto defaultConfig 0 (fun _ _ => 0)
      { authorization := none, user := none } sampleShop).2.1 rfl⟩

/-! ### `getOrder` -/

/-- C15. On the JSON backend `getOrder` answers 404 for an id without stored
order.  For a stored order, a requester who is not an admin and has a
non-empty id receives the order exactly when the order's user is the
requester's id, and is answered 403 otherwise, in particular for every guest
order (user `null`); an admin requester always receives the order. -/
theorem getOrder_access (user : Payload) (id : String) (s : Store) :
    (Adapter.findById s.orders id = none →
      getOrder user id s = ⟨404, .error "Order not found"⟩) ∧
    (∀ order, Adapter.findById s.orders id = some order →
      (user.isAdmin = true → getOrder user id s = ⟨200, .ok order⟩) ∧
      (user.isAdmin = false → user.id ≠ "" →
        (getOrder user id s = ⟨200, .ok order⟩ ↔ order.user = some user.id) ∧
        (order.user ≠ some user.id → getOrder user id s = ⟨403, .error "Access denied"⟩)) ∧
      (user.isAdmin = false → order.user = none →
        getOrder user id s = ⟨403, .error "Access denied"⟩)) := by
  refine ⟨?_, ?_⟩
  · intro h
    simp [getOrder, h]
  · intro order hf
    refine ⟨?_, ?_, ?_⟩
    · intro hadmin
      simp [getOrder, hf, hadmin]
    · intro hadmin hid
      have hdeny : order.user ≠ some user.id →
          getOrder user id s = ⟨403, .error "Access denied"⟩ := by
        intro hne
        cases hou : order.user with
        | none => simp [getOrder, hf, hadmin, hou]
        | some u =>
          have hu : ¬ u = user.id := fun h => hne (by rw [hou, h])
          by_cases hempty : u = ""
          · simp [getOrder, hf, hadmin, hou, hempty]
          · simp [getOrder, hf, hadmin, hou, hempty, hu]
      refine ⟨⟨?_, ?_⟩, hdeny⟩
      · intro h200
        by_contra hne
        rw [hdeny hne] at h200
        have := congrArg Response.status h200
        simp at this
      · intro hou
        simp [getOrder, hf, hadmin, hou, hid]
    · intro hadmin hou
      simp [getOrder, hf, hadmin, hou]

/-- Worked instance of C15: in the sample shop the order `O1` of user `U1`
is returned to `U1`. -/
theorem getOrder_access_witness :
    getOrder samplePayload "O1" sampleShop = ⟨200, .ok sampleOrder⟩ :=
  ((((getOrder_access samplePayload "O1" sampleShop).2 sampleOrder (by decide)).2.1
    rfl (by decide)).1).mpr rfl

/-! ### `initializeDefaultAdmin` -/

/-- C16. With an empty admins file `initializeDefaultAdmin` creates exactly
one admin, with email `admin@himorganic.com` and role `super_admin`; with at
least one admin stored it changes nothing; hence running it a second time
leaves the store the first run produced, with the same number of admins. -/
theorem initializeDefaultAdmin_once (crypto : Crypto) (config : Config) (env env' : Env)
    (arraySort : (Admin → Admin → Int) → List Admin → List Admin) (s : Store) :
    (s.admins = [] →
      ∃ a, (initializeDefaultAdmin crypto config env arraySort s).admins = [a] ∧
        a.email = "admin@himorganic.com" ∧ a.role = "super_admin") ∧
    (s.admins ≠ [] → initializeDefaultAdmin crypto config env arraySort s = s) ∧
    initializeDefaultAdmin crypto config env' arraySort
        (initializeDefaultAdmin crypto config env arraySort s) =
      initializeDefaultAdmin crypto config env arraySort s ∧
    (initializeDefaultAdmin crypto config env' arraySort
        (initializeDefaultAdmin crypto config env arraySort s)).admins.length =
      (initializeDefaultAdmin crypto config env arraySort s).admins.length := by
  have hlen : ∀ t : Store, (Adapter.findMany arraySort t.admins [] {}).length =
      t.admins.length := by
    intro t
    simp [Adapter.findMany, Database.findMany]
  have hkeep : ∀ (e : Env) (t : Store), t.admins ≠ [] →
      initializeDefaultAdmin crypto config e arraySort t = t := by
    intro e t hne
    have : ¬ t.admins.length = 0 := fun h => hne (List.length_eq_zero.mp h)
    simp [initializeDefaultAdmin, hlen, this]
  have hcreate : s.admins = [] →
      ∃ a, (initializeDefaultAdmin crypto config env arraySort s).admins = [a] ∧
        a.email = "admin@himorganic.com" ∧ a.role = "super_admin" := by
    intro hs
    simp only [initializeDefaultAdmin, hlen, hs, List.length_nil, if_true, Adapter.create,
      Database.create, List.nil_append]
    refine ⟨_, rfl, ?_, ?_⟩
    · split <;> rfl
    · split <;> rfl
  have hidem : initializeDefaultAdmin crypto config env' arraySort
        (initializeDefaultAdmin crypto config env arraySort s) =
      initializeDefaultAdmin crypto config env arraySort s := by
    apply hkeep
    by_cases hs : s.admins = []
    · obtain ⟨a, ha, _⟩ := hcreate hs
      rw [ha]
      simp
    · rw [hkeep env s hs]; exact hs
  exact ⟨hcreate, hkeep env s, hidem, by rw [hidem]⟩

/-- Worked instance of C16: the default admin is created in the sample auth
store, whose admins file is empty, and kept as it is in the sample shop. -/
theorem initializeDefaultAdmin_once_witness :
    (∃ a, (initializeDefaultAdmin sampleCrypto defaultConfig sampleEnv sampleSort
        sampleAuthStore).admins = [a] ∧
      a.email = "admin@himorganic.com" ∧ a.role = "super_admin") ∧
    initializeDefaultAdmin sampleCrypto defaultConfig sampleEnv sampleSort sampleShop =
      sampleShop :=
  ⟨(initializeDefaultAdmin_once sampleCrypto defaultConfig sampleEnv sampleEnv sampleSort
      sampleAuthStore).1 rfl,
    (initializeDefaultAdmin_once sampleCrypto defaultConfig sampleEnv sampleEnv sampleSort
      sampleShop).2.1 (by decide)⟩

/-! ### What the operations do to the orders file -/

theorem Database.update_getElem? {α : Type} [Record α] (xs : List α) (id : String)
    (f : α → α) (now : String) (i : Nat) (x : α) (hx : xs[i]? = some x) :
    (Database.update xs id f now).2[i]? = some x ∨
    (Database.update xs id f now).2[i]? = some (Record.withUpdatedAt (f x) now) := by
  induction xs generalizing i with
  | nil => simp at hx
  | cons y ys ih =>
    rw [Database.update_cons]
    by_cases hy : Record.id y = id
    · rw [if_pos hy]
      cases i with
      | zero =>
        simp at hx
        subst hx
        right; simp
      | succ j => left; simpa using hx
    · rw [if_neg hy]
      cases i with
      | zero => left; simpa using hx
      | succ j =>
        simp at hx
        simpa using ih j hx

theorem Database.update_mem {α : Type} [Record α] (xs : List α) (id : String)
    (f : α → α) (now : String) (y : α) (hy : y ∈ (Database.update xs id f now).2) :
    y ∈ xs ∨ ∃ x ∈ xs, y = Record.withUpdatedAt (f x) now := by
  induction xs with
  | nil => simp [Database.update_nil] at hy
  | cons z zs ih =>
    rw [Database.update_cons] at hy
    by_cases hz : Record.id z = id
    · rw [if_pos hz] at hy
      simp only [List.mem_cons] at hy
      rcases hy with h | h
      · right; exact ⟨z, by simp, h⟩
      · left; simp [h]
    · rw [if_neg hz] at hy
      simp only [List.mem_cons] at hy
      rcases hy with h | h
      · left; simp [h]
      · rcases ih h with h1 | ⟨x, hx, h1⟩
        · left; simp [h1]
        · right; exact ⟨x, by simp [hx], h1⟩

theorem statusUpdates_fixedPart (env : Env) (admin : Payload) (body : StatusBody)
    (order stored : Order) (now : String) :
    (Record.withUpdatedAt (statusUpdates env admin body order stored) now).fixedPart =
      stored.fixedPart := by
  unfold statusUpdates
  split_ifs <;> rfl

theorem updateOrderStatus_orders (env : Env) (admin : Payload) (id : String)
    (body : StatusBody) (s : Store) :
    (updateOrderStatus env admin id body s).2.orders = s.orders ∨
    ∃ order, Adapter.findById s.orders id = some order ∧
      (truthy body.status = true → body.status.getD "" ∈ validStatuses) ∧
      (truthy body.paymentStatus = true → body.paymentStatus.getD "" ∈ validPaymentStatuses) ∧
      (updateOrderStatus env admin id body s).2.orders =
        (Database.update s.orders id (statusUpdates env admin body order) env.now).2 := by
  unfold updateOrderStatus
  cases hf : Adapter.findById s.orders id with
  | none => left; rfl
  | some order =>
    simp only []
    by_cases h1 : (truthy body.status && !validStatuses.contains (body.status.getD "")) = true
    · left; rw [if_pos h1]
    · by_cases h2 : (truthy body.paymentStatus &&
          !validPaymentStatuses.contains (body.paymentStatus.getD "")) = true
      · left; rw [if_neg h1, if_pos h2]
      · right
        refine ⟨order, rfl, ?_, ?_, ?_⟩
        · intro ht
          simpa [ht] using h1
        · intro ht
          simpa [ht] using h2
        · rw [if_neg h1, if_neg h2]
          rfl

theorem Adapter.create_order_status (data : List Order) (item : Order)
    (freshId now : String) :
    (Adapter.create data item freshId now).1.status = item.status ∧
    (Adapter.create data item freshId now).1.paymentStatus = item.paymentStatus ∧
    (Adapter.create data item freshId now).1.statusHistory = item.statusHistory := by
  simp only [Adapter.create, Database.create]
  by_cases h : Record.id item = ""
  · simp [h, Record.withId, Record.withCreatedAt, Record.withUpdatedAt]
  · simp [h, Record.withCreatedAt, Record.withUpdatedAt]

/-- The order a 201 response stores starts as pending, with one history entry. -/
theorem createOrder_pending (env : Env) (user : Option Payload) (body : CreateOrderBody)
    (s : Store) (h : (createOrder env user body s).1.status = 201) :
    ∃ order, (createOrder env user body s).1.body = .ok order ∧
      (createOrder env user body s).2.orders = s.orders ++ [order] ∧
      order.status = "pending" ∧ order.paymentStatus = "pending" ∧
      order.statusHistory =
        [{ status := "pending", timestamp := env.now, note := some "Order placed",
           updatedBy := none }] := by
  unfold createOrder at h ⊢
  cases hi : body.items with
  | none => simp [hi] at h
  | some items =>
    simp only [hi] at h ⊢
    by_cases hlen : items.length = 0
    · simp [hlen] at h
    · simp only [hlen, if_false] at h ⊢
      cases hc : body.customer with
      | none => simp [hc] at h
      | some customer =>
        simp only [hc] at h ⊢
        by_cases hv : (!truthy customer.name || !truthy customer.email ||
            !truthy customer.address) = true
        · simp [hv] at h
        · simp only [hv, if_false] at h ⊢
          cases hl : orderLoop env.now items s.products 0 [] with
          | fail e ps => simp [hl] at h
          | done total orderItems products =>
            simp only [hl] at h ⊢
            clear h
            exact ⟨_, rfl, Adapter.create_appends _ _ _ _,
              (Adapter.create_order_status _ _ _ _).1,
              (Adapter.create_order_status _ _ _ _).2.1,
              (Adapter.create_order_status _ _ _ _).2.2⟩

/-- The orders file after `createOrder` is the one before, unless the answer
is 201. -/
theorem createOrder_orders_unchanged (env : Env) (user : Option Payload)
    (body : CreateOrderBody) (s : Store) (h : (createOrder env user body s).1.status ≠ 201) :
    (createOrder env user body s).2.orders = s.orders := by
  unfold createOrder at h ⊢
  cases hi : body.items with
  | none => rfl
  | some items =>
    simp only [hi] at h ⊢
    by_cases hlen : items.length = 0
    · simp [hlen]
    · simp only [hlen, if_false] at h ⊢
      cases hc : body.customer with
      | none => rfl
      | some customer =>
        simp only [hc] at h ⊢
        by_cases hv : (!truthy customer.name || !truthy customer.email ||
            !truthy customer.address) = true
        · simp [hv]
        · simp only [hv, if_false] at h ⊢
          cases hl : orderLoop env.now items s.products 0 [] with
          | fail e ps => rfl
          | done total orderItems products =>
            simp only [hl] at h
            exact absurd rfl h

theorem createOrder_orders (env : Env) (user : Option Payload) (body : CreateOrderBody)
    (s : Store) :
    (createOrder env user body s).2.orders = s.orders ∨
    ∃ order, (createOrder env user body s).1.status = 201 ∧
      (createOrder env user body s).2.orders = s.orders ++ [order] ∧
      order.status = "pending" ∧ order.paymentStatus = "pending" := by
  by_cases h : (createOrder env user body s).1.status = 201
  · right
    obtain ⟨order, _, ho, hs, hp, _⟩ := createOrder_pending env user body s h
    exact ⟨order, h, ho, hs, hp⟩
  · left
    exact createOrder_orders_unchanged env user body s h

theorem deleteProduct_orders (id : String) (s : Store) :
    (deleteProduct id s).2.orders = s.orders := by
  unfold deleteProduct
  split <;> rfl

theorem register_orders (crypto : Crypto) (config : Config) (env : Env) (body : RegisterBody)
    (s : Store) : (register crypto config env body s).2.orders = s.orders := by
  unfold register
  split_ifs
  · rfl
  · rfl
  · split <;> rfl

theorem login_orders (crypto : Crypto) (config : Config) (env : Env) (body : LoginBody)
    (s : Store) : (login crypto config env body s).2.orders = s.orders := by
  unfold login
  split_ifs
  · rfl
  · dsimp only
    split
    · rfl
    · split_ifs <;> rfl

theorem adminLogin_orders (crypto : Crypto) (config : Config) (env : Env) (body : LoginBody)
    (s : Store) : (adminLogin crypto config env body s).2.orders = s.orders := by
  unfold adminLogin
  split_ifs
  · rfl
  · dsimp only
    split
    · rfl
    · split_ifs <;> rfl

theorem refreshToken_orders (crypto : Crypto) (config : Config) (env : Env)
    (body : RefreshBody) (s : Store) :
    (refreshToken crypto config env body s).2.orders = s.orders := by
  unfold refreshToken
  split_ifs
  · rfl
  · dsimp only
    split
    · rfl
    · split
      · rfl
      · split <;> rfl

theorem initializeDefaultAdmin_orders (crypto : Crypto) (config : Config) (env : Env)
    (arraySort : (Admin → Admin → Int) → List Admin → List Admin) (s : Store) :
    (initializeDefaultAdmin crypto config env arraySort s).orders = s.orders := by
  unfold initializeDefaultAdmin
  split_ifs <;> rfl

theorem getProduct_orders (env : Env) (id : String) (s : Store) :
    (getProduct env id s).2.orders = s.orders := by
  unfold getProduct
  split <;> rfl

theorem createProduct_orders (env : Env) (admin : Payload) (body : ProductBody) (s : Store) :
    (createProduct env admin body s).2.orders = s.orders := by
  unfold createProduct
  split_ifs <;> rfl

theorem updateProduct_orders (env : Env) (id : String) (body : ProductBody) (s : Store) :
    (updateProduct env id body s).2.orders = s.orders := by
  unfold updateProduct
  split <;> rfl

theorem logout_orders (body : RefreshBody) (s : Store) :
    (logout body s).2.orders = s.orders := rfl

theorem updateProfile_orders (crypto : Crypto) (config : Config) (env : Env) (user : Payload)
    (body : ProfileBody) (s : Store) :
    (updateProfile crypto config env user body s).2.orders = s.orders := by
  unfold updateProfile
  split_ifs <;> rfl

/-- Every operation leaves each stored order in place with its fixed part. -/
theorem operation_keeps_orders (op : Operation) (s : Store) (i : Nat) (o : Order)
    (ho : s.orders[i]? = some o) :
    ∃ o', (op.run s).orders[i]? = some o' ∧ o'.fixedPart = o.fixedPart := by
  have hsame : ∀ t : Store, t.orders = s.orders →
      ∃ o', t.orders[i]? = some o' ∧ o'.fixedPart = o.fixedPart :=
    fun t ht => ⟨o, by rw [ht]; exact ho, rfl⟩
  cases op with
  | createOrder env user body =>
    rcases createOrder_orders env user body s with h | ⟨order, _, h, _⟩
    · exact hsame _ h
    · refine ⟨o, ?_, rfl⟩
      have hrun : (Operation.createOrder env user body).run s =
          (createOrder env user body s).2 := rfl
      rw [hrun, h]
      have hlt : i < s.orders.length := (List.getElem?_eq_some.mp ho).1
      rw [List.getElem?_append_left hlt]
      exact ho
  | updateOrderStatus env admin id body =>
    rcases updateOrderStatus_orders env admin id body s with h | ⟨order, _, _, _, h⟩
    · exact hsame _ h
    · have hrun : (Operation.updateOrderStatus env admin id body).run s =
          (updateOrderStatus env admin id body s).2 := rfl
      rw [hrun, h]
      rcases Database.update_getElem? s.orders id (statusUpdates env admin body order) env.now
        i o ho with h1 | h1
      · exact ⟨o, h1, rfl⟩
      · exact ⟨_, h1, statusUpdates_fixedPart env admin body order o env.now⟩
  | deleteProduct id => exact hsame _ (deleteProduct_orders id s)
  | register crypto config env body => exact hsame _ (register_orders crypto config env body s)
  | login crypto config env body => exact hsame _ (login_orders crypto config env body s)
  | adminLogin crypto config env body =>
    exact hsame _ (adminLogin_orders crypto config env body s)
  | refreshToken crypto config env body =>
    exact hsame _ (refreshToken_orders crypto config env body s)
  | initializeDefaultAdmin crypto config env arraySort =>
    exact hsame _ (initializeDefaultAdmin_orders crypto config env arraySort s)
  | getProduct env id => exact hsame _ (getProduct_orders env id s)
  | createProduct env admin body => exact hsame _ (createProduct_orders env admin body s)
  | updateProduct env id body => exact hsame _ (updateProduct_orders env id body s)
  | logout body => exact hsame _ (logout_orders body s)
  | updateProfile crypto config env user body =>
    exact hsame _ (updateProfile_orders crypto config env user body s)

theorem runAll_keeps_orders (ops : List Operation) :
    ∀ (s : Store) (i : Nat) (o : Order), s.orders[i]? = some o →
      ∃ o', (runAll ops s).orders[i]? = some o' ∧ o'.fixedPart = o.fixedPart := by
  induction ops with
  | nil => intro s i o ho; exact ⟨o, ho, rfl⟩
  | cons op ops ih =>
    intro s i o ho
    obtain ⟨o1, h1, hfix1⟩ := operation_keeps_orders op s i o ho
    obtain ⟨o2, h2, hfix2⟩ := ih (op.run s) i o1 h1
    exact ⟨o2, h2, hfix2.trans hfix1⟩

theorem statusUpdates_status (env : Env) (admin : Payload) (body : StatusBody)
    (order stored : Order) (now : String) :
    (Record.withUpdatedAt (statusUpdates env admin body order stored) now).status =
      (if truthy body.status then body.status.getD "" else stored.status) ∧
    (Record.withUpdatedAt (statusUpdates env admin body order stored) now).paymentStatus =
      (if truthy body.paymentStatus then body.paymentStatus.getD ""
        else stored.paymentStatus) := by
  unfold statusUpdates
  constructor <;> split_ifs <;> rfl

theorem StatusesValid_of_orders_eq (s t : Store) (h : t.orders = s.orders)
    (hs : StatusesValid s) : StatusesValid t := by
  intro o ho
  rw [h] at ho
  exact hs o ho

theorem createOrder_keeps_valid (env : Env) (user : Option Payload) (body : CreateOrderBody)
    (s : Store) (hs : StatusesValid s) : StatusesValid (createOrder env user body s).2 := by
  rcases createOrder_orders env user body s with h | ⟨order, _, h, hst, hpay⟩
  · exact StatusesValid_of_orders_eq s _ h hs
  · intro o ho
    rw [h, List.mem_append] at ho
    rcases ho with ho | ho
    · exact hs o ho
    · simp only [List.mem_singleton] at ho
      subst ho
      rw [hst, hpay]
      exact ⟨by decide, by decide⟩

theorem updateOrderStatus_keeps_valid (env : Env) (admin : Payload) (id : String)
    (body : StatusBody) (s : Store) (hs : StatusesValid s) :
    StatusesValid (updateOrderStatus env admin id body s).2 := by
  rcases updateOrderStatus_orders env admin id body s with h | ⟨order, _, hst, hpay, h⟩
  · exact StatusesValid_of_orders_eq s _ h hs
  · intro o ho
    rw [h] at ho
    rcases Database.update_mem _ _ _ _ o ho with h1 | ⟨x, hx, h1⟩
    · exact hs o h1
    · rw [h1, (statusUpdates_status env admin body order x env.now).1,
        (statusUpdates_status env admin body order x env.now).2]
      constructor
      · by_cases ht : truthy body.status = true
        · rw [if_pos ht]; exact hst ht
        · rw [if_neg ht]; exact (hs x hx).1
      · by_cases ht : truthy body.paymentStatus = true
        · rw [if_pos ht]; exact hpay ht
        · rw [if_neg ht]; exact (hs x hx).2

theorem operation_keeps_valid (op : Operation) (s : Store) (hs : StatusesValid s) :
    StatusesValid (op.run s) := by
  cases op with
  | createOrder env user body => exact createOrder_keeps_valid env user body s hs
  | updateOrderStatus env admin id body =>
    exact updateOrderStatus_keeps_valid env admin id body s hs
  | deleteProduct id => exact StatusesValid_of_orders_eq s _ (deleteProduct_orders id s) hs
  | register crypto config env body =>
    exact StatusesValid_of_orders_eq s _ (register_orders crypto config env body s) hs
  | login crypto config env body =>
    exact StatusesValid_of_orders_eq s _ (login_orders crypto config env body s) hs
  | adminLogin crypto config env body =>
    exact StatusesValid_of_orders_eq s _ (adminLogin_orders crypto config env body s) hs
  | refreshToken crypto config env body =>
    exact StatusesValid_of_orders_eq s _ (refreshToken_orders crypto config env body s) hs
  | initializeDefaultAdmin crypto config env arraySort =>
    exact StatusesValid_of_orders_eq s _
      (initializeDefaultAdmin_orders crypto config env arraySort s) hs
  | getProduct env id => exact StatusesValid_of_orders_eq s _ (getProduct_orders env id s) hs
  | createProduct env admin body =>
    exact StatusesValid_of_orders_eq s _ (createProduct_orders env admin body s) hs
  | updateProduct env id body =>
    exact StatusesValid_of_orders_eq s _ (updateProduct_orders env id body s) hs
  | logout body => exact StatusesValid_of_orders_eq s _ (logout_orders body s) hs
  | updateProfile crypto config env user body =>
    exact StatusesValid_of_orders_eq s _
      (updateProfile_orders crypto config env user body s) hs

theorem runAll_keeps_valid (ops : List Operation) :
    ∀ s : Store, StatusesValid s → StatusesValid (runAll ops s) := by
  induction ops with
  | nil => intro s hs; exact hs
  | cons op ops ih => intro s hs; exact ih _ (operation_keeps_valid op s hs)

/-! ### Claims about stored orders -/

/-- C17. Stored orders are immutable apart from status bookkeeping: after any
sequence of operations every stored order is still at its position with the
same id, order number, user, items, customer, payment method, subtotal,
shipping, total and creation time, so no operation deletes an order;
`updateOrderStatus` in particular changes nothing of an order beyond `status`,
`statusHistory`, `paymentStatus`, `paymentDetails.paidAt` and `updatedAt`; and
the order a 201 response of `createOrder` stored keeps its fixed part through
every later sequence of operations. -/
theorem orders_immutable_apart_from_status (ops : List Operation) (s : Store) :
    (∀ (i : Nat) (o : Order), s.orders[i]? = some o →
      ∃ o', (runAll ops s).orders[i]? = some o' ∧ o'.fixedPart = o.fixedPart ∧
        o'.items = o.items ∧ o'.customer = o.customer ∧ o'.subtotal = o.subtotal ∧
        o'.shipping = o.shipping ∧ o'.total = o.total) ∧
    s.orders.length ≤ (runAll ops s).orders.length ∧
    (∀ (env : Env) (admin : Payload) (id : String) (body : StatusBody) (i : Nat) (o : Order),
      s.orders[i]? = some o →
      ∃ o', (updateOrderStatus env admin id body s).2.orders[i]? = some o' ∧
        o'.fixedPart = o.fixedPart) ∧
    (∀ (env : Env) (user : Option Payload) (body : CreateOrderBody),
      (createOrder env user body s).1.status = 201 →
      ∃ order, (createOrder env user body s).1.body = .ok order ∧
        ∃ o', (runAll ops (createOrder env user body s).2).orders[s.orders.length]? = some o' ∧
          o'.fixedPart = order.fixedPart) := by
  have hpos : ∀ (i : Nat) (o : Order), s.orders[i]? = some o →
      ∃ o', (runAll ops s).orders[i]? = some o' ∧ o'.fixedPart = o.fixedPart :=
    runAll_keeps_orders ops s
  refine ⟨?_, ?_, ?_, ?_⟩
  · intro i o ho
    obtain ⟨o', h1, hfix⟩ := hpos i o ho
    have hfix' := hfix
    simp only [Order.fixedPart, Prod.mk.injEq] at hfix'
    exact ⟨o', h1, hfix, hfix'.2.2.2.1, hfix'.2.2.2.2.1, hfix'.2.2.2.2.2.2.1,
      hfix'.2.2.2.2.2.2.2.1, hfix'.2.2.2.2.2.2.2.2.1⟩
  · by_contra hlt
    have hlt' : (runAll ops s).orders.length < s.orders.length := by omega
    obtain ⟨o', h1, _⟩ := hpos (runAll ops s).orders.length
      (s.orders[(runAll ops s).orders.length]) (List.getElem?_eq_getElem hlt')
    have := (List.getElem?_eq_some.mp h1).1
    omega
  · intro env admin id body i o ho
    exact operation_keeps_orders (.updateOrderStatus env admin id body) s i o ho
  · intro env user body h
    obtain ⟨order, hb, hord, _⟩ := createOrder_pending env user body s h
    refine ⟨order, hb, ?_⟩
    apply runAll_keeps_orders ops
    rw [hord]
    simp

/-- Worked instance of C17: the order of the sample shop after its status is
set to shipped and paid and a further order is placed. -/
theorem orders_immutable_apart_from_status_witness :
    sampleShop.orders[0]? = some sampleOrder ∧
    ∃ o', (runAll
        [.updateOrderStatus sampleEnv sampleAdminPayload "O1"
          { status := some "shipped", paymentStatus := some "paid" },
         .createOrder sampleEnv none (sampleOrderBody [⟨"P", 1⟩])]
        sampleShop).orders[0]? = some o' ∧
      o'.fixedPart = sampleOrder.fixedPart ∧
      o'.items = sampleOrder.items ∧ o'.customer = sampleOrder.customer ∧
      o'.subtotal = sampleOrder.subtotal ∧ o'.shipping = sampleOrder.shipping ∧
      o'.total = sampleOrder.total :=
  ⟨rfl,
    (orders_immutable_apart_from_status
      [.updateOrderStatus sampleEnv sampleAdminPayload "O1"
        { status := some "shipped", paymentStatus := some "paid" },
       .createOrder sampleEnv none (sampleOrderBody [⟨"P", 1⟩])]
      sampleShop).1 0 sampleOrder rfl⟩

/-- C18. `createOrder` answers 400 and leaves the whole store (products,
orders and users included) unchanged whenever `items` is missing or empty, or
`customer` is missing or lacks a name, an email or an address. -/
theorem createOrder_rejects_incomplete (env : Env) (user : Option Payload)
    (body : CreateOrderBody) (s : Store)
    (h : body.items = none ∨ body.items = some [] ∨ body.customer = none ∨
      ∃ c, body.customer = some c ∧
        (truthy c.name = false ∨ truthy c.email = false ∨ truthy c.address = false)) :
    (createOrder env user body s).1.status = 400 ∧ (createOrder env user body s).2 = s := by
  unfold createOrder
  cases hi : body.items with
  | none => exact ⟨rfl, rfl⟩
  | some items =>
    simp only []
    by_cases hlen : items.length = 0
    · simp [hlen]
    · simp only [hlen, if_false]
      have hne : items ≠ [] := fun h0 => hlen (by rw [h0]; rfl)
      rcases h with h | h | h | ⟨c, hc, h⟩
      · rw [hi] at h; cases h
      · rw [hi] at h; cases h; exact absurd rfl hne
      · simp [h]
      · simp only [hc]
        rcases h with h | h | h <;> simp [h]

/-- Worked instance of C18: an order request without items on the sample store. -/
theorem createOrder_rejects_incomplete_witness :
    (createOrder sampleEnv none
      { items := some [], customer := some sampleCustomer, paymentMethod := none }
      sampleStore).1.status = 400 ∧
    (createOrder sampleEnv none
      { items := some [], customer := some sampleCustomer, paymentMethod := none }
      sampleStore).2 = sampleStore :=
  createOrder_rejects_incomplete sampleEnv none
    { items := some [], customer := some sampleCustomer, paymentMethod := none } sampleStore
    (Or.inr (Or.inl rfl))

/-- C19. For a stored order, `updateOrderStatus` answers 400 and leaves the
store unchanged when the given status is outside `validStatuses` or the given
payment status is outside `validPaymentStatuses` (whatever the other field).
Consequently the statuses of all stored orders stay in the two lists under
`updateOrderStatus`, under `createOrder` and under every sequence of
operations, in particular from a store without orders. -/
theorem updateOrderStatus_validates (env : Env) (admin : Payload) (id : String)
    (body : StatusBody) (s : Store) :
    (∀ order, Adapter.findById s.orders id = some order →
      ((truthy body.status = true ∧ body.status.getD "" ∉ validStatuses) ∨
        (truthy body.paymentStatus = true ∧
          body.paymentStatus.getD "" ∉ validPaymentStatuses)) →
      (updateOrderStatus env admin id body s).1.status = 400 ∧
      (updateOrderStatus env admin id body s).2 = s) ∧
    (StatusesValid s → StatusesValid (updateOrderStatus env admin id body s).2) ∧
    (∀ (env' : Env) (user : Option Payload) (order : CreateOrderBody),
      StatusesValid s → StatusesValid (createOrder env' user order s).2) ∧
    (∀ ops, StatusesValid s → StatusesValid (runAll ops s)) ∧
    (∀ ops, s.orders = [] → StatusesValid (runAll ops s)) := by
  refine ⟨?_, updateOrderStatus_keeps_valid env admin id body s,
    fun env' user order => createOrder_keeps_valid env' user order s,
    fun ops => runAll_keeps_valid ops s, ?_⟩
  · intro order hf hbad
    unfold updateOrderStatus
    simp only [hf]
    by_cases h1 : (truthy body.status && !validStatuses.contains (body.status.getD "")) = true
    · rw [if_pos h1]
      exact ⟨rfl, rfl⟩
    · rw [if_neg h1]
      have h2 : (truthy body.paymentStatus &&
          !validPaymentStatuses.contains (body.paymentStatus.getD "")) = true := by
        rcases hbad with ⟨ht, hn⟩ | ⟨ht, hn⟩
        · exfalso
          apply h1
          simp [ht, hn]
        · simp [ht, hn]
      rw [if_pos h2]
      exact ⟨rfl, rfl⟩
  · intro ops hempty
    apply runAll_keeps_valid
    intro o ho
    rw [hempty] at ho
    cases ho

/-- Worked instance of C19: in the sample shop a valid status together with
an invalid payment status is refused and nothing is stored, and the statuses
stay valid through a status update and a further order. -/
theorem updateOrderStatus_validates_witness :
    (updateOrderStatus sampleEnv sampleAdminPayload "O1"
      { status := some "shipped", paymentStatus := some "free" } sampleShop).1.status = 400 ∧
    (updateOrderStatus sampleEnv sampleAdminPayload "O1"
      { status := some "shipped", paymentStatus := some "free" } sampleShop).2 = sampleShop ∧
    StatusesValid (runAll
      [.updateOrderStatus sampleEnv sampleAdminPayload "O1"
        { status := some "shipped", paymentStatus := some "paid" },
       .createOrder sampleEnv none (sampleOrderBody [⟨"P", 1⟩])]
      sampleShop) :=
  ⟨((updateOrderStatus_validates sampleEnv sampleAdminPayload "O1"
      { status := some "shipped", paymentStatus := some "free" } sampleShop).1
      sampleOrder (by decide) (Or.inr ⟨by decide, by decide⟩)).1,
    ((updateOrderStatus_validates sampleEnv sampleAdminPayload "O1"
      { status := some "shipped", paymentStatus := some "free" } sampleShop).1
      sampleOrder (by decide) (Or.inr ⟨by decide, by decide⟩)).2,
    (updateOrderStatus_validates sampleEnv sampleAdminPayload "O1"
      { status := some "shipped", paymentStatus := some "free" } sampleShop).2.2.2.1
      [.updateOrderStatus sampleEnv sampleAdminPayload "O1"
        { status := some "shipped", paymentStatus := some "paid" },
       .createOrder sampleEnv none (sampleOrderBody [⟨"P", 1⟩])]
      (by
        intro o ho
        simp only [sampleShop, List.mem_singleton] at ho
        subst ho
        exact ⟨by decide, by decide⟩)⟩

/-! ### Issued token pairs -/

theorem Adapter.create_session_fields (data : List Session) (item : Session)
    (freshId now : String) :
    (Adapter.create data item freshId now).1.userId = item.userId ∧
    (Adapter.create data item freshId now).1.refreshToken = item.refreshToken ∧
    (Adapter.create data item freshId now).1.isAdmin = item.isAdmin ∧
    (Adapter.create data item freshId now).1.userType = item.userType := by
  simp only [Adapter.create, Database.create]
  by_cases h : Record.id item = ""
  · simp [h, Record.withId, Record.withCreatedAt, Record.withUpdatedAt]
  · simp [h, Record.withCreatedAt, Record.withUpdatedAt]

theorem generateTokens_issued (crypto : Crypto) (config : Config) (env : Env) (slot : Nat)
    (id email name : String) (isAdmin : Bool) (sessions : List Session) :
    ∃ session,
      (generateTokens crypto config env slot id email name isAdmin sessions).2 =
        sessions ++ [session] ∧
      IssuedFor crypto config env id email name isAdmin
        (generateTokens crypto config env slot id email name isAdmin sessions).1.1
        (generateTokens crypto config env slot id email name isAdmin sessions).1.2 session := by
  refine ⟨_, Adapter.create_appends _ _ _ _, rfl, rfl, ?_, ?_, ?_, ?_⟩
  · exact (Adapter.create_session_fields _ _ _ _).1
  · exact (Adapter.create_session_fields _ _ _ _).2.1
  · exact (Adapter.create_session_fields _ _ _ _).2.2.1
  · rw [(Adapter.create_session_fields _ _ _ _).2.2.2]
    cases isAdmin <;> simp

theorem login_issued (crypto : Crypto) (config : Config) (env : Env) (body : LoginBody)
    (s : Store) (h : (login crypto config env body s).1.status = 200) :
    ∃ result u session,
      (login crypto config env body s).1.body = .ok result ∧ u ∈ s.users ∧
      (login crypto config env body s).2.sessions = s.sessions ++ [session] ∧
      IssuedFor crypto config env u.id u.email u.name false
        result.accessToken result.refreshToken session := by
  unfold login at h ⊢
  by_cases h1 : (!truthy body.email || !truthy body.password) = true
  · rw [if_pos h1] at h; simp at h
  · rw [if_neg h1] at h ⊢
    dsimp only at h ⊢
    cases hf : Adapter.findOne s.users [("email", .str (body.email.getD ""))] with
    | none => rw [hf] at h; simp at h
    | some u =>
      rw [hf] at h
      dsimp only at h ⊢
      by_cases h2 : (!crypto.bcryptCompare (body.password.getD "") u.password) = true
      · rw [if_pos h2] at h; simp at h
      · rw [if_neg h2]
        obtain ⟨session, hs, hissued⟩ := generateTokens_issued crypto config env 0
          u.id u.email u.name false s.sessions
        exact ⟨_, u, session, rfl, List.mem_of_find?_eq_some hf, hs, hissued⟩

theorem register_issued (crypto : Crypto) (config : Config) (env : Env) (body : RegisterBody)
    (s : Store) (h : (register crypto config env body s).1.status = 201) :
    ∃ result u session,
      (register crypto config env body s).1.body = .ok result ∧
      u ∈ (register crypto config env body s).2.users ∧
      (register crypto config env body s).2.sessions = s.sessions ++ [session] ∧
      IssuedFor crypto config env u.id u.email u.name false
        result.accessToken result.refreshToken session := by
  unfold register at h ⊢
  by_cases h1 : (!truthy body.name || !truthy body.email || !truthy body.password) = true
  · rw [if_pos h1] at h; simp at h
  · rw [if_neg h1] at h ⊢
    by_cases h2 : (body.password.getD "").length < 6
    · rw [if_pos h2] at h; simp at h
    · rw [if_neg h2] at h ⊢
      cases hf : Adapter.findOne s.users [("email", .str (body.email.getD ""))] with
      | some u => rw [hf] at h; simp at h
      | none =>
        dsimp only
        obtain ⟨session, hs, hissued⟩ := generateTokens_issued crypto config env 2
          (Adapter.create s.users
            { id := env.uuid 0, name := body.name.getD "", email := body.email.getD "",
              password := crypto.bcryptHash (body.password.getD "") config.bcryptRounds,
              orders := [], wishlist := [], lastLogin := none, createdAt := "",
              updatedAt := "" } (env.uuid 1) env.now).1.id
          (Adapter.create s.users
            { id := env.uuid 0, name := body.name.getD "", email := body.email.getD "",
              password := crypto.bcryptHash (body.password.getD "") config.bcryptRounds,
              orders := [], wishlist := [], lastLogin := none, createdAt := "",
              updatedAt := "" } (env.uuid 1) env.now).1.email
          (Adapter.create s.users
            { id := env.uuid 0, name := body.name.getD "", email := body.email.getD "",
              password := crypto.bcryptHash (body.password.getD "") config.bcryptRounds,
              orders := [], wishlist := [], lastLogin := none, createdAt := "",
              updatedAt := "" } (env.uuid 1) env.now).1.name
          false s.sessions
        refine ⟨_, _, session, rfl, ?_, hs, hissued⟩
        rw [Adapter.create_appends]
        simp

theorem adminLogin_issued (crypto : Crypto) (config : Config) (env : Env) (body : LoginBody)
    (s : Store) (h : (adminLogin crypto config env body s).1.status = 200) :
    ∃ result a session,
      (adminLogin crypto config env body s).1.body = .ok result ∧ a ∈ s.admins ∧
      (adminLogin crypto config env body s).2.sessions = s.sessions ++ [session] ∧
      IssuedFor crypto config env a.id a.email a.name true
        result.accessToken result.refreshToken session := by
  unfold adminLogin at h ⊢
  by_cases h1 : (!truthy body.email || !truthy body.password) = true
  · rw [if_pos h1] at h; simp at h
  · rw [if_neg h1] at h ⊢
    dsimp only at h ⊢
    cases hf : Adapter.findOne s.admins [("email", .str (body.email.getD ""))] with
    | none => rw [hf] at h; simp at h
    | some a =>
      rw [hf] at h
      dsimp only at h ⊢
      obtain ⟨session, hs, hissued⟩ := generateTokens_issued crypto config env 0
        a.id a.email a.name true s.sessions
      split_ifs at h ⊢ <;>
        first
        | exact ⟨_, a, session, rfl, List.mem_of_find?_eq_some hf, hs, hissued⟩
        | simp at h

theorem refreshToken_issued (crypto : Crypto) (config : Config) (env : Env)
    (body : RefreshBody) (s : Store)
    (h : (refreshToken crypto config env body s).1.status = 200) :
    ∃ token decoded old pair email name session,
      body.refreshToken = some token ∧
      crypto.jwtVerify (some token) config.jwtSecret env.nowMs = .ok decoded ∧
      old ∈ s.sessions ∧ old.refreshToken = token ∧ old.userId = decoded.id ∧
      (refreshToken crypto config env body s).1.body = .ok pair ∧
      (if decoded.isAdmin then ∃ a ∈ s.admins, a.id = decoded.id
        else ∃ u ∈ s.users, u.id = decoded.id) ∧
      (refreshToken crypto config env body s).2.sessions =
        (Adapter.deleteById s.sessions old.id).2 ++ [session] ∧
      IssuedFor crypto config env decoded.id email name decoded.isAdmin
        pair.accessToken pair.refreshToken session := by
  unfold refreshToken at h ⊢
  by_cases h1 : (!truthy body.refreshToken) = true
  · rw [if_pos h1] at h; simp at h
  · rw [if_neg h1] at h ⊢
    dsimp only at h ⊢
    have htok : body.refreshToken = some (body.refreshToken.getD "") := by
      cases hb : body.refreshToken with
      | none => simp [hb, truthy] at h1
      | some t => rfl
    cases hv : crypto.jwtVerify (some (body.refreshToken.getD "")) config.jwtSecret env.nowMs with
    | error e => rw [hv] at h; simp at h
    | ok decoded =>
      rw [hv] at h
      dsimp only at h ⊢
      cases hf : Adapter.findOne s.sessions
          [("refreshToken", .str (body.refreshToken.getD "")), ("userId", .str decoded.id)] with
      | none => rw [hf] at h; simp at h
      | some old =>
        rw [hf] at h
        dsimp only at h ⊢
        have hold := List.find?_some hf
        have hmem := List.mem_of_find?_eq_some hf
        simp [Adapter.queryPredicate, JObj.get, Record.field, JVal.strictEq] at hold
        by_cases hadmin : decoded.isAdmin = true
        · simp only [hadmin, if_true] at h ⊢
          cases ha : Adapter.findById s.admins decoded.id with
          | none => rw [ha] at h; simp at h
          | some a =>
            simp only [Option.map_some']
            have haid : a.id = decoded.id := Database.findById_id _ _ _ ha
            obtain ⟨session, hs, hissued⟩ := generateTokens_issued crypto config env 0
              a.id a.email a.name true (Adapter.deleteById s.sessions old.id).2
            refine ⟨_, decoded, old, _, a.email, a.name, session, htok, hv, hmem, hold.1,
              hold.2, rfl, ?_, hs, ?_⟩
            · rw [if_pos hadmin]
              exact ⟨a, Database.findById_mem _ _ _ ha, haid⟩
            · rw [hadmin, ← haid]
              exact hissued
        · have hadmin' : decoded.isAdmin = false := by
            cases hd : decoded.isAdmin with
            | true => exact absurd hd hadmin
            | false => rfl
          simp only [hadmin', Bool.false_eq_true, if_false] at h ⊢
          cases hu : Adapter.findById s.users decoded.id with
          | none => rw [hu] at h; simp at h
          | some u =>
            simp only [Option.map_some']
            have huid : u.id = decoded.id := Database.findById_id _ _ _ hu
            obtain ⟨session, hs, hissued⟩ := generateTokens_issued crypto config env 0
              u.id u.email u.name false (Adapter.deleteById s.sessions old.id).2
            refine ⟨_, decoded, old, _, u.email, u.name, session, htok, hv, hmem, hold.1,
              hold.2, rfl, ?_, hs, ?_⟩
            · rw [if_neg hadmin]
              exact ⟨u, Database.findById_mem _ _ _ hu, huid⟩
            · rw [hadmin', ← huid]
              exact hissued

/-- C20. Every token pair issued by `register` or `login` carries
`isAdmin = false` and the id of a stored user, every pair issued by
`adminLogin` carries `isAdmin = true` and the id of a stored admin, the session
stored with a pair holds its refresh token and has user type `Admin` exactly
when its `isAdmin` is true, and `refreshToken` issues the new pair with the
`isAdmin` flag and the id decoded from the token it replaces, for an account
of that kind that is still stored. -/
theorem token_pairs_carry_issuer (crypto : Crypto) (config : Config) (env : Env) (s : Store) :
    (∀ body, (register crypto config env body s).1.status = 201 →
      ∃ result u session,
        (register crypto config env body s).1.body = .ok result ∧
        u ∈ (register crypto config env body s).2.users ∧
        (register crypto config env body s).2.sessions = s.sessions ++ [session] ∧
        IssuedFor crypto config env u.id u.email u.name false
          result.accessToken result.refreshToken session) ∧
    (∀ body, (login crypto config env body s).1.status = 200 →
      ∃ result u session,
        (login crypto config env body s).1.body = .ok result ∧ u ∈ s.users ∧
        (login crypto config env body s).2.sessions = s.sessions ++ [session] ∧
        IssuedFor crypto config env u.id u.email u.name false
          result.accessToken result.refreshToken session) ∧
    (∀ body, (adminLogin crypto config env body s).1.status = 200 →
      ∃ result a session,
        (adminLogin crypto config env body s).1.body = .ok result ∧ a ∈ s.admins ∧
        (adminLogin crypto config env body s).2.sessions = s.sessions ++ [session] ∧
        IssuedFor crypto config env a.id a.email a.name true
          result.accessToken result.refreshToken session) ∧
    (∀ body, (refreshToken crypto config env body s).1.status = 200 →
      ∃ token decoded old pair email name session,
        body.refreshToken = some token ∧
        crypto.jwtVerify (some token) config.jwtSecret env.nowMs = .ok decoded ∧
        old ∈ s.sessions ∧ old.refreshToken = token ∧ old.userId = decoded.id ∧
        (refreshToken crypto config env body s).1.body = .ok pair ∧
        (if decoded.isAdmin then ∃ a ∈ s.admins, a.id = decoded.id
          else ∃ u ∈ s.users, u.id = decoded.id) ∧
        (refreshToken crypto config env body s).2.sessions =
          (Adapter.deleteById s.sessions old.id).2 ++ [session] ∧
        IssuedFor crypto config env decoded.id email name decoded.isAdmin
          pair.accessToken pair.refreshToken session) :=
  ⟨fun body h => register_issued crypto config env body s h,
    fun body h => login_issued crypto config env body s h,
    fun body h => adminLogin_issued crypto config env body s h,
    fun body h => refreshToken_issued crypto config env body s h⟩

/-- Worked instance of C20: `sampleUser` logs in to the sample shop and the
sample admin logs in with `admin123`. -/
theorem token_pairs_carry_issuer_witness :
    (∃ result u session,
      (login sampleCrypto defaultConfig sampleEnv
        { email := some "asha@example.com", password := some "secret1" } sampleShop).1.body
        = .ok result ∧ u ∈ sampleShop.users ∧
      (login sampleCrypto defaultConfig sampleEnv
        { email := some "asha@example.com", password := some "secret1" } sampleShop).2.sessions
        = sampleShop.sessions ++ [session] ∧
      IssuedFor sampleCrypto defaultConfig sampleEnv u.id u.email u.name false
        result.accessToken result.refreshToken session) ∧
    (∃ result a session,
      (adminLogin sampleCrypto defaultConfig sampleEnv
        { email := some "admin@himorganic.com", password := some "admin123" }
        sampleShop).1.body = .ok result ∧ a ∈ sampleShop.admins ∧
      (adminLogin sampleCrypto defaultConfig sampleEnv
        { email := some "admin@himorganic.com", password := some "admin123" }
        sampleShop).2.sessions = sampleShop.sessions ++ [session] ∧
      IssuedFor sampleCrypto defaultConfig sampleEnv a.id a.email a.name true
        result.accessToken result.refreshToken session) :=
  ⟨(token_pairs_carry_issuer sampleCrypto defaultConfig sampleEnv sampleShop).2.1
      { email := some "asha@example.com", password := some "secret1" } (by decide),
    (token_pairs_carry_issuer sampleCrypto defaultConfig sampleEnv sampleShop).2.2.1
      { email := some "admin@himorganic.com", password := some "admin123" } (by decide)⟩

/-! ### Passwords stay out of the responses -/

theorem JObj.delete_no_key (o : JObj) (key : String) :
    ∀ kv ∈ JObj.delete o key, kv.1 ≠ key := by
  intro kv hkv
  simp only [JObj.delete, List.mem_filter] at hkv
  simpa using hkv.2

theorem JObj.set_no_key (o : JObj) (key k : String) (v : JVal) (hk : k ≠ key)
    (h : ∀ kv ∈ o, kv.1 ≠ key) : ∀ kv ∈ JObj.set o k v, kv.1 ≠ key := by
  intro kv hkv
  unfold JObj.set at hkv
  split_ifs at hkv
  · rw [List.mem_map] at hkv
    obtain ⟨x, hx, rfl⟩ := hkv
    split_ifs
    · exact h x hx
    · exact h x hx
  · rw [List.mem_append] at hkv
    rcases hkv with hkv | hkv
    · exact h kv hkv
    · simp at hkv
      rw [hkv]
      exact hk

theorem register_user_no_password (crypto : Crypto) (config : Config) (env : Env)
    (body : RegisterBody) (s : Store) (result : AuthResult)
    (h : (register crypto config env body s).1.body = .ok result) :
    ∀ kv ∈ result.user, kv.1 ≠ "password" := by
  unfold register at h
  split_ifs at h
  split at h
  · simp at h
  · simp only [Except.ok.injEq] at h
    rw [← h]
    exact JObj.delete_no_key _ _

theorem login_user_no_password (crypto : Crypto) (config : Config) (env : Env)
    (body : LoginBody) (s : Store) (result : AuthResult)
    (h : (login crypto config env body s).1.body = .ok result) :
    ∀ kv ∈ result.user, kv.1 ≠ "password" := by
  unfold login at h
  split_ifs at h
  dsimp only at h
  split at h
  · simp at h
  · split_ifs at h
    simp only [Except.ok.injEq] at h
    rw [← h]
    exact JObj.delete_no_key _ _

theorem adminLogin_user_no_password (crypto : Crypto) (config : Config) (env : Env)
    (body : LoginBody) (s : Store) (result : AuthResult)
    (h : (adminLogin crypto config env body s).1.body = .ok result) :
    ∀ kv ∈ result.user, kv.1 ≠ "password" := by
  unfold adminLogin at h
  split_ifs at h
  dsimp only at h
  split at h
  · simp at h
  · split_ifs at h <;>
    · simp only [Except.ok.injEq] at h
      rw [← h]
      exact JObj.set_no_key _ _ _ _ (by decide) (JObj.delete_no_key _ _)

theorem getProfile_no_password (user : Payload) (s : Store) (result : JObj)
    (h : (getProfile user s).body = .ok result) :
    ∃ profile, result = [("user", .obj profile)] ∧ ∀ kv ∈ profile, kv.1 ≠ "password" := by
  unfold getProfile at h
  dsimp only at h
  split at h
  · simp at h
  · simp only [Except.ok.injEq] at h
    exact ⟨_, h.symm, JObj.set_no_key _ _ _ _ (by decide) (JObj.delete_no_key _ _)⟩

theorem updateProfileIn_no_password {α : Type} [Record α] (kind : AccountKind α)
    (crypto : Crypto) (config : Config) (env : Env) (id : String) (body : ProfileBody)
    (data : List α) (result : JObj)
    (h : (updateProfileIn kind crypto config env id body data).1.body = .ok result) :
    ∃ profile, result = [("user", .obj profile)] ∧ ∀ kv ∈ profile, kv.1 ≠ "password" := by
  unfold updateProfileIn at h
  split at h
  · simp at h
  · dsimp only at h
    split_ifs at h
    split at h
    · simp at h
    · simp only [Except.ok.injEq] at h
      exact ⟨_, h.symm, JObj.delete_no_key _ _⟩

theorem updateProfile_no_password (crypto : Crypto) (config : Config) (env : Env)
    (user : Payload) (body : ProfileBody) (s : Store) (result : JObj)
    (h : (updateProfile crypto config env user body s).1.body = .ok result) :
    ∃ profile, result = [("user", .obj profile)] ∧ ∀ kv ∈ profile, kv.1 ≠ "password" := by
  unfold updateProfile at h
  split_ifs at h
  · exact updateProfileIn_no_password adminKind crypto config env user.id body s.admins result h
  · exact updateProfileIn_no_password userKind crypto config env user.id body s.users result h

/-- C21. The response bodies of `register`, `login`, `adminLogin`, `getProfile` and
`updateProfile` never carry the account's password: in every answer that is not
an error, the `user` object has no property named `password` (the stored
value, hashed or plain, is a property of the record only under that name),
for every store and request. -/
theorem responses_omit_password (crypto : Crypto) (config : Config) (env : Env) (s : Store) :
    (∀ (body : RegisterBody) (result : AuthResult),
      (register crypto config env body s).1.body = .ok result →
        ∀ kv ∈ result.user, kv.1 ≠ "password") ∧
    (∀ (body : LoginBody) (result : AuthResult),
      (login crypto config env body s).1.body = .ok result →
        ∀ kv ∈ result.user, kv.1 ≠ "password") ∧
    (∀ (body : LoginBody) (result : AuthResult),
      (adminLogin crypto config env body s).1.body = .ok result →
        ∀ kv ∈ result.user, kv.1 ≠ "password") ∧
    (∀ (user : Payload) (result : JObj),
      (getProfile user s).body = .ok result →
        ∃ profile, result = [("user", .obj profile)] ∧ ∀ kv ∈ profile, kv.1 ≠ "password") ∧
    (∀ (user : Payload) (body : ProfileBody) (result : JObj),
      (updateProfile crypto config env user body s).1.body = .ok result →
        ∃ profile, result = [("user", .obj profile)] ∧ ∀ kv ∈ profile, kv.1 ≠ "password") :=
  ⟨fun body result h => register_user_no_password crypto config env body s result h,
   fun body result h => login_user_no_password crypto config env body s result h,
   fun body result h => adminLogin_user_no_password crypto config env body s result h,
   fun user result h => getProfile_no_password user s result h,
   fun user body result h => updateProfile_no_password crypto config env user body s result h⟩

/-- Worked instance of C21: the sample user logs in and then renames the
account; both answers are successes and neither user object has a `password`
property. -/
theorem responses_omit_password_witness :
    (login sampleCrypto defaultConfig sampleEnv
      sampleLogin sampleAuthStore).1.status
      = 200 ∧
    (∃ result, (login sampleCrypto defaultConfig sampleEnv
        sampleLogin sampleAuthStore).1.body
        = .ok result ∧ ∀ kv ∈ result.user, kv.1 ≠ "password") ∧
    (updateProfile sampleCrypto defaultConfig sampleEnv samplePayload
      sampleRename sampleAuthStore).1.status = 200 ∧
    (∃ result profile, (updateProfile sampleCrypto defaultConfig sampleEnv samplePayload
        sampleRename sampleAuthStore).1.body = .ok result ∧
        result = [("user", .obj profile)] ∧ ∀ kv ∈ profile, kv.1 ≠ "password") :=
  ⟨by decide,
   ⟨_, rfl, (responses_omit_password sampleCrypto defaultConfig sampleEnv sampleAuthStore).2.1
      sampleLogin _ rfl⟩,
   by decide,
   ⟨_, _, rfl, ((responses_omit_password sampleCrypto defaultConfig sampleEnv
      sampleAuthStore).2.2.2.2 samplePayload sampleRename _ rfl).choose_spec⟩⟩


/-! ### The rate limiter -/

theorem RateStore.set_same (store : RateStore) (key : String) (record : RateRecord) :
    (store.set key record) key = some record := by
  simp [RateStore.set]

theorem rateLimit_opens (windowMs max : Nat) (key : String) (now : Nat) (store : RateStore)
    (h : opensWindow store key now = true) :
    rateLimit windowMs max key now store =
      (.next, store.set key { count := 1, resetTime := now + windowMs }) := by
  unfold opensWindow at h
  unfold rateLimit
  cases hs : store key with
  | none => rfl
  | some record =>
    rw [hs] at h
    simp only [decide_eq_true_eq] at h
    simp only []
    rw [if_pos h]

theorem rateLimit_within (windowMs max : Nat) (key : String) (now : Nat) (store : RateStore)
    (c r : Nat) (hs : store key = some { count := c, resetTime := r }) (hnow : now ≤ r) :
    rateLimit windowMs max key now store =
      if c ≥ max then (.tooMany ((r - now + 999) / 1000), store)
      else (.next, store.set key { count := c + 1, resetTime := r }) := by
  unfold rateLimit
  rw [hs]
  simp only []
  rw [if_neg (Nat.not_lt.mpr hnow)]

theorem rateLimitAll_within (windowMs max : Nat) (key : String) (ts : List Nat) :
    ∀ (store : RateStore) (c r : Nat), store key = some { count := c, resetTime := r } →
      (∀ t ∈ ts, t ≤ r) →
      (∀ i, i < ts.length →
        ((rateLimitAll windowMs max key ts store).1[i]? = some .next ↔ c + i < max)) ∧
      (∀ i, i < ts.length → max ≤ c + i →
        ∃ retryAfter, (rateLimitAll windowMs max key ts store).1[i]? =
          some (.tooMany retryAfter)) ∧
      ((rateLimitAll windowMs max key ts store).2 key =
        some { count := if c ≥ max then c else min (c + ts.length) max, resetTime := r }) := by
  induction ts with
  | nil =>
    intro store c r hs _
    refine ⟨fun i hi => by simp at hi, fun i hi => by simp at hi, ?_⟩
    simp only [rateLimitAll, List.length_nil, Nat.add_zero]
    rw [hs]
    split_ifs with h
    · rfl
    · rw [Nat.min_eq_left (by omega)]
  | cons t ts ih =>
    intro store c r hs hts
    have ht : t ≤ r := hts t (List.mem_cons_self _ _)
    have hts' : ∀ u ∈ ts, u ≤ r := fun u hu => hts u (List.mem_cons_of_mem _ hu)
    have hstep := rateLimit_within windowMs max key t store c r hs ht
    simp only [rateLimitAll]
    by_cases hc : c ≥ max
    · rw [if_pos hc] at hstep
      rw [hstep]
      obtain ⟨h1, h2, h3⟩ := ih store c r hs hts'
      refine ⟨?_, ?_, ?_⟩
      · intro i hi
        cases i with
        | zero => simp; omega
        | succ j =>
          simp only [List.length_cons, Nat.add_lt_add_iff_right] at hi
          simp only [List.getElem?_cons_succ]
          rw [h1 j hi]
          constructor <;> intro h <;> omega
      · intro i hi hle
        cases i with
        | zero => exact ⟨(r - t + 999) / 1000, by simp⟩
        | succ j =>
          simp only [List.length_cons, Nat.add_lt_add_iff_right] at hi
          simp only [List.getElem?_cons_succ]
          exact h2 j hi (by omega)
      · rw [h3, if_pos hc, if_pos hc]
    · rw [if_neg hc] at hstep
      rw [hstep]
      obtain ⟨h1, h2, h3⟩ := ih (store.set key { count := c + 1, resetTime := r }) (c + 1) r
        (RateStore.set_same _ _ _) hts'
      refine ⟨?_, ?_, ?_⟩
      · intro i hi
        cases i with
        | zero => simp; omega
        | succ j =>
          simp only [List.length_cons, Nat.add_lt_add_iff_right] at hi
          simp only [List.getElem?_cons_succ]
          rw [h1 j hi]
          constructor <;> intro h <;> omega
      · intro i hi hle
        cases i with
        | zero => omega
        | succ j =>
          simp only [List.length_cons, Nat.add_lt_add_iff_right] at hi
          simp only [List.getElem?_cons_succ]
          exact h2 j hi (by omega)
      · rw [h3, if_neg hc]
        simp only [List.length_cons]
        congr 2
        split_ifs with h
        · omega
        · omega

theorem rateLimit_count_le (windowMs max : Nat) (hmax : 1 ≤ max) (key : String) (now : Nat)
    (store : RateStore) (h : ∀ r, store key = some r → r.count ≤ max) :
    ∀ r, (rateLimit windowMs max key now store).2 key = some r → r.count ≤ max := by
  intro r hr
  unfold rateLimit at hr
  cases hs : store key with
  | none =>
    rw [hs] at hr
    simp only [RateStore.set_same, Option.some.injEq] at hr
    rw [← hr]; exact hmax
  | some record =>
    rw [hs] at hr
    simp only [] at hr
    split_ifs at hr with h1 h2
    · simp only [RateStore.set_same, Option.some.injEq] at hr
      rw [← hr]; exact hmax
    · exact h r hr
    · simp only [RateStore.set_same, Option.some.injEq] at hr
      rw [← hr]
      simp only
      omega

/-- C22. For the limiter `rateLimit({ windowMs, max })` with `max >= 1`, let a
request of one client key at time `t0` open a window (no record yet, or the
previous window has elapsed) and let further requests of that key arrive at
times no later than `t0 + windowMs`.  Then, counting the opening request as
request 0, request `i` is passed on exactly when `i < max` and every later
one is answered 429; the stored count is the number of requests capped at
`max`; the first request after `t0 + windowMs` is passed on and opens a new
window with count 1; and no request ever makes a stored count exceed `max`. -/
theorem rateLimit_window (windowMs max : Nat) (hmax : 1 ≤ max) (key : String)
    (store : RateStore) (t0 : Nat) (ts : List Nat)
    (hopen : opensWindow store key t0 = true)
    (hts : ∀ t ∈ ts, t ≤ t0 + windowMs) :
    (∀ i, i < ts.length + 1 →
      ((rateLimitAll windowMs max key (t0 :: ts) store).1[i]? = some .next ↔ i < max)) ∧
    (∀ i, i < ts.length + 1 → max ≤ i →
      ∃ retryAfter, (rateLimitAll windowMs max key (t0 :: ts) store).1[i]? =
        some (.tooMany retryAfter)) ∧
    (rateLimitAll windowMs max key (t0 :: ts) store).2 key =
      some { count := min (ts.length + 1) max, resetTime := t0 + windowMs } ∧
    (∀ t, t0 + windowMs < t →
      rateLimit windowMs max key t (rateLimitAll windowMs max key (t0 :: ts) store).2 =
        (.next, RateStore.set (rateLimitAll windowMs max key (t0 :: ts) store).2 key
          { count := 1, resetTime := t + windowMs })) ∧
    (∀ (before : RateStore) (t : Nat), (∀ r, before key = some r → r.count ≤ max) →
      ∀ r, (rateLimit windowMs max key t before).2 key = some r → r.count ≤ max) := by
  have hfirst := rateLimit_opens windowMs max key t0 store hopen
  obtain ⟨h1, h2, h3⟩ := rateLimitAll_within windowMs max key ts
    (store.set key { count := 1, resetTime := t0 + windowMs }) 1 (t0 + windowMs)
    (RateStore.set_same _ _ _) hts
  have hrun : rateLimitAll windowMs max key (t0 :: ts) store =
      (.next :: (rateLimitAll windowMs max key ts
          (store.set key { count := 1, resetTime := t0 + windowMs })).1,
        (rateLimitAll windowMs max key ts
          (store.set key { count := 1, resetTime := t0 + windowMs })).2) := by
    simp only [rateLimitAll, hfirst]
  have hfinal : (rateLimitAll windowMs max key (t0 :: ts) store).2 key =
      some { count := min (ts.length + 1) max, resetTime := t0 + windowMs } := by
    rw [hrun, h3]
    congr 2
    split_ifs with h
    · have : max = 1 := by omega
      subst this
      simp
    · rw [Nat.add_comm]
  refine ⟨?_, ?_, hfinal, ?_, ?_⟩
  · intro i hi
    rw [hrun]
    cases i with
    | zero => simp; omega
    | succ j =>
      simp only [List.getElem?_cons_succ]
      rw [h1 j (by omega)]
      constructor <;> intro h <;> omega
  · intro i hi hle
    rw [hrun]
    cases i with
    | zero => omega
    | succ j =>
      simp only [List.getElem?_cons_succ]
      exact h2 j (by omega) (by omega)
  · intro t ht
    exact rateLimit_opens windowMs max key t _ (by
      unfold opensWindow
      rw [hfinal]
      simpa using ht)
  · intro before t hb
    exact rateLimit_count_le windowMs max hmax key t before hb

/-- Worked instance of C22: a limiter with a window of 1000 ms and `max = 2`;
three requests inside the window are passed, passed and refused, and a request
after the window is passed again. -/
theorem rateLimit_window_witness :
    1 ≤ 2 ∧ opensWindow emptyRateStore "10.0.0.1" 0 = true ∧
    (rateLimitAll 1000 2 "10.0.0.1" [0, 10, 20, 1001] emptyRateStore).1 =
      [.next, .next, .tooMany 1, .next] ∧
    (∀ i, i < [10, 20].length + 1 →
      ((rateLimitAll 1000 2 "10.0.0.1" (0 :: [10, 20]) emptyRateStore).1[i]? = some .next ↔
        i < 2)) :=
  ⟨by decide, by decide, by decide,
   (rateLimit_window 1000 2 (by decide) "10.0.0.1" emptyRateStore 0 [10, 20] (by decide)
      (by decide)).1⟩


/-! ### Product writes and stock -/

theorem Adapter.create_product_fields (data : List Product) (item : Product)
    (freshId now : String) :
    (Adapter.create data item freshId now).1.stock = item.stock ∧
    (Adapter.create data item freshId now).1.price = item.price ∧
    (Adapter.create data item freshId now).1.name = item.name := by
  simp only [Adapter.create, Database.create]
  by_cases h : Record.id item = ""
  · simp [h, Record.withId, Record.withCreatedAt, Record.withUpdatedAt]
  · simp [h, Record.withCreatedAt, Record.withUpdatedAt]

/-- What a 201 response of `createProduct` means: the product is appended to the
products file with the stock `parseInt(stock) || 100`. -/
theorem createProduct_created (env : Env) (admin : Payload) (body : ProductBody) (s : Store)
    (h : (createProduct env admin body s).1.status = 201) :
    ∃ p, (createProduct env admin body s).1.body = .ok p ∧
      (createProduct env admin body s).2.products = s.products ++ [p] ∧
      p.stock = .num (stockOrDefault body.stock) := by
  unfold createProduct at h ⊢
  by_cases hreq : (!truthy body.name ||
      !(decide (body.price ≠ none ∧ body.price ≠ some 0))) = true
  · rw [if_pos hreq] at h
    simp at h
  · rw [if_neg hreq]
    exact ⟨_, rfl, Adapter.create_appends _ _ _ _, (Adapter.create_product_fields _ _ _ _).1⟩

theorem stockOrDefault_num (n : Int) :
    stockOrDefault (.num n) = if n = 0 then 100 else n := rfl

/-- C23 (failing input). A `createProduct` request with `stock: 0` is answered 201
and the product is stored with stock 100, the value also used when the
request has no stock; every other integer stock is stored as given. -/
theorem createProduct_zero_stock_stored_as_default :
    (createProduct sampleEnv sampleAdminPayload (sampleProductBody (.num 0)) sampleShop).1.status
      = 201 ∧
    List.map (fun p => (p.name, p.stock))
      (createProduct sampleEnv sampleAdminPayload (sampleProductBody (.num 0))
        sampleShop).2.products
      = [("item P", 5), ("item Q", 1), ("Tea", 100)] ∧
    List.map (fun p => (p.name, p.stock))
      (createProduct sampleEnv sampleAdminPayload (sampleProductBody .missing)
        sampleShop).2.products
      = [("item P", 5), ("item Q", 1), ("Tea", 100)] ∧
    List.map (fun p => (p.name, p.stock))
      (createProduct sampleEnv sampleAdminPayload (sampleProductBody (.num 7))
        sampleShop).2.products
      = [("item P", 5), ("item Q", 1), ("Tea", 7)] ∧
    (updateProduct sampleEnv "P" { stock := .num 0 } sampleShop).1.status = 200 ∧
    List.map (fun p => (p.name, p.stock))
      (updateProduct sampleEnv "P" { stock := .num 0 } sampleShop).2.products
      = [("item P", 0), ("item Q", 1)] := by
  refine ⟨by decide, by decide, by decide, by decide, by decide, by decide⟩

/-- C24 (failing input). On the JSON backend a product write stores a negative
stock: in a store whose stocks are all non-negative, `createProduct` with
`stock: -5` is answered 201 and stores stock -5, and `updateProduct` with
`stock: -3` is answered 200 and stores stock -3. -/
theorem product_writes_store_negative_stock :
    (∀ p ∈ sampleShop.products, p.stock ≠ .nan ∧ 0 ≤ p.stock.read) ∧
    (createProduct sampleEnv sampleAdminPayload (sampleProductBody (.num (-5)))
      sampleShop).1.status = 201 ∧
    List.map (fun p => (p.name, p.stock))
      (createProduct sampleEnv sampleAdminPayload (sampleProductBody (.num (-5)))
        sampleShop).2.products
      = [("item P", 5), ("item Q", 1), ("Tea", -5)] ∧
    (updateProduct sampleEnv "P" { stock := .num (-3) } sampleShop).1.status = 200 ∧
    List.map (fun p => (p.name, p.stock))
      (updateProduct sampleEnv "P" { stock := .num (-3) } sampleShop).2.products
      = [("item P", -3), ("item Q", 1)] := by
  refine ⟨by decide, by decide, by decide, by decide, by decide⟩


/-! ### `getAllOrders` on the JSON backend -/

/-- C25 (failing input). On the JSON backend `getAllOrders` applies the date range
to the page `findMany` has already cut, and counts without the date range: for
an order of 10 January and one of 10 February, the request `to = 31 January,
limit = 1` is answered with an empty page and total 2, where selecting by date
first gives the page with the January order and total 1; with the default
limit the page is the January order but the total is still 2. -/
theorem getAllOrders_dates_after_paging :
    (∃ page, (getAllOrders sampleParseDate sampleSort januaryFirstPage sampleOrdersStore).body
        = .ok page ∧
      List.map (fun o => o.id) page.orders = [] ∧ page.total = 2) ∧
    List.map (fun o => o.id)
      (ordersPageSpec sampleParseDate sampleSort januaryFirstPage sampleOrdersStore).1 = ["O1"] ∧
    (ordersPageSpec sampleParseDate sampleSort januaryFirstPage sampleOrdersStore).2 = 1 ∧
    (∃ page, (getAllOrders sampleParseDate sampleSort januaryQuery sampleOrdersStore).body
        = .ok page ∧
      List.map (fun o => o.id) page.orders = ["O1"] ∧ page.total = 2) ∧
    List.map (fun o => o.id)
      (ordersPageSpec sampleParseDate sampleSort januaryQuery sampleOrdersStore).1 = ["O1"] ∧
    (ordersPageSpec sampleParseDate sampleSort januaryQuery sampleOrdersStore).2 = 1 := by
  have hlt : jsStringLt "2024-01-10T00:00:00.000Z" "2024-02-10T00:00:00.000Z" = true := by
    decide
  have hsorted : sampleSort (Adapter.sortComparator "createdAt" (.num (-1)))
      sampleOrdersStore.orders =
      [sampleOrderAt "O2" "2024-02-10T00:00:00.000Z",
       sampleOrderAt "O1" "2024-01-10T00:00:00.000Z"] := by
    simp [sampleOrdersStore, sampleSort, Adapter.sortComparator, JVal.gt, JVal.strictEq,
      Record.field, sampleOrderAt, hlt]
  have hall : Database.findMany sampleOrdersStore.orders
      (some (fun item => if ([] : JObj).length = 0 then true
        else Adapter.queryPredicate [] item)) = sampleOrdersStore.orders := by
    decide
  have hfirst : Adapter.findMany sampleSort sampleOrdersStore.orders []
      { sort := some ("createdAt", .num (-1)), limit := some 1, skip := some 0 } =
      [sampleOrderAt "O2" "2024-02-10T00:00:00.000Z"] := by
    simp only [Adapter.findMany, hall, hsorted]
    decide
  have hdefault : Adapter.findMany sampleSort sampleOrdersStore.orders []
      { sort := some ("createdAt", .num (-1)), limit := some 50, skip := some 0 } =
      [sampleOrderAt "O2" "2024-02-10T00:00:00.000Z",
       sampleOrderAt "O1" "2024-01-10T00:00:00.000Z"] := by
    simp only [Adapter.findMany, hall, hsorted]
    decide
  have hq1 : parseIntOr januaryFirstPage.limit 50 = some 1 := by decide
  have hq2 : parseIntOr januaryFirstPage.offset 0 = some 0 := by decide
  have hq3 : parseIntOr januaryQuery.limit 50 = some 50 := by decide
  have hq4 : parseIntOr januaryQuery.offset 0 = some 0 := by decide
  refine ⟨⟨_, rfl, ?_, by decide⟩, by decide, by decide, ⟨_, rfl, ?_, by decide⟩,
    by decide, by decide⟩
  · have hs : truthy januaryFirstPage.status = false := by decide
    have hf : truthy januaryFirstPage.fromDate = false := by decide
    have ht : truthy januaryFirstPage.toDate = true := by decide
    simp only [hs, hf, ht, hq1, hq2, hfirst, if_true, Bool.false_eq_true, if_false]
    decide
  · have hs : truthy januaryQuery.status = false := by decide
    have hf : truthy januaryQuery.fromDate = false := by decide
    have ht : truthy januaryQuery.toDate = true := by decide
    simp only [hs, hf, ht, hq3, hq4, hdefault, if_true, Bool.false_eq_true, if_false]
    decide

/-! ### Unique emails -/

/-- Updating the first record with an id keeps a key distinct across the file
when the updated record keeps its key or takes one no record has. -/
theorem Database.update_nodup_key {α β : Type} [Record α] (g : α → β) (k : String)
    (f : α → α) (now : String) (xs : List α) :
    ∀ x, (List.map g xs).Nodup → Database.findById xs k = some x →
      (g (Record.withUpdatedAt (f x) now) = g x ∨
        g (Record.withUpdatedAt (f x) now) ∉ List.map g xs) →
      (List.map g (Database.update xs k f now).2).Nodup ∧
      ∀ e ∈ List.map g (Database.update xs k f now).2,
        e ∈ List.map g xs ∨ e = g (Record.withUpdatedAt (f x) now) := by
  induction xs with
  | nil => intro x _ hf; simp [Database.findById] at hf
  | cons y ys ih =>
    intro x hnd hf hkey
    rw [Database.findById_cons] at hf
    rw [Database.update_cons]
    simp only [List.map_cons, List.nodup_cons] at hnd
    by_cases hy : Record.id y = k
    · rw [if_pos hy] at hf ⊢
      cases hf
      simp only [List.map_cons, List.nodup_cons]
      refine ⟨⟨?_, hnd.2⟩, ?_⟩
      · rcases hkey with h | h
        · rw [h]; exact hnd.1
        · intro hmem
          exact h (by simp [hmem])
      · intro e he
        simp only [List.mem_cons] at he ⊢
        rcases he with h | h
        · right; exact h
        · left; right; exact h
    · rw [if_neg hy] at hf ⊢
      have hx : x ∈ ys := Database.findById_mem ys k x hf
      have hkey' : g (Record.withUpdatedAt (f x) now) = g x ∨
          g (Record.withUpdatedAt (f x) now) ∉ List.map g ys := by
        rcases hkey with h | h
        · left; exact h
        · right; intro hmem; exact h (by simp [hmem])
      obtain ⟨h1, h2⟩ := ih x hnd.2 hf hkey'
      simp only [List.map_cons, List.nodup_cons]
      refine ⟨⟨?_, h1⟩, ?_⟩
      · intro hmem
        rcases h2 _ hmem with h | h
        · exact hnd.1 h
        · rcases hkey with h' | h'
          · apply hnd.1
            rw [h, h']
            exact List.mem_map_of_mem g hx
          · apply h'
            rw [← h]
            simp
      · intro e he
        simp only [List.mem_cons] at he ⊢
        rcases he with h | h
        · left; left; exact h
        · rcases h2 e h with h' | h'
          · left; right; exact h'
          · right; exact h'

theorem Adapter.queryPredicate_admin_email (a : Admin) (email : String) :
    Adapter.queryPredicate [("email", .str email)] a = (a.email == email) := by
  simp [Adapter.queryPredicate, JObj.get, Record.field, JVal.strictEq]

/-- With distinct emails, `findOne({ email })` finds the record that holds the email. -/
theorem Adapter.findOne_email_of_nodup {α : Type} [Record α] (email : α → String)
    (hq : ∀ (x : α) (e : String),
      Adapter.queryPredicate [("email", .str e)] x = (email x == e))
    (data : List α) (hnd : (List.map email data).Nodup) (x : α) (hx : x ∈ data) :
    Adapter.findOne data [("email", .str (email x))] = some x := by
  unfold Adapter.findOne Database.findOne
  have h := find?_of_nodup_key email data hnd x hx
  rw [← h]
  congr 1
  funext y
  exact hq y (email x)

theorem Adapter.findOne_email_none {α : Type} [Record α] (email : α → String)
    (hq : ∀ (x : α) (e : String),
      Adapter.queryPredicate [("email", .str e)] x = (email x == e))
    (data : List α) (e : String)
    (h : Adapter.findOne data [("email", .str e)] = none) : e ∉ List.map email data := by
  unfold Adapter.findOne Database.findOne at h
  rw [List.find?_eq_none] at h
  intro hmem
  rw [List.mem_map] at hmem
  obtain ⟨x, hx, rfl⟩ := hmem
  have := h x hx
  rw [hq] at this
  simp at this

theorem Adapter.findOne_email_some {α : Type} [Record α] (email : α → String)
    (hq : ∀ (x : α) (e : String),
      Adapter.queryPredicate [("email", .str e)] x = (email x == e))
    (data : List α) (e : String) (x : α)
    (h : Adapter.findOne data [("email", .str e)] = some x) : x ∈ data ∧ email x = e := by
  unfold Adapter.findOne Database.findOne at h
  refine ⟨List.mem_of_find?_eq_some h, ?_⟩
  have := List.find?_some h
  rw [hq] at this
  simpa using this

theorem register_email_taken (crypto : Crypto) (config : Config) (env : Env)
    (body : RegisterBody) (s : Store) (u : User) (hu : u ∈ s.users)
    (he : body.email = some u.email) :
    (register crypto config env body s).1.status = 400 ∧
    (register crypto config env body s).2 = s := by
  unfold register
  by_cases h1 : (!truthy body.name || !truthy body.email || !truthy body.password) = true
  · rw [if_pos h1]; exact ⟨rfl, rfl⟩
  · rw [if_neg h1]
    by_cases h2 : (body.password.getD "").length < 6
    · rw [if_pos h2]; exact ⟨rfl, rfl⟩
    · rw [if_neg h2]
      cases hf : Adapter.findOne s.users [("email", .str (body.email.getD ""))] with
      | some _ => exact ⟨rfl, rfl⟩
      | none =>
        exfalso
        have hnot := Adapter.findOne_email_none (fun x : User => x.email)
          Adapter.queryPredicate_email s.users _ hf
        apply hnot
        rw [he]
        exact List.mem_map_of_mem (fun x : User => x.email) hu

theorem Adapter.create_user_fields (data : List User) (item : User) (freshId now : String) :
    (Adapter.create data item freshId now).1.email = item.email := by
  simp only [Adapter.create, Database.create]
  by_cases h : Record.id item = ""
  · simp [h, Record.withId, Record.withCreatedAt, Record.withUpdatedAt]
  · simp [h, Record.withCreatedAt, Record.withUpdatedAt]

theorem register_keeps_emails (crypto : Crypto) (config : Config) (env : Env)
    (body : RegisterBody) (s : Store)
    (hnd : (List.map (fun u : User => u.email) s.users).Nodup) :
    (List.map (fun u : User => u.email) (register crypto config env body s).2.users).Nodup := by
  unfold register
  by_cases h1 : (!truthy body.name || !truthy body.email || !truthy body.password) = true
  · rw [if_pos h1]; exact hnd
  · rw [if_neg h1]
    by_cases h2 : (body.password.getD "").length < 6
    · rw [if_pos h2]; exact hnd
    · rw [if_neg h2]
      cases hf : Adapter.findOne s.users [("email", .str (body.email.getD ""))] with
      | some _ => exact hnd
      | none =>
        have hnot := Adapter.findOne_email_none (fun x : User => x.email)
          Adapter.queryPredicate_email s.users _ hf
        simp only []
        rw [Adapter.create_appends, List.map_append, List.nodup_append]
        refine ⟨hnd, by simp, ?_⟩
        intro a ha hb
        simp only [List.map_cons, List.map_nil, List.mem_singleton] at hb
        rw [Adapter.create_user_fields] at hb
        rw [hb] at ha
        exact hnot ha

/-- The email conflict check of `updateProfile`: an email held by a record with
another id is refused and nothing is written. -/
theorem updateProfileIn_email_taken {α : Type} [Record α] (kind : AccountKind α)
    (hq : ∀ (x : α) (e : String),
      Adapter.queryPredicate [("email", .str e)] x = (kind.email x == e))
    (crypto : Crypto) (config : Config) (env : Env) (id : String) (body : ProfileBody)
    (data : List α) (hnd : (List.map kind.email data).Nodup)
    (account other : α) (hacc : Adapter.findById data id = some account)
    (hother : other ∈ data) (hid : Record.id other ≠ Record.id account)
    (hemail : body.email = some (kind.email other)) (hne : kind.email other ≠ "") :
    updateProfileIn kind crypto config env id body data =
      (⟨400, .error "Email already in use"⟩, data) := by
  have hmem : account ∈ data := Database.findById_mem data id account hacc
  have hdiff : kind.email other ≠ kind.email account := by
    intro h
    have := List.inj_on_of_nodup_map hnd hother hmem h
    exact hid (by rw [this])
  have hfind := Adapter.findOne_email_of_nodup kind.email hq data hnd other hother
  unfold updateProfileIn
  rw [hacc]
  simp only []
  have hchanges : emailChanges kind body account = true := by
    simp [emailChanges, hemail, truthy, hne, hdiff]
  have hget : body.email.getD "" = kind.email other := by rw [hemail]; rfl
  rw [hchanges, hget, hfind]
  simp [hid]

theorem profileUpdates_user_email (crypto : Crypto) (config : Config) (body : ProfileBody)
    (account record : User) (now : String) :
    (Record.withUpdatedAt (profileUpdates userKind crypto config body account record) now).email =
      if emailChanges userKind body account then body.email.getD "" else record.email := by
  unfold profileUpdates
  simp only [userKind, Record.withUpdatedAt]
  split_ifs <;> rfl

theorem updateProfileIn_users_keeps_emails (crypto : Crypto) (config : Config) (env : Env)
    (id : String) (body : ProfileBody) (data : List User)
    (hids : (List.map (fun u : User => u.id) data).Nodup)
    (hnd : (List.map (fun u : User => u.email) data).Nodup) :
    (List.map (fun u : User => u.email)
      (updateProfileIn userKind crypto config env id body data).2).Nodup := by
  unfold updateProfileIn
  cases hacc : Adapter.findById data id with
  | none => exact hnd
  | some account =>
    have hmem : account ∈ data := Database.findById_mem data id account hacc
    have hupd : (List.map (fun u : User => u.email)
        (Adapter.updateById data (Record.id account)
          (profileUpdates userKind crypto config body account) env.now).2).Nodup ∨
        (emailChanges userKind body account = true ∧
          ∃ existing, Adapter.findOne data [("email", .str (body.email.getD ""))] =
            some existing ∧ Record.id existing ≠ Record.id account) := by
      by_cases hch : emailChanges userKind body account = true
      · cases hf : Adapter.findOne data [("email", .str (body.email.getD ""))] with
        | none =>
          left
          have hnot := Adapter.findOne_email_none (fun x : User => x.email)
            Adapter.queryPredicate_email data _ hf
          have hacc' : Database.findById data (Record.id account) = some account := by
            rw [Database.findById_id data id account hacc]; exact hacc
          refine (Database.update_nodup_key (fun u : User => u.email) (Record.id account)
            (profileUpdates userKind crypto config body account) env.now data account hnd hacc'
            ?_).1
          right
          show (Record.withUpdatedAt
            (profileUpdates userKind crypto config body account account) env.now).email ∉ _
          rw [profileUpdates_user_email, if_pos hch]
          exact hnot
        | some existing =>
          by_cases hid : Record.id existing = Record.id account
          · exfalso
            obtain ⟨hex, hee⟩ := Adapter.findOne_email_some (fun x : User => x.email)
              Adapter.queryPredicate_email data _ existing hf
            have hsame : existing = account := List.inj_on_of_nodup_map hids hex hmem hid
            rw [hsame] at hee
            simp [emailChanges, userKind] at hch
            exact hch.2 hee.symm
          · right
            exact ⟨hch, existing, rfl, hid⟩
      · left
        have hacc' : Database.findById data (Record.id account) = some account := by
          rw [Database.findById_id data id account hacc]; exact hacc
        refine (Database.update_nodup_key (fun u : User => u.email) (Record.id account)
          (profileUpdates userKind crypto config body account) env.now data account hnd hacc'
          ?_).1
        left
        show (Record.withUpdatedAt
          (profileUpdates userKind crypto config body account account) env.now).email = _
        rw [profileUpdates_user_email, if_neg hch]
    simp only []
    rcases hupd with hupd | ⟨hch, existing, hf, hid⟩
    · split_ifs
      · exact hnd
      · exact hnd
      · exact hnd
      · split <;> exact hupd
    · rw [hch, hf]
      simp [hid, hnd]

/-- C26. User emails stay unique.  In a store whose users have distinct ids
and distinct emails: `register` with the email of a stored user responds 400
and leaves the store as it is; `updateProfile` with a non-empty email held by
an account of the same collection with another id responds 400 and leaves
the store as it is (for users, and for admins when the admins' emails are
distinct); and after `register` and after `updateProfile`, whatever the
request, the users' emails are still distinct. -/
theorem user_emails_stay_unique (crypto : Crypto) (config : Config) (env : Env) (s : Store)
    (hids : (List.map (fun u : User => u.id) s.users).Nodup)
    (hnd : (List.map (fun u : User => u.email) s.users).Nodup) :
    (∀ (body : RegisterBody) (u : User), u ∈ s.users → body.email = some u.email →
      (register crypto config env body s).1.status = 400 ∧
      (register crypto config env body s).2 = s) ∧
    (∀ (user : Payload) (body : ProfileBody) (account other : User), user.isAdmin = false →
      Adapter.findById s.users user.id = some account → other ∈ s.users →
      other.id ≠ account.id → body.email = some other.email → other.email ≠ "" →
      (updateProfile crypto config env user body s).1.status = 400 ∧
      (updateProfile crypto config env user body s).2 = s) ∧
    (∀ (user : Payload) (body : ProfileBody) (account other : Admin), user.isAdmin = true →
      (List.map (fun a : Admin => a.email) s.admins).Nodup →
      Adapter.findById s.admins user.id = some account → other ∈ s.admins →
      other.id ≠ account.id → body.email = some other.email → other.email ≠ "" →
      (updateProfile crypto config env user body s).1.status = 400 ∧
      (updateProfile crypto config env user body s).2 = s) ∧
    (∀ body : RegisterBody,
      (List.map (fun u : User => u.email) (register crypto config env body s).2.users).Nodup) ∧
    (∀ (user : Payload) (body : ProfileBody),
      (List.map (fun u : User => u.email)
        (updateProfile crypto config env user body s).2.users).Nodup) := by
  refine ⟨?_, ?_, ?_, ?_, ?_⟩
  · intro body u hu he
    exact register_email_taken crypto config env body s u hu he
  · intro user body account other hadmin hacc hother hid hemail hne
    have h := updateProfileIn_email_taken userKind Adapter.queryPredicate_email crypto config env
      user.id body s.users hnd account other hacc hother hid hemail hne
    unfold updateProfile
    rw [if_neg (by simp [hadmin]), h]
    exact ⟨rfl, rfl⟩
  · intro user body account other hadmin hadm hacc hother hid hemail hne
    have h := updateProfileIn_email_taken adminKind Adapter.queryPredicate_admin_email crypto
      config env user.id body s.admins hadm account other hacc hother hid hemail hne
    unfold updateProfile
    rw [if_pos hadmin, h]
    exact ⟨rfl, rfl⟩
  · intro body
    exact register_keeps_emails crypto config env body s hnd
  · intro user body
    unfold updateProfile
    split_ifs
    · exact hnd
    · exact updateProfileIn_users_keeps_emails crypto config env user.id body s.users hids hnd

/-- Worked instance of C26: in the store with two users, a registration with
the first user's email is answered 400 and changes nothing, and so is the
first user's request to take the second user's email. -/
theorem user_emails_stay_unique_witness :
    (List.map (fun u : User => u.id) twoUserStore.users).Nodup ∧
    (List.map (fun u : User => u.email) twoUserStore.users).Nodup ∧
    ((register sampleCrypto defaultConfig sampleEnv duplicateRegistration twoUserStore).1.status
        = 400 ∧
      (register sampleCrypto defaultConfig sampleEnv duplicateRegistration twoUserStore).2
        = twoUserStore) ∧
    ((updateProfile sampleCrypto defaultConfig sampleEnv samplePayload
        { email := some "ravi@example.com" } twoUserStore).1.status = 400 ∧
      (updateProfile sampleCrypto defaultConfig sampleEnv samplePayload
        { email := some "ravi@example.com" } twoUserStore).2 = twoUserStore) :=
  ⟨by decide, by decide,
   (user_emails_stay_unique sampleCrypto defaultConfig sampleEnv twoUserStore (by decide)
      (by decide)).1 duplicateRegistration sampleUser (by decide) rfl,
   (user_emails_stay_unique sampleCrypto defaultConfig sampleEnv twoUserStore (by decide)
      (by decide)).2.1 samplePayload { email := some "ravi@example.com" } sampleUser secondUser
      rfl (by decide) (by decide) (by decide) rfl (by decide)⟩


/-! ### Refresh tokens after logout and exchange -/

theorem Database.delete_subset {α : Type} [Record α] (xs : List α) (id : String) :
    ∀ x ∈ (Database.delete xs id).2, x ∈ xs := by
  intro x hx
  unfold Database.delete at hx
  split at hx
  · exact hx
  · exact (List.eraseIdx_sublist _ _).subset hx

theorem Adapter.queryPredicate_session (x : Session) (token userId : String) :
    Adapter.queryPredicate [("refreshToken", .str token), ("userId", .str userId)] x =
      (x.refreshToken == token && x.userId == userId) := by
  simp [Adapter.queryPredicate, JObj.get, Record.field, JVal.strictEq]

theorem Adapter.queryPredicate_token (x : Session) (token : String) :
    Adapter.queryPredicate [("refreshToken", .str token)] x = (x.refreshToken == token) := by
  simp [Adapter.queryPredicate, JObj.get, Record.field, JVal.strictEq]

/-- When the stored sessions have distinct ids and distinct refresh tokens,
no session holds a token after `logout` with it. -/
theorem logout_removes_token (token : String) (s : Store)
    (hids : (List.map (fun x : Session => x.id) s.sessions).Nodup)
    (htok : (List.map (fun x : Session => x.refreshToken) s.sessions).Nodup)
    (ht : truthy (some token) = true) :
    ∀ x ∈ (logout { refreshToken := some token } s).2.sessions, x.refreshToken ≠ token := by
  intro x hx hxt
  unfold logout at hx
  simp only [ht, if_true, Option.getD_some] at hx
  unfold Adapter.deleteOne at hx
  cases hf : Adapter.findOne s.sessions [("refreshToken", .str token)] with
  | none =>
    rw [hf] at hx
    unfold Adapter.findOne Database.findOne at hf
    rw [List.find?_eq_none] at hf
    have := hf x hx
    rw [Adapter.queryPredicate_token] at this
    simp [hxt] at this
  | some item =>
    rw [hf] at hx
    simp only [] at hx
    unfold Adapter.findOne Database.findOne at hf
    have hitem : item ∈ s.sessions := List.mem_of_find?_eq_some hf
    have hit : item.refreshToken = token := by
      have := List.find?_some hf
      rw [Adapter.queryPredicate_token] at this
      simpa using this
    have hxs : x ∈ s.sessions := Database.delete_subset _ _ x hx
    have hsame : x = item :=
      List.inj_on_of_nodup_map htok hxs hitem (by rw [hxt, hit])
    have hne := Database.delete_not_mem_of_nodup s.sessions (Record.id item) hids x hx
    exact hne (by rw [hsame])

/-- A refresh request with a token no stored session holds is refused and
writes nothing. -/
theorem refreshToken_rejects_unknown (crypto : Crypto) (config : Config) (env : Env)
    (body : RefreshBody) (s : Store)
    (h : ∀ x ∈ s.sessions, x.refreshToken ≠ body.refreshToken.getD "") :
    ((refreshToken crypto config env body s).1.status = 400 ∨
      (refreshToken crypto config env body s).1.status = 401) ∧
    (refreshToken crypto config env body s).2 = s := by
  unfold refreshToken
  by_cases ht : (!truthy body.refreshToken) = true
  · rw [if_pos ht]; exact ⟨Or.inl rfl, rfl⟩
  · rw [if_neg ht]
    simp only []
    cases hv : crypto.jwtVerify (some (body.refreshToken.getD "")) config.jwtSecret env.nowMs with
    | error e => exact ⟨Or.inr rfl, rfl⟩
    | ok decoded =>
      have hnone : Adapter.findOne s.sessions
          [("refreshToken", .str (body.refreshToken.getD "")), ("userId", .str decoded.id)] =
          none := by
        unfold Adapter.findOne Database.findOne
        rw [List.find?_eq_none]
        intro x hx
        rw [Adapter.queryPredicate_session]
        simp [h x hx]
      simp only []
      rw [hnone]
      exact ⟨Or.inr rfl, rfl⟩

/-- C27 (failing input). A refresh token stays usable after logout and after an
exchange.  Two logins of one user within a second store two sessions with
the same refresh token; `logout` with that token deletes one of them, and a
`refreshToken` request with the token is then answered 200 with new tokens and
a new session.  Likewise an exchange within the issuing second hands out the
same token again, which is accepted again. -/
theorem refresh_token_survives_logout :
    List.map (fun x => x.refreshToken) twoLoginStore.sessions =
      [sampleRefreshToken, sampleRefreshToken] ∧
    List.map (fun x => x.refreshToken)
      (logout { refreshToken := some sampleRefreshToken } twoLoginStore).2.sessions =
      [sampleRefreshToken] ∧
    (refreshToken refreshCrypto defaultConfig laterEnv { refreshToken := some sampleRefreshToken }
      (logout { refreshToken := some sampleRefreshToken } twoLoginStore).2).1.status = 200 ∧
    List.map (fun x => x.refreshToken)
      (refreshToken refreshCrypto defaultConfig laterEnv
        { refreshToken := some sampleRefreshToken }
        (logout { refreshToken := some sampleRefreshToken } twoLoginStore).2).2.sessions =
      [sampleRefreshToken] ∧
    (refreshToken refreshCrypto defaultConfig laterEnv { refreshToken := some sampleRefreshToken }
      (login refreshCrypto defaultConfig sampleEnv sampleLogin sampleAuthStore).2).1.status
      = 200 ∧
    (refreshToken refreshCrypto defaultConfig laterEnv { refreshToken := some sampleRefreshToken }
      (refreshToken refreshCrypto defaultConfig laterEnv
        { refreshToken := some sampleRefreshToken }
        (login refreshCrypto defaultConfig sampleEnv sampleLogin sampleAuthStore).2).2).1.status
      = 200 := by
  refine ⟨by decide, by decide, by decide, by decide, by decide, by decide⟩


/-! ### Filtering and ordering in `getProducts` -/

theorem jsIncludes_iff (text part : String) :
    jsIncludes text part = true ↔ part.data <:+: text.data := by
  unfold jsIncludes
  rw [List.any_eq_true]
  constructor
  · rintro ⟨t, ht, hp⟩
    rw [List.mem_tails] at ht
    rw [List.isPrefixOf_iff_prefix] at hp
    exact List.infix_iff_prefix_suffix.mpr ⟨t, hp, ht⟩
  · intro h
    obtain ⟨t, hp, ht⟩ := List.infix_iff_prefix_suffix.mp h
    exact ⟨t, (List.mem_tails _ _).mpr ht, List.isPrefixOf_iff_prefix.mpr hp⟩

theorem JFloat.atMost_iff (bound : JFloat) (price : Int) :
    JFloat.atMost bound price = true ↔ PriceFrom bound price := by
  cases bound with
  | nan => simp [JFloat.atMost, PriceFrom]
  | inf negative => simp [JFloat.atMost, PriceFrom]
  | dec m e =>
    simp only [JFloat.atMost, PriceFrom]
    by_cases he : 0 ≤ e
    · rw [if_pos he, decide_eq_true_iff]
      obtain ⟨n, rfl⟩ := Int.eq_ofNat_of_zero_le he
      simp only [Int.toNat_ofNat, zpow_natCast]
      exact_mod_cast Iff.rfl
    · rw [if_neg he, decide_eq_true_iff]
      obtain ⟨n, hn⟩ := Int.exists_eq_neg_ofNat (le_of_lt (not_le.mp he))
      subst hn
      simp only [neg_neg, Int.toNat_ofNat, zpow_neg, zpow_natCast]
      have hpos : (0 : ℚ) < (10 : ℚ) ^ n := by positivity
      rw [← div_eq_mul_inv, div_le_iff₀ hpos]
      exact_mod_cast Iff.rfl

theorem JFloat.atLeast_iff (bound : JFloat) (price : Int) :
    JFloat.atLeast bound price = true ↔ PriceUpTo bound price := by
  cases bound with
  | nan => simp [JFloat.atLeast, PriceUpTo]
  | inf negative => simp [JFloat.atLeast, PriceUpTo]
  | dec m e =>
    simp only [JFloat.atLeast, PriceUpTo]
    by_cases he : 0 ≤ e
    · rw [if_pos he, decide_eq_true_iff]
      obtain ⟨n, rfl⟩ := Int.eq_ofNat_of_zero_le he
      simp only [Int.toNat_ofNat, zpow_natCast]
      exact_mod_cast Iff.rfl
    · rw [if_neg he, decide_eq_true_iff]
      obtain ⟨n, hn⟩ := Int.exists_eq_neg_ofNat (le_of_lt (not_le.mp he))
      subst hn
      simp only [neg_neg, Int.toNat_ofNat, zpow_neg, zpow_natCast]
      have hpos : (0 : ℚ) < (10 : ℚ) ^ n := by positivity
      rw [← div_eq_mul_inv, le_div_iff₀ hpos]
      exact_mod_cast Iff.rfl

theorem Supplied_iff (param : Option String) (cond : String → Prop) :
    Supplied param cond ↔ (truthy param = true → cond (param.getD "")) := by
  cases param with
  | none => simp [Supplied, truthy]
  | some t => simp [Supplied, truthy]

theorem filter_if {α : Type} (c : Bool) (f : α → Bool) (l : List α) :
    (if c = true then List.filter f l else l) = List.filter (fun p => !c || f p) l := by
  cases c <;> simp

/-- The four filter steps of `getProducts` amount to one filter by
`ProductMatches` on the listing `findMany` returns. -/
theorem getProducts_body (toLowerCase : String → String)
    (arraySort : (Product → Product → Int) → List Product → List Product)
    (q : ProductQuery) (s : Store) :
    (getProducts toLowerCase arraySort q s).status = 200 ∧
    (getProducts toLowerCase arraySort q s).body =
      .ok (List.filter (fun p => decide (ProductMatches toLowerCase q p))
        (Adapter.findMany arraySort s.products [] (productSortOptions q.sort))) := by
  refine ⟨rfl, ?_⟩
  unfold getProducts
  simp only []
  congr 1
  rw [filter_if, filter_if, filter_if, filter_if]
  simp only [List.filter_filter]
  apply List.filter_congr
  intro p _
  rw [Bool.eq_iff_iff]
  simp only [Bool.and_eq_true, Bool.or_eq_true, Bool.not_eq_true', decide_eq_true_iff,
    ProductMatches, Supplied_iff, JFloat.atMost_iff, JFloat.atLeast_iff, jsIncludes_iff]
  constructor
  · rintro ⟨h4, h3, h2, h1⟩
    refine ⟨fun h => ?_, fun h => ?_, fun h => ?_, fun h => ?_⟩
    · exact h1.resolve_left (by simp [h])
    · exact h2.resolve_left (by simp [h])
    · exact h3.resolve_left (by simp [h])
    · exact h4.resolve_left (by simp [h])
  · rintro ⟨h1, h2, h3, h4⟩
    refine ⟨?_, ?_, ?_, ?_⟩
    · by_cases h : truthy q.search = true
      · exact Or.inr (h4 h)
      · exact Or.inl (by simpa using h)
    · by_cases h : truthy q.maxPrice = true
      · exact Or.inr (h3 h)
      · exact Or.inl (by simpa using h)
    · by_cases h : truthy q.minPrice = true
      · exact Or.inr (h2 h)
      · exact Or.inl (by simpa using h)
    · by_cases h : truthy q.category = true
      · exact Or.inr (h1 h)
      · exact Or.inl (by simpa using h)

/-! #### Reading a price bound -/

theorem digitChar_isDigit (d : Fin 10) : (digitChar d).isDigit = true := by
  fin_cases d <;> rfl

theorem digitChar_toNat (d : Fin 10) : (digitChar d).toNat - 48 = d.val := by
  fin_cases d <;> rfl

theorem digitChar_ne (d : Fin 10) :
    digitChar d ≠ '-' ∧ digitChar d ≠ '+' ∧ digitChar d ≠ '.' ∧ digitChar d ≠ 'I' ∧
    jsWhiteSpace (digitChar d) = false := by
  fin_cases d <;> decide

theorem digitsValue_nil : digitsValue [] = 0 := rfl

theorem digitsValue_append (xs ys : List (Fin 10)) :
    digitsValue (xs ++ ys) = digitsValue xs * 10 ^ ys.length + digitsValue ys := by
  unfold digitsValue
  rw [List.reverse_append, List.map_append, Nat.ofDigits_append]
  simp only [List.length_map, List.length_reverse]
  ring

theorem digitsToNat_digits (ds : List (Fin 10)) :
    digitsToNat (List.map digitChar ds) = digitsValue ds := by
  induction ds using List.reverseRecOn with
  | nil => rfl
  | append_singleton xs d ih =>
    unfold digitsToNat at ih ⊢
    rw [List.map_append, List.foldl_append, ih, digitsValue_append]
    simp only [List.map_cons, List.map_nil, List.foldl_cons, List.foldl_nil, digitChar_toNat,
      List.length_singleton, pow_one]
    have : digitsValue [d] = d.val := by simp [digitsValue]
    rw [this]
    ring

theorem takeWhile_digits (ds : List (Fin 10)) (rest : List Char)
    (h : ∀ c, rest.head? = some c → c.isDigit = false) :
    List.takeWhile Char.isDigit (List.map digitChar ds ++ rest) = List.map digitChar ds ∧
    List.dropWhile Char.isDigit (List.map digitChar ds ++ rest) = rest := by
  induction ds with
  | nil =>
    cases rest with
    | nil => simp
    | cons c cs =>
      have hc := h c rfl
      simp [List.takeWhile, List.dropWhile, hc]
  | cons d ds ih =>
    rw [List.map_cons, List.cons_append, List.takeWhile_cons, List.dropWhile_cons]
    simp only [digitChar_isDigit, if_true]
    exact ⟨by rw [ih.1], ih.2⟩

theorem dropWhile_whiteSpace (ws cs : List Char) (hws : ∀ c ∈ ws, jsWhiteSpace c = true)
    (h : ∀ c, cs.head? = some c → jsWhiteSpace c = false) :
    List.dropWhile jsWhiteSpace (ws ++ cs) = cs := by
  induction ws with
  | nil =>
    cases cs with
    | nil => rfl
    | cons c cs => simp [List.dropWhile, h c rfl]
  | cons w ws ih =>
    rw [List.cons_append, List.dropWhile_cons]
    simp only [hws w (List.mem_cons_self _ _), if_true]
    exact ih (fun c hc => hws c (List.mem_cons_of_mem _ hc))

theorem fractionDigits_of_ne (cs : List Char) (h : ∀ c, cs.head? = some c → c ≠ '.') :
    fractionDigits cs = [] ∧ afterFraction cs = cs := by
  unfold fractionDigits afterFraction
  constructor
  · split
    · exact absurd rfl (h '.' rfl)
    · rfl
  · split
    · exact absurd rfl (h '.' rfl)
    · rfl

theorem exponentPart_of_ne (cs : List Char)
    (h : ∀ c, cs.head? = some c → c ≠ 'e' ∧ c ≠ 'E') : exponentPart cs = 0 := by
  unfold exponentPart
  split
  · exact absurd rfl (h 'e' rfl).1
  · exact absurd rfl (h 'E' rfl).2
  · rfl

theorem exponentValue_digits (negative : Bool) (d : Fin 10) (ds : List (Fin 10))
    (rest : List Char) (hrest : ∀ c, rest.head? = some c → c.isDigit = false) :
    exponentValue ((if negative then ['-'] else []) ++ List.map digitChar (d :: ds) ++ rest) =
      some (if negative then -(digitsValue (d :: ds) : Int) else (digitsValue (d :: ds) : Int)) := by
  have htake := takeWhile_digits (d :: ds) rest hrest
  cases negative with
  | true =>
    simp only [if_true, List.singleton_append, List.cons_append, exponentValue]
    rw [List.nil_append, htake.1, digitsToNat_digits]
    simp
  | false =>
    simp only [Bool.false_eq_true, if_false, List.nil_append]
    unfold exponentValue
    split
    · rename_i heq
      simp only [List.map_cons, List.cons_append, List.cons.injEq] at heq
      exact absurd heq.1 (digitChar_ne d).1
    · rename_i heq
      simp only [List.map_cons, List.cons_append, List.cons.injEq] at heq
      exact absurd heq.1 (digitChar_ne d).2.1
    · rw [htake.1, digitsToNat_digits]
      simp

theorem parseFloat_unsigned (ws cs : List Char) (hws : ∀ c ∈ ws, jsWhiteSpace c = true)
    (h : ∀ c, cs.head? = some c → jsWhiteSpace c = false ∧ c ≠ '-' ∧ c ≠ '+') :
    parseFloat (String.mk (ws ++ cs)) = parseFloatUnsigned cs := by
  unfold parseFloat
  simp only []
  rw [dropWhile_whiteSpace ws cs hws (fun c hc => (h c hc).1)]
  split
  · exact absurd rfl (h '-' rfl).2.1
  · exact absurd rfl (h '+' rfl).2.2
  · rfl

theorem parseFloat_negative (ws cs : List Char) (hws : ∀ c ∈ ws, jsWhiteSpace c = true) :
    parseFloat (String.mk (ws ++ '-' :: cs)) =
      (match parseFloatUnsigned cs with
       | .dec m e => .dec (-m) e
       | .inf _ => .inf true
       | .nan => .nan) := by
  unfold parseFloat
  simp only []
  rw [dropWhile_whiteSpace ws ('-' :: cs) hws (fun c hc => by
    simp only [List.head?_cons, Option.some.injEq] at hc
    subst hc
    decide)]
  rfl

theorem exponentText_head (en : Bool) (ed : List (Fin 10)) (rest : List Char)
    (hrest : EndsNumeral rest) (c : Char)
    (hc : ((if ed = [] then [] else 'e' :: ((if en then ['-'] else []) ++
      List.map digitChar ed)) ++ rest).head? = some c) :
    c.isDigit = false ∧ c ≠ '.' := by
  cases ed with
  | nil =>
    simp only [if_true, List.nil_append] at hc
    exact ⟨(hrest c hc).1, (hrest c hc).2.1⟩
  | cons d ds =>
    simp only [reduceCtorEq, if_false, List.cons_append, List.head?_cons,
      Option.some.injEq] at hc
    subst hc
    decide

theorem fractionText_head (frac : List (Fin 10)) (tail : List Char)
    (htail : ∀ c, tail.head? = some c → c.isDigit = false ∧ c ≠ '.') (c : Char)
    (hc : ((if frac = [] then [] else '.' :: List.map digitChar frac) ++ tail).head? = some c) :
    c.isDigit = false := by
  cases frac with
  | nil =>
    simp only [if_true, List.nil_append] at hc
    exact (htail c hc).1
  | cons d ds =>
    simp only [reduceCtorEq, if_false, List.cons_append, List.head?_cons,
      Option.some.injEq] at hc
    subst hc
    decide

theorem exponentPart_numeral (en : Bool) (ed : List (Fin 10)) (rest : List Char)
    (hrest : EndsNumeral rest) :
    exponentPart ((if ed = [] then [] else 'e' :: ((if en then ['-'] else []) ++
      List.map digitChar ed)) ++ rest) =
      (if en then -(digitsValue ed : Int) else (digitsValue ed : Int)) := by
  cases ed with
  | nil =>
    simp only [if_true, List.nil_append]
    rw [exponentPart_of_ne rest (fun c hc => ⟨(hrest c hc).2.2.1, (hrest c hc).2.2.2⟩)]
    cases en <;> simp [digitsValue_nil]
  | cons d ds =>
    simp only [reduceCtorEq, if_false, List.cons_append, exponentPart]
    rw [exponentValue_digits en d ds rest (fun c hc => (hrest c hc).1)]
    rfl

theorem fraction_numeral (frac : List (Fin 10)) (tail : List Char)
    (htail : ∀ c, tail.head? = some c → c.isDigit = false ∧ c ≠ '.') :
    fractionDigits ((if frac = [] then [] else '.' :: List.map digitChar frac) ++ tail) =
      List.map digitChar frac ∧
    afterFraction ((if frac = [] then [] else '.' :: List.map digitChar frac) ++ tail) =
      tail := by
  cases frac with
  | nil =>
    simp only [if_true, List.nil_append, List.map_nil]
    exact fractionDigits_of_ne tail (fun c hc => (htail c hc).2)
  | cons d ds =>
    simp only [reduceCtorEq, if_false, List.cons_append, fractionDigits, afterFraction]
    exact takeWhile_digits (d :: ds) tail (fun c hc => (htail c hc).1)

theorem isPrefixOf_infinity (cs : List Char) (h : ∀ c, cs.head? = some c → c ≠ 'I') :
    List.isPrefixOf "Infinity".data cs = false := by
  cases cs with
  | nil => rfl
  | cons c cs =>
    have hc := h c rfl
    have hdata : "Infinity".data = 'I' :: "nfinity".data := rfl
    rw [hdata, List.isPrefixOf]
    simp only [Bool.and_eq_false_imp, beq_iff_eq]
    intro heq
    exact absurd heq.symm hc

theorem parseFloatUnsigned_numeral (whole frac : List (Fin 10)) (en : Bool)
    (ed : List (Fin 10)) (rest : List Char)
    (hn : whole ≠ [] ∨ frac ≠ []) (hrest : EndsNumeral rest) :
    parseFloatUnsigned (List.map digitChar whole ++
      ((if frac = [] then [] else '.' :: List.map digitChar frac) ++
        ((if ed = [] then [] else 'e' :: ((if en then ['-'] else []) ++
          List.map digitChar ed)) ++ rest))) =
      .dec (digitsValue (whole ++ frac))
        ((if en then -(digitsValue ed : Int) else (digitsValue ed : Int)) - frac.length) := by
  have hE := exponentText_head en ed rest hrest
  have hF := fractionText_head frac _ hE
  have htake := takeWhile_digits whole _ hF
  have hfrac := fraction_numeral frac _ hE
  have hexp := exponentPart_numeral en ed rest hrest
  have hinf : List.isPrefixOf "Infinity".data (List.map digitChar whole ++
      ((if frac = [] then [] else '.' :: List.map digitChar frac) ++
        ((if ed = [] then [] else 'e' :: ((if en then ['-'] else []) ++
          List.map digitChar ed)) ++ rest))) = false := by
    apply isPrefixOf_infinity
    intro c hc
    cases whole with
    | cons d ds =>
      simp only [List.map_cons, List.cons_append, List.head?_cons, Option.some.injEq] at hc
      subst hc
      exact (digitChar_ne d).2.2.2.1
    | nil =>
      cases frac with
      | nil => simp at hn
      | cons d ds =>
        simp only [List.map_nil, List.nil_append, reduceCtorEq, if_false, List.cons_append,
          List.head?_cons, Option.some.injEq] at hc
        subst hc
        decide
  unfold parseFloatUnsigned
  simp only []
  rw [hinf, htake.1, htake.2, hfrac.1, hfrac.2, hexp]
  have hlen : ¬ ((List.map digitChar whole).length = 0 ∧ (List.map digitChar frac).length = 0) := by
    simp only [List.length_map, List.length_eq_zero]
    rintro ⟨h1, h2⟩
    rcases hn with h | h
    · exact h h1
    · exact h h2
  rw [if_neg hlen]
  simp only [Bool.false_eq_true, if_false, ← List.map_append, digitsToNat_digits, List.length_map]

/-- A numeral with a digit before or after the point is read by `parseFloat` as
its digits and its exponent, whatever white space precedes it and whatever
text that cannot continue it follows. -/
theorem parseFloat_numeral (n : Numeral) (ws rest : List Char)
    (hn : n.whole ≠ [] ∨ n.frac ≠ []) (hws : ∀ c ∈ ws, jsWhiteSpace c = true)
    (hrest : EndsNumeral rest) :
    parseFloat (String.mk (ws ++ n.render ++ rest)) =
      .dec ((if n.negative then -1 else 1) * (digitsValue (n.whole ++ n.frac) : Int))
        ((if n.exponentNegative then -(digitsValue n.exponentDigits : Int)
          else (digitsValue n.exponentDigits : Int)) - n.frac.length) := by
  have hU := parseFloatUnsigned_numeral n.whole n.frac n.exponentNegative n.exponentDigits rest
    hn hrest
  cases hneg : n.negative with
  | true =>
    have htext : ws ++ n.render ++ rest = ws ++ '-' :: (List.map digitChar n.whole ++
        ((if n.frac = [] then [] else '.' :: List.map digitChar n.frac) ++
          ((if n.exponentDigits = [] then []
            else 'e' :: ((if n.exponentNegative then ['-'] else []) ++
              List.map digitChar n.exponentDigits)) ++ rest))) := by
      simp only [Numeral.render, hneg, if_true, List.append_assoc, List.singleton_append,
        List.cons_append, List.nil_append]
    rw [htext, parseFloat_negative ws _ hws, hU]
    simp
  | false =>
    have htext : ws ++ n.render ++ rest = ws ++ (List.map digitChar n.whole ++
        ((if n.frac = [] then [] else '.' :: List.map digitChar n.frac) ++
          ((if n.exponentDigits = [] then []
            else 'e' :: ((if n.exponentNegative then ['-'] else []) ++
              List.map digitChar n.exponentDigits)) ++ rest))) := by
      simp only [Numeral.render, hneg, Bool.false_eq_true, if_false, List.append_assoc,
        List.nil_append]
    rw [htext, parseFloat_unsigned ws _ hws, hU]
    · simp
    · intro c hc
      cases hw : n.whole with
      | cons d ds =>
        rw [hw] at hc
        simp only [List.map_cons, List.cons_append, List.head?_cons, Option.some.injEq] at hc
        subst hc
        exact ⟨(digitChar_ne d).2.2.2.2, (digitChar_ne d).1, (digitChar_ne d).2.1⟩
      | nil =>
        cases hf : n.frac with
        | nil =>
          rw [hw, hf] at hn
          simp at hn
        | cons d ds =>
          rw [hw, hf] at hc
          simp only [List.map_nil, List.nil_append, reduceCtorEq, if_false, List.cons_append,
            List.head?_cons, Option.some.injEq] at hc
          subst hc
          decide

/-- The digits and exponent `parseFloat` reads from a numeral stand for the
numeral's value. -/
theorem Numeral.value_eq (n : Numeral) :
    (((if n.negative then -1 else 1) * (digitsValue (n.whole ++ n.frac) : Int) : Int) : ℚ) *
      (10 : ℚ) ^ ((if n.exponentNegative then -(digitsValue n.exponentDigits : Int)
          else (digitsValue n.exponentDigits : Int)) - (n.frac.length : Int)) = n.value := by
  unfold Numeral.value
  rw [digitsValue_append, zpow_sub₀ (by norm_num : (10 : ℚ) ≠ 0), zpow_natCast]
  have hpos : (10 : ℚ) ^ n.frac.length ≠ 0 := by positivity
  cases n.negative <;> field_simp

/-- A price bound written as a numeral bounds the price by the numeral's
value. -/
theorem price_bound_numeral (n : Numeral) (ws rest : List Char)
    (hn : n.whole ≠ [] ∨ n.frac ≠ []) (hws : ∀ c ∈ ws, jsWhiteSpace c = true)
    (hrest : EndsNumeral rest) (price : Int) :
    (PriceFrom (parseFloat (String.mk (ws ++ n.render ++ rest))) price ↔
      n.value ≤ (price : ℚ)) ∧
    (PriceUpTo (parseFloat (String.mk (ws ++ n.render ++ rest))) price ↔
      (price : ℚ) ≤ n.value) := by
  rw [parseFloat_numeral n ws rest hn hws hrest]
  simp only [PriceFrom, PriceUpTo, Numeral.value_eq]
  exact ⟨trivial, trivial⟩

/-! #### The listing -/

theorem Adapter.findMany_sorted_all {α : Type} [Record α]
    (arraySort : (α → α → Int) → List α → List α) (data : List α) (key : String) (dir : JVal) :
    Adapter.findMany arraySort data [] { sort := some (key, dir) } =
      arraySort (Adapter.sortComparator key dir) data := by
  simp [Adapter.findMany, Database.findMany]

theorem Adapter.findMany_unsorted_all {α : Type} [Record α]
    (arraySort : (α → α → Int) → List α → List α) (data : List α) :
    Adapter.findMany arraySort data [] {} = data := by
  simp [Adapter.findMany, Database.findMany]

/-- The listing `getProducts` filters: a rearrangement of the stored products,
ordered as the `sort` parameter asks, and the products file itself for any
other `sort`. -/
theorem getProducts_listing (arraySort : (Product → Product → Int) → List Product → List Product)
    (hengine : OrdersByComparator arraySort) (sort : Option String) (products : List Product) :
    List.Perm (Adapter.findMany arraySort products [] (productSortOptions sort)) products ∧
    (sort = some "price_asc" → List.Pairwise (fun a b : Product => a.price ≤ b.price)
      (Adapter.findMany arraySort products [] (productSortOptions sort))) ∧
    (sort = some "price_desc" → List.Pairwise (fun a b : Product => b.price ≤ a.price)
      (Adapter.findMany arraySort products [] (productSortOptions sort))) ∧
    (sort = some "name_asc" → List.Pairwise (fun a b : Product => StringLe a.name b.name)
      (Adapter.findMany arraySort products [] (productSortOptions sort))) ∧
    (sort = some "newest" → List.Pairwise (fun a b : Product => StringLe b.createdAt a.createdAt)
      (Adapter.findMany arraySort products [] (productSortOptions sort))) ∧
    (sort ≠ some "price_asc" → sort ≠ some "price_desc" → sort ≠ some "name_asc" →
      sort ≠ some "newest" →
      Adapter.findMany arraySort products [] (productSortOptions sort) = products) := by
  have hprice := engine_orders_numbers arraySort hengine products "price"
    (fun item _ => ⟨item.price, rfl⟩)
  have hname := engine_orders_strings arraySort hengine products "name"
    (fun item _ => ⟨item.name, rfl⟩)
  have hnew := engine_orders_strings arraySort hengine products "createdAt"
    (fun item _ => ⟨item.createdAt, rfl⟩)
  by_cases h1 : sort = some "price_asc"
  · subst h1
    have hopt : productSortOptions (some "price_asc") = { sort := some ("price", .num 1) } := by
      simp [productSortOptions, truthy]
    rw [hopt, Adapter.findMany_sorted_all]
    refine ⟨hprice.1.1, fun _ => ?_, fun h => by simp at h, fun h => by simp at h,
      fun h => by simp at h, fun h => absurd rfl h⟩
    exact hprice.1.2.imp (fun h => by simpa [Record.field, JVal.le] using h)
  by_cases h2 : sort = some "price_desc"
  · subst h2
    have hopt : productSortOptions (some "price_desc") =
        { sort := some ("price", .num (-1)) } := by
      simp [productSortOptions, truthy]
    rw [hopt, Adapter.findMany_sorted_all]
    refine ⟨hprice.2.1.1, fun h => by simp at h, fun _ => ?_, fun h => by simp at h,
      fun h => by simp at h, fun _ h => absurd rfl h⟩
    exact hprice.2.1.2.imp (fun h => by simpa [Record.field, JVal.le] using h)
  by_cases h3 : sort = some "name_asc"
  · subst h3
    have hopt : productSortOptions (some "name_asc") = { sort := some ("name", .num 1) } := by
      simp [productSortOptions, truthy]
    rw [hopt, Adapter.findMany_sorted_all]
    refine ⟨hname.1.1, fun h => by simp at h, fun h => by simp at h, fun _ => ?_,
      fun h => by simp at h, fun _ _ h => absurd rfl h⟩
    exact hname.1.2.imp (fun h => by simpa [Record.field, JVal.le] using h)
  by_cases h4 : sort = some "newest"
  · subst h4
    have hopt : productSortOptions (some "newest") =
        { sort := some ("createdAt", .num (-1)) } := by
      simp [productSortOptions, truthy]
    rw [hopt, Adapter.findMany_sorted_all]
    refine ⟨hnew.2.1.1, fun h => by simp at h, fun h => by simp at h, fun h => by simp at h,
      fun _ => ?_, fun _ _ _ h => absurd rfl h⟩
    exact hnew.2.1.2.imp (fun h => by simpa [Record.field, JVal.le] using h)
  have hopt : productSortOptions sort = {} := by
    unfold productSortOptions
    split_ifs <;> rfl
  rw [hopt, Adapter.findMany_unsorted_all]
  exact ⟨List.Perm.refl _, fun h => absurd h h1, fun h => absurd h h2, fun h => absurd h h3,
    fun h => absurd h h4, fun _ _ _ _ => rfl⟩

/-- A price bound written as a numeral is a supplied filter. -/
theorem numeral_text_ne_empty (n : Numeral) (ws rest : List Char)
    (hn : n.whole ≠ [] ∨ n.frac ≠ []) : String.mk (ws ++ n.render ++ rest) ≠ "" := by
  intro h
  have hdata : ws ++ n.render ++ rest = [] := congrArg String.data h
  simp only [List.append_eq_nil, Numeral.render, List.map_eq_nil_iff] at hdata
  rcases hn with hw | hf
  · exact hw hdata.1.2.1.1.2
  · have := hdata.1.2.1.2
    rw [if_neg hf] at this
    exact List.cons_ne_nil _ _ this

/-- C28. On the JSON backend, with an engine sort that orders its input under
every total and transitive comparator, `getProducts` answers 200 with exactly
the stored products that satisfy every supplied filter (category equal
ignoring case, price at least `minPrice`, price at most `maxPrice`, search
text contained in the name or the description ignoring case), each as often as
it is stored; the answer is in non-decreasing price order for `price_asc`,
non-increasing price order for `price_desc`, non-decreasing name order for
`name_asc`, non-increasing `createdAt` order for `newest`, and in file order
for any other `sort`.  A `minPrice` or `maxPrice` written as a decimal numeral
(sign, digits, fraction, exponent, after white space and before text that
cannot continue it) bounds the price by the rational value of the numeral. -/
theorem getProducts_filters_and_order (toLowerCase : String → String)
    (arraySort : (Product → Product → Int) → List Product → List Product)
    (hengine : OrdersByComparator arraySort) (q : ProductQuery) (s : Store) :
    ∃ listed, (getProducts toLowerCase arraySort q s).status = 200 ∧
      (getProducts toLowerCase arraySort q s).body = .ok listed ∧
      List.Perm listed
        (List.filter (fun p => decide (ProductMatches toLowerCase q p)) s.products) ∧
      (∀ p, p ∈ listed ↔ p ∈ s.products ∧ ProductMatches toLowerCase q p) ∧
      (q.sort = some "price_asc" →
        List.Pairwise (fun a b : Product => a.price ≤ b.price) listed) ∧
      (q.sort = some "price_desc" →
        List.Pairwise (fun a b : Product => b.price ≤ a.price) listed) ∧
      (q.sort = some "name_asc" →
        List.Pairwise (fun a b : Product => StringLe a.name b.name) listed) ∧
      (q.sort = some "newest" →
        List.Pairwise (fun a b : Product => StringLe b.createdAt a.createdAt) listed) ∧
      (q.sort ≠ some "price_asc" → q.sort ≠ some "price_desc" → q.sort ≠ some "name_asc" →
        q.sort ≠ some "newest" →
        listed = List.filter (fun p => decide (ProductMatches toLowerCase q p)) s.products) ∧
      (∀ (n : Numeral) (ws rest : List Char), (n.whole ≠ [] ∨ n.frac ≠ []) →
        (∀ c ∈ ws, jsWhiteSpace c = true) → EndsNumeral rest →
        (q.minPrice = some (String.mk (ws ++ n.render ++ rest)) →
          ∀ p, ProductMatches toLowerCase q p ↔
            ProductMatches toLowerCase { q with minPrice := none } p ∧
              n.value ≤ (p.price : ℚ)) ∧
        (q.maxPrice = some (String.mk (ws ++ n.render ++ rest)) →
          ∀ p, ProductMatches toLowerCase q p ↔
            ProductMatches toLowerCase { q with maxPrice := none } p ∧
              (p.price : ℚ) ≤ n.value)) := by
  obtain ⟨hperm, h1, h2, h3, h4, h5⟩ := getProducts_listing arraySort hengine q.sort s.products
  have hbody := getProducts_body toLowerCase arraySort q s
  refine ⟨_, hbody.1, hbody.2, hperm.filter _, ?_, ?_, ?_, ?_, ?_, ?_, ?_⟩
  · intro p
    rw [List.mem_filter, hperm.mem_iff, decide_eq_true_iff]
  · exact fun h => (h1 h).filter _
  · exact fun h => (h2 h).filter _
  · exact fun h => (h3 h).filter _
  · exact fun h => (h4 h).filter _
  · intro a b c d
    rw [h5 a b c d]
  · intro n ws rest hn hws hrest
    have hne := numeral_text_ne_empty n ws rest hn
    constructor
    · intro hq p
      have hb := (price_bound_numeral n ws rest hn hws hrest p.price).1
      simp only [ProductMatches, hq, Supplied]
      constructor
      · rintro ⟨c1, c2, c3, c4⟩
        exact ⟨⟨c1, trivial, c3, c4⟩, hb.mp (c2 hne)⟩
      · rintro ⟨⟨c1, _, c3, c4⟩, c2⟩
        exact ⟨c1, fun _ => hb.mpr c2, c3, c4⟩
    · intro hq p
      have hb := (price_bound_numeral n ws rest hn hws hrest p.price).2
      simp only [ProductMatches, hq, Supplied]
      constructor
      · rintro ⟨c1, c2, c3, c4⟩
        exact ⟨⟨c1, c2, trivial, c4⟩, hb.mp (c3 hne)⟩
      · rintro ⟨⟨c1, c2, _, c4⟩, c3⟩
        exact ⟨c1, c2, fun _ => hb.mpr c3, c4⟩

/-- Worked instance of C28: the sample store listed for
`?minPrice=10.5&search=ITEM&sort=price_desc`; the product at price 10 is below
the bound and is left out. -/
theorem getProducts_filters_and_order_witness :
    OrdersByComparator (sampleSort : (Product → Product → Int) → List Product → List Product) ∧
    (getProducts asciiToLowerCase sampleSort priceAscending sampleStore).body
      = .ok [sampleProduct "Q" 10 1, sampleProduct "P" 100 5] ∧
    (getProducts asciiToLowerCase sampleSort fromFiftyAscending sampleStore).body
      = .ok [sampleProduct "P" 100 5] ∧
    (getProducts asciiToLowerCase sampleSort fromTenAndAHalf sampleStore).body
      = .ok [sampleProduct "P" 100 5] ∧
    (∃ listed,
      (getProducts asciiToLowerCase sampleSort fromTenAndAHalf sampleStore).status = 200 ∧
      (getProducts asciiToLowerCase sampleSort fromTenAndAHalf sampleStore).body = .ok listed ∧
      List.Perm listed
        (List.filter (fun p => decide (ProductMatches asciiToLowerCase fromTenAndAHalf p))
          sampleStore.products) ∧
      (∀ p, p ∈ listed ↔ p ∈ sampleStore.products ∧
          ProductMatches asciiToLowerCase fromTenAndAHalf p) ∧
      (fromTenAndAHalf.sort = some "price_asc" →
        List.Pairwise (fun a b : Product => a.price ≤ b.price) listed) ∧
      (fromTenAndAHalf.sort = some "price_desc" →
        List.Pairwise (fun a b : Product => b.price ≤ a.price) listed) ∧
      (fromTenAndAHalf.sort = some "name_asc" →
        List.Pairwise (fun a b : Product => StringLe a.name b.name) listed) ∧
      (fromTenAndAHalf.sort = some "newest" →
        List.Pairwise (fun a b : Product => StringLe b.createdAt a.createdAt) listed) ∧
      (fromTenAndAHalf.sort ≠ some "price_asc" → fromTenAndAHalf.sort ≠ some "price_desc" →
        fromTenAndAHalf.sort ≠ some "name_asc" → fromTenAndAHalf.sort ≠ some "newest" →
        listed = List.filter (fun p => decide (ProductMatches asciiToLowerCase fromTenAndAHalf p))
          sampleStore.products) ∧
      (∀ (n : Numeral) (ws rest : List Char), (n.whole ≠ [] ∨ n.frac ≠ []) →
        (∀ c ∈ ws, jsWhiteSpace c = true) → EndsNumeral rest →
        (fromTenAndAHalf.minPrice = some (String.mk (ws ++ n.render ++ rest)) →
          ∀ p, ProductMatches asciiToLowerCase fromTenAndAHalf p ↔
            ProductMatches asciiToLowerCase { fromTenAndAHalf with minPrice := none } p ∧
              n.value ≤ (p.price : ℚ)) ∧
        (fromTenAndAHalf.maxPrice = some (String.mk (ws ++ n.render ++ rest)) →
          ∀ p, ProductMatches asciiToLowerCase fromTenAndAHalf p ↔
            ProductMatches asciiToLowerCase { fromTenAndAHalf with maxPrice := none } p ∧
              (p.price : ℚ) ≤ n.value))) :=
  ⟨sampleSort_ordersByComparator, rfl, rfl, rfl,
   getProducts_filters_and_order asciiToLowerCase sampleSort sampleSort_ordersByComparator
     fromTenAndAHalf sampleStore⟩


/-! ### The status history -/

theorem Database.update_fst_of_find {α : Type} [Record α] (xs : List α) (id : String)
    (f : α → α) (now : String) (x : α) (hf : Database.findById xs id = some x) :
    (Database.update xs id f now).1 = some (Record.withUpdatedAt (f x) now) := by
  induction xs with
  | nil => simp [Database.findById] at hf
  | cons y ys ih =>
    rw [Database.findById_cons] at hf
    rw [Database.update_cons]
    by_cases hy : Record.id y = id
    · rw [if_pos hy] at hf ⊢
      cases hf
      rfl
    · rw [if_neg hy] at hf ⊢
      exact ih hf

theorem Database.update_mem_of_find {α : Type} [Record α] (xs : List α) (id : String)
    (f : α → α) (now : String) (x : α) (hf : Database.findById xs id = some x) :
    ∀ y ∈ (Database.update xs id f now).2, y ∈ xs ∨ y = Record.withUpdatedAt (f x) now := by
  induction xs with
  | nil => simp [Database.findById] at hf
  | cons z zs ih =>
    rw [Database.findById_cons] at hf
    rw [Database.update_cons]
    by_cases hz : Record.id z = id
    · rw [if_pos hz] at hf ⊢
      cases hf
      intro y hy
      simp only [List.mem_cons] at hy ⊢
      rcases hy with h | h
      · right; exact h
      · left; right; exact h
    · rw [if_neg hz] at hf ⊢
      intro y hy
      simp only [List.mem_cons] at hy ⊢
      rcases hy with h | h
      · left; left; exact h
      · rcases ih hf y h with h' | h'
        · left; right; exact h'
        · right; exact h'

theorem statusUpdates_history (env : Env) (admin : Payload) (body : StatusBody)
    (order stored : Order) (now : String) :
    (Record.withUpdatedAt (statusUpdates env admin body order stored) now).statusHistory =
      (if truthy body.status then
        order.statusHistory ++
          [{ status := body.status.getD "", timestamp := env.now, note := none,
             updatedBy := some admin.id }]
       else stored.statusHistory) := by
  unfold statusUpdates
  split_ifs <;> rfl

theorem statusUpdates_tracks (env : Env) (admin : Payload) (body : StatusBody)
    (order : Order) (now : String) (h : HistoryTracksStatus order) :
    HistoryTracksStatus (Record.withUpdatedAt (statusUpdates env admin body order order) now) := by
  unfold HistoryTracksStatus at h ⊢
  rw [statusUpdates_history, (statusUpdates_status env admin body order order now).1]
  split_ifs
  · simp
  · exact h

theorem HistoryTracksStatus.nonempty (o : Order) (h : HistoryTracksStatus o) :
    o.statusHistory ≠ [] := by
  intro hnil
  unfold HistoryTracksStatus at h
  rw [hnil] at h
  simp at h

theorem updateOrderStatus_keeps_history (env : Env) (admin : Payload) (id : String)
    (body : StatusBody) (s : Store) (hs : ∀ o ∈ s.orders, HistoryTracksStatus o) :
    ∀ o ∈ (updateOrderStatus env admin id body s).2.orders, HistoryTracksStatus o := by
  rcases updateOrderStatus_orders env admin id body s with h | ⟨order, hf, _, _, h⟩
  · rw [h]; exact hs
  · rw [h]
    intro o ho
    rcases Database.update_mem_of_find s.orders id _ env.now order hf o ho with h1 | h1
    · exact hs o h1
    · rw [h1]
      exact statusUpdates_tracks env admin body order env.now
        (hs order (Database.findById_mem s.orders id order hf))

theorem createOrder_keeps_history (env : Env) (user : Option Payload) (body : CreateOrderBody)
    (s : Store) (hs : ∀ o ∈ s.orders, HistoryTracksStatus o) :
    ∀ o ∈ (createOrder env user body s).2.orders, HistoryTracksStatus o := by
  by_cases h : (createOrder env user body s).1.status = 201
  · obtain ⟨order, _, ho, hst, _, hhist⟩ := createOrder_pending env user body s h
    rw [ho]
    intro o hmem
    rw [List.mem_append] at hmem
    rcases hmem with hmem | hmem
    · exact hs o hmem
    · simp only [List.mem_singleton] at hmem
      subst hmem
      unfold HistoryTracksStatus
      rw [hhist, hst]
      rfl
  · rw [createOrder_orders_unchanged env user body s h]
    exact hs

theorem operation_keeps_history (op : Operation) (s : Store)
    (hs : ∀ o ∈ s.orders, HistoryTracksStatus o) :
    ∀ o ∈ (op.run s).orders, HistoryTracksStatus o := by
  have hsame : ∀ t : Store, t.orders = s.orders → ∀ o ∈ t.orders, HistoryTracksStatus o :=
    fun t ht => by rw [ht]; exact hs
  cases op with
  | createOrder env user body => exact createOrder_keeps_history env user body s hs
  | updateOrderStatus env admin id body =>
    exact updateOrderStatus_keeps_history env admin id body s hs
  | deleteProduct id => exact hsame _ (deleteProduct_orders id s)
  | register crypto config env body => exact hsame _ (register_orders crypto config env body s)
  | login crypto config env body => exact hsame _ (login_orders crypto config env body s)
  | adminLogin crypto config env body =>
    exact hsame _ (adminLogin_orders crypto config env body s)
  | refreshToken crypto config env body =>
    exact hsame _ (refreshToken_orders crypto config env body s)
  | initializeDefaultAdmin crypto config env arraySort =>
    exact hsame _ (initializeDefaultAdmin_orders crypto config env arraySort s)
  | getProduct env id => exact hsame _ (getProduct_orders env id s)
  | createProduct env admin body => exact hsame _ (createProduct_orders env admin body s)
  | updateProduct env id body => exact hsame _ (updateProduct_orders env id body s)
  | logout body => exact hsame _ (logout_orders body s)
  | updateProfile crypto config env user body =>
    exact hsame _ (updateProfile_orders crypto config env user body s)

theorem runAll_keeps_history (ops : List Operation) :
    ∀ s : Store, (∀ o ∈ s.orders, HistoryTracksStatus o) →
      ∀ o ∈ (runAll ops s).orders, HistoryTracksStatus o := by
  induction ops with
  | nil => intro s hs; exact hs
  | cons op ops ih => intro s hs; exact ih _ (operation_keeps_history op s hs)

/-- What an accepted `updateOrderStatus` does to the order it finds: the answer
is the updated order, stored in place of the old one, whose history is the
old history with one entry appended when the request carries a status and
the old history otherwise. -/
theorem updateOrderStatus_accepted (env : Env) (admin : Payload) (id : String)
    (body : StatusBody) (s : Store) (order : Order)
    (hf : Adapter.findById s.orders id = some order)
    (h : (updateOrderStatus env admin id body s).1.status = 200) :
    ∃ updated, (updateOrderStatus env admin id body s).1.body = .ok (some updated) ∧
      Adapter.findById (updateOrderStatus env admin id body s).2.orders id = some updated ∧
      updated.statusHistory =
        (if truthy body.status then
          order.statusHistory ++
            [{ status := body.status.getD "", timestamp := env.now, note := none,
               updatedBy := some admin.id }]
         else order.statusHistory) ∧
      updated.status = (if truthy body.status then body.status.getD "" else order.status) := by
  have hf' : Database.findById s.orders id = some order := hf
  have hid : ∀ y : Order,
      Record.id (Record.withUpdatedAt (statusUpdates env admin body order y) env.now) =
        Record.id y := by
    intro y
    have := statusUpdates_fixedPart env admin body order y env.now
    simp only [Order.fixedPart, Prod.mk.injEq] at this
    exact this.1
  unfold updateOrderStatus at h ⊢
  rw [hf] at h ⊢
  simp only [] at h ⊢
  by_cases h1 : (truthy body.status && !validStatuses.contains (body.status.getD "")) = true
  · rw [if_pos h1] at h
    simp at h
  · rw [if_neg h1] at h ⊢
    by_cases h2 : (truthy body.paymentStatus &&
        !validPaymentStatuses.contains (body.paymentStatus.getD "")) = true
    · rw [if_pos h2] at h
      simp at h
    · rw [if_neg h2]
      refine ⟨Record.withUpdatedAt (statusUpdates env admin body order order) env.now,
        ?_, ?_, statusUpdates_history env admin body order order env.now,
        (statusUpdates_status env admin body order order env.now).1⟩
      · show Except.ok (Database.update s.orders id _ env.now).1 = _
        rw [Database.update_fst_of_find s.orders id _ env.now order hf']
      · exact Database.update_find_same s.orders id (statusUpdates env admin body order)
          env.now order hid hf'

/-- C29. Let every stored order have a status history whose last entry records
its status (as in an empty orders file).  After any sequence of operations,
`createOrder` and `updateOrderStatus` among them, every stored order has a
non-empty status history whose last entry's status is the order's status.  An
order `createOrder` stores starts with the single entry `pending`; an accepted
`updateOrderStatus` that carries a status appends exactly one entry, with that
status, to the history of the order it updates, and one that carries no
status leaves the history unchanged. -/
theorem status_history_tracks_status (ops : List Operation) (s : Store)
    (hs : ∀ o ∈ s.orders, HistoryTracksStatus o) :
    (∀ o ∈ (runAll ops s).orders, o.statusHistory ≠ [] ∧ HistoryTracksStatus o) ∧
    (∀ (env : Env) (user : Option Payload) (body : CreateOrderBody),
      (createOrder env user body s).1.status = 201 →
      ∃ order, (createOrder env user body s).1.body = .ok order ∧
        (createOrder env user body s).2.orders = s.orders ++ [order] ∧
        order.status = "pending" ∧
        order.statusHistory =
          [{ status := "pending", timestamp := env.now, note := some "Order placed",
             updatedBy := none }]) ∧
    (∀ (env : Env) (admin : Payload) (id : String) (body : StatusBody) (order : Order),
      Adapter.findById s.orders id = some order →
      (updateOrderStatus env admin id body s).1.status = 200 →
      ∃ updated, (updateOrderStatus env admin id body s).1.body = .ok (some updated) ∧
        Adapter.findById (updateOrderStatus env admin id body s).2.orders id = some updated ∧
        updated.statusHistory =
          (if truthy body.status then
            order.statusHistory ++
              [{ status := body.status.getD "", timestamp := env.now, note := none,
                 updatedBy := some admin.id }]
           else order.statusHistory) ∧
        updated.status = (if truthy body.status then body.status.getD "" else order.status)) := by
  refine ⟨?_, ?_, ?_⟩
  · intro o ho
    have h := runAll_keeps_history ops s hs o ho
    exact ⟨HistoryTracksStatus.nonempty o h, h⟩
  · intro env user body h
    obtain ⟨order, hb, ho, hst, _, hhist⟩ := createOrder_pending env user body s h
    exact ⟨order, hb, ho, hst, hhist⟩
  · intro env admin id body order hf h
    exact updateOrderStatus_accepted env admin id body s order hf h

/-- Worked instance of C29: in the sample shop the admin ships order `O1` and
then marks it paid; the history grows by the entry `shipped` and then stays
as it is. -/
theorem status_history_tracks_status_witness :
    (∀ o ∈ sampleShop.orders, HistoryTracksStatus o) ∧
    List.map (fun o => (o.status, List.map (fun e : StatusEntry => e.status) o.statusHistory))
      (runAll [.updateOrderStatus sampleEnv sampleAdminPayload "O1"
                 { status := some "shipped", paymentStatus := none },
               .updateOrderStatus sampleEnv sampleAdminPayload "O1"
                 { status := none, paymentStatus := some "paid" }] sampleShop).orders
      = [("shipped", ["pending", "shipped"])] ∧
    (∀ o ∈ (runAll [.updateOrderStatus sampleEnv sampleAdminPayload "O1"
                 { status := some "shipped", paymentStatus := none },
               .updateOrderStatus sampleEnv sampleAdminPayload "O1"
                 { status := none, paymentStatus := some "paid" }] sampleShop).orders,
      o.statusHistory ≠ [] ∧ HistoryTracksStatus o) :=
  ⟨by decide, by decide,
   (status_history_tracks_status
      [.updateOrderStatus sampleEnv sampleAdminPayload "O1"
         { status := some "shipped", paymentStatus := none },
       .updateOrderStatus sampleEnv sampleAdminPayload "O1"
         { status := none, paymentStatus := some "paid" }] sampleShop (by decide)).1⟩


/-! ### The checkout page and the stored order -/

theorem getTotal_eq_sum (items : List CartItem) :
    getTotal items = (List.map (fun item : CartItem => item.price * item.quantity) items).sum := by
  have h : ∀ (acc : Int) (l : List CartItem),
      List.foldl (fun sum item => sum + item.price * item.quantity) acc l =
        acc + (List.map (fun item : CartItem => item.price * item.quantity) l).sum := by
    intro acc l
    induction l generalizing acc with
    | nil => simp
    | cons x xs ih =>
      simp only [List.foldl_cons, List.map_cons, List.sum_cons]
      rw [ih]
      ring
  unfold getTotal
  rw [h]
  simp

theorem lineItems_sum_eq_cart (products : List Product) (cart : List CartItem) :
    ∀ stored : List OrderItem,
      List.Forall₂ (LineItemOf products)
        (List.map (fun item : CartItem => LineItem.mk item.productId (.num item.quantity)) cart)
        stored →
      (∀ item ∈ cart, ∃ p, Adapter.findById products item.productId = some p ∧
        p.price = item.price) →
      JNum.sum (List.map (fun i : OrderItem => i.subtotal) stored) =
        .num (List.map (fun item : CartItem => item.price * item.quantity) cart).sum := by
  induction cart with
  | nil =>
    intro stored h _
    simp only [List.map_nil, List.forall₂_nil_left_iff] at h
    subst h
    rfl
  | cons c cs ih =>
    intro stored h hprice
    simp only [List.map_cons] at h
    rw [List.forall₂_cons_left_iff] at h
    obtain ⟨o, os, ho, hos, rfl⟩ := h
    simp only [List.map_cons, List.sum_cons, JNum.sum_cons]
    rw [ih os hos (fun item hi => hprice item (List.mem_cons_of_mem _ hi))]
    obtain ⟨p, hp, _, _, _, _, _, _, hsub⟩ := ho
    obtain ⟨p', hp', hpp⟩ := hprice c (List.mem_cons_self _ _)
    have hsame : p = p' := by
      have : some p = some p' := by rw [← hp]; exact hp'
      exact Option.some.inj this
    rw [hsub, hsame, hpp]
    rfl

/-- C30. For every cart whose items carry the price stored for their product,
and whose order request `createOrder` answers with 201, the subtotal, the
shipping and the total the checkout page computes from the cart (sum of
price times quantity; shipping 0 above 500 and 50 otherwise; their sum) equal
the subtotal, shipping and total of the order stored for the request. -/
theorem checkout_totals_match_order (env : Env) (user : Option Payload) (customer : Customer)
    (paymentMethod : String) (cart : List CartItem) (s : Store)
    (hprice : ∀ item ∈ cart, ∃ p, Adapter.findById s.products item.productId = some p ∧
      p.price = item.price)
    (h : (createOrder env user (checkoutRequest cart customer paymentMethod) s).1.status = 201) :
    ∃ order,
      (createOrder env user (checkoutRequest cart customer paymentMethod) s).1.body = .ok order ∧
      (createOrder env user (checkoutRequest cart customer paymentMethod) s).2.orders =
        s.orders ++ [order] ∧
      order.subtotal = .num (checkoutTotals cart).subtotal ∧
      order.shipping = (checkoutTotals cart).shipping ∧
      order.total = .num (checkoutTotals cart).total := by
  obtain ⟨items, total, orderItems, products, order, hi, hl, hb, _, ho, _, hsub, hship, htot⟩ :=
    createOrder_created env user _ s h
  obtain ⟨stored, _, h2, h3⟩ := orderLoop_items _ _ _ _ _ _ _ _ hl
  have hitems : items =
      List.map (fun item : CartItem => LineItem.mk item.productId (.num item.quantity)) cart := by
    have : some items = some (List.map
        (fun item : CartItem => LineItem.mk item.productId (.num item.quantity)) cart) := by
      rw [← hi]; rfl
    exact Option.some.inj this
  rw [hitems] at h3
  have htotal : total = .num (getTotal cart) := by
    rw [h2, getTotal_eq_sum, lineItems_sum_eq_cart s.products cart stored h3 hprice]
    exact JNum.zero_add _
  have hlt : JNum.lt 500 total = decide (getTotal cart > 500) := by
    rw [htotal]
    rfl
  refine ⟨order, hb, ho, ?_, ?_, ?_⟩
  · rw [hsub, htotal]; rfl
  · rw [hship, hlt]
    by_cases hgt : getTotal cart > 500 <;> simp [checkoutTotals, hgt]
  · rw [htot, hlt, htotal]
    by_cases hgt : getTotal cart > 500 <;> simp [checkoutTotals, hgt, JNum.add]

/-- Worked instance of C30: the sample cart checked out against the sample
store; the page shows 210, 50 and 260, and so does the stored order. -/
theorem checkout_totals_match_order_witness :
    (∀ item ∈ sampleCart, ∃ p, Adapter.findById sampleStore.products item.productId = some p ∧
      p.price = item.price) ∧
    (createOrder sampleEnv none (checkoutRequest sampleCart sampleCustomer "cod")
      sampleStore).1.status = 201 ∧
    checkoutTotals sampleCart = { subtotal := 210, shipping := 50, total := 260 } ∧
    ∃ order,
      (createOrder sampleEnv none (checkoutRequest sampleCart sampleCustomer "cod")
        sampleStore).1.body = .ok order ∧
      (createOrder sampleEnv none (checkoutRequest sampleCart sampleCustomer "cod")
        sampleStore).2.orders = sampleStore.orders ++ [order] ∧
      order.subtotal = .num (checkoutTotals sampleCart).subtotal ∧
      order.shipping = (checkoutTotals sampleCart).shipping ∧
      order.total = .num (checkoutTotals sampleCart).total :=
  ⟨by decide, by decide, by decide,
   checkout_totals_match_order sampleEnv none sampleCustomer "cod" sampleCart sampleStore
     (by decide) (by decide)⟩

end Himorganic
